import Mathlib

/-!
# Authoritative world session (`worldcontrol.go`) and name registry (`worldrpc.go`)

A shallow embedding of the match handler of the world session: the session
state (`MatchState`), the five dispatch handlers (`Operations`), and the
lifecycle callbacks (`MatchInit`, `MatchJoinAttempt`, `MatchJoin`,
`MatchLoop`, `MatchLeave`, `MatchSignal`, `MatchTerminate`); and of the RPCs
that reserve and release character names.

Conventions of the embedding.

* A Go `map[string]V` is an association list `GoMap V` read with `get?`,
  written with `set` (overwrite in place, append when the key is new) and
  shrunk with `delete`.  Iteration (`range`) visits the entries in list order;
  Go leaves that order unspecified.
* A Go `error` is an `Option String` (`none` is `nil`).
* The host (`runtime.NakamaModule`, `runtime.MatchDispatcher`) and
  `encoding/json` are not code of the repository: they are the fields of a
  `Runtime W`, where `W` is the state of the outside world.  Every theorem is
  proved for an arbitrary runtime.
* A handler mutates the state through a pointer, so its result carries the
  state it leaves behind also when it returns an error.
* Every call to the host is recorded, in order, in a trace of `Event`s.
* A run-time panic (nil function call, nil pointer dereference) is
  `Except.error`.
* `float64` values are only stored and copied by the program; they are
  rationals here.
-/

namespace World

/-! ## Go maps -/

/-- A Go `map[string]V`. -/
abbrev GoMap (V : Type) := List (String × V)

namespace GoMap

variable {V : Type}

/-- The lookup `v, ok := m[k]`. -/
def get? : GoMap V → String → Option V
  | [], _ => none
  | (k', v) :: rest, k => if k' = k then some v else get? rest k

/-- The assignment `m[k] = v`. -/
def set : GoMap V → String → V → GoMap V
  | [], k, v => [(k, v)]
  | (k', v') :: rest, k, v => if k' = k then (k, v) :: rest else (k', v') :: set rest k v

/-- The builtin `delete(m, k)`. -/
def delete : GoMap V → String → GoMap V
  | [], _ => []
  | (k', v') :: rest, k => if k' = k then delete rest k else (k', v') :: delete rest k

/-- The read `m[k]` without the `ok` flag: the zero value when the key is absent. -/
def getD (m : GoMap V) (k : String) (zero : V) : V :=
  (m.get? k).getD zero

/-- The keys of the map, in iteration order. -/
def keys (m : GoMap V) : List String := m.map Prod.fst

end GoMap

/-! ## Data model -/

/-- The host's `runtime.Presence`: a connection handle of a participant. -/
structure Presence where
  userId : String
  sessionId : String
deriving DecidableEq, Repr

/-- The host's `runtime.MatchData`: one inbound message. -/
structure MatchData where
  userId : String
  opCode : Int
  data : String
deriving DecidableEq, Repr

/-- The type `float64`. -/
abbrev Float64 := ℚ

structure Position where
  x : Float64
  y : Float64
deriving DecidableEq, Repr

structure Input where
  direction : Float64
  jump : Int
deriving DecidableEq, Repr

structure MatchState where
  presences : GoMap Presence
  emptyTicks : Int
  inputs : GoMap Input
  positions : GoMap Position
  colors : GoMap String
  names : GoMap String
deriving DecidableEq, Repr

structure UpdatePositionMessage where
  id : String
  pos : Position
deriving DecidableEq, Repr

structure UpdateInputMessage where
  id : String
  input : Float64
deriving DecidableEq, Repr

structure UpdateColorMessage where
  id : String
  color : String
deriving DecidableEq, Repr

structure DoSpawnMessage where
  id : String
  color : String
  name : String
deriving DecidableEq, Repr

structure UpdateStateMessage where
  positions : GoMap Position
  inputs : GoMap Input
deriving DecidableEq, Repr

/-- The anonymous struct `dispatchState` of `doSpawnOp`. -/
structure DispatchState where
  positions : GoMap Position
  inputs : GoMap Input
  colors : GoMap String
  names : GoMap String
deriving DecidableEq, Repr

/-- The host's `runtime.StorageRead`. -/
structure StorageRead where
  collection : String
  key : String
  userID : String
deriving DecidableEq, Repr

/-- The host's `runtime.StorageWrite`.  The permissions are zero when a
struct literal leaves them out. -/
structure StorageWrite where
  collection : String
  key : String
  userID : String
  value : String
  permissionRead : Int := 0
  permissionWrite : Int := 0
deriving DecidableEq, Repr

/-- The host's `api.StorageObject`. -/
structure StorageObject where
  collection : String
  key : String
  userId : String
  value : String
deriving DecidableEq, Repr

/-- A value that `json.Unmarshal` stores in an `any`: `nil`, `bool`,
`float64`, `string`, `[]any` or `map[string]any`. -/
inductive GoJson where
  | null
  | bool (b : Bool)
  | number (x : Float64)
  | string (s : String)
  | array (items : List GoJson)
  | object (fields : List (String × GoJson))

/-- A call to the host, as recorded in the trace. -/
inductive Event where
  | storageRead (reads : List StorageRead)
  | storageWrite (writes : List StorageWrite)
  | broadcast (opCode : Int) (data : String) (presences : Option (List Presence))
      (sender : Option Presence) (reliable : Bool)
  | logError (format : String)
  | logInfo (format : String)
deriving DecidableEq, Repr

/-- The host and the JSON library, over a world of type `W`. -/
structure Runtime (W : Type) where
  storageRead : W → List StorageRead → Except String (List StorageObject) × W
  storageWrite : W → List StorageWrite → Option String × W
  broadcastMessage : W → Int → String → Option (List Presence) → Option Presence → Bool →
    Option String × W
  unmarshalUpdatePosition : String → Except String UpdatePositionMessage
  unmarshalUpdateInput : String → Except String UpdateInputMessage
  unmarshalDoSpawn : String → Except String DoSpawnMessage
  unmarshalUpdateColor : String → Except String UpdateColorMessage
  unmarshalPosition : String → Position → Except String Position
  marshalPosition : Position → Except String String
  marshalDispatchState : DispatchState → Except String String
  marshalUpdateState : UpdateStateMessage → Except String String
  /-- The call `json.Unmarshal(data, &m)` for a `map[string]any` holding `m`. -/
  unmarshalObject : String → GoMap GoJson → Except String (GoMap GoJson)
  /-- The call `json.Marshal(data)` for the map with the one key "names". -/
  marshalNames : List String → Except String String

/-- What a handler leaves behind: its `error`, the state after its in-place
mutations, the world, and the host calls it made. -/
structure OpResult (W : Type) where
  err : Option String
  state : MatchState
  world : W
  trace : List Event

def updatePosition : Int := 1
def updateInput : Int := 2
def updateState : Int := 3
def updateJump : Int := 4
def doSpawn : Int := 5
def updateColor : Int := 6
def initialState : Int := 7

def spawnPosition : List Float64 := [1800, 1280]

def newMatchState : MatchState :=
  { presences := [], emptyTicks := 0, inputs := [], positions := [], colors := [], names := [] }

/-! ## Dispatch handlers -/

section Handlers

variable {W : Type}

def updatePositionOp (rt : Runtime W) (msg : MatchData) (state : MatchState) (w : W) :
    OpResult W :=
  match rt.unmarshalUpdatePosition msg.data with
  | .error e => ⟨some e, state, w, []⟩
  | .ok positionUpdate =>
    let id := positionUpdate.id
    let position := positionUpdate.pos
    match state.positions.get? id with
    | none => ⟨some ("position does not exist for user: " ++ id), state, w, []⟩
    | some _ => ⟨none, { state with positions := state.positions.set id position }, w, []⟩

/-- The handler of op 2.  `input` is a copy of the map entry (the map holds
`Input` values, not pointers): the assignment to `input.Direction` changes
the local copy only, and nothing is stored back. -/
def updateInputOp (rt : Runtime W) (msg : MatchData) (state : MatchState) (w : W) :
    OpResult W :=
  match rt.unmarshalUpdateInput msg.data with
  | .error e => ⟨some e, state, w, []⟩
  | .ok inputUpdate =>
    let id := inputUpdate.id
    let dir := inputUpdate.input
    match state.inputs.get? id with
    | none => ⟨some ("inputs does not exist for user: " ++ id), state, w, []⟩
    | some input =>
      let _input : Input := { input with direction := dir }
      ⟨none, state, w, []⟩

/-- The handler of op 4.  As in `updateInputOp`, `input` is a local copy. -/
def updateJumpOp (rt : Runtime W) (msg : MatchData) (state : MatchState) (w : W) :
    OpResult W :=
  match rt.unmarshalUpdateInput msg.data with
  | .error e => ⟨some e, state, w, []⟩
  | .ok inputUpdate =>
    let id := inputUpdate.id
    match state.inputs.get? id with
    | none => ⟨some ("inputs does not exist for user: " ++ id), state, w, []⟩
    | some input =>
      let _input : Input := { input with jump := 1 }
      ⟨none, state, w, []⟩

/-- The loop `for _, object := range positions` of `doSpawnOp`: every object
is decoded into the one `position` and stored; a decode error returns at once. -/
def spawnReadLoop (rt : Runtime W) (userId : String) :
    List StorageObject → Position → MatchState → Bool → Option String × MatchState × Bool
  | [], _, state, isSet => (none, state, isSet)
  | object :: rest, position, state, isSet =>
    match rt.unmarshalPosition object.value position with
    | .error e => (some e, state, isSet)
    | .ok position' =>
      spawnReadLoop rt userId rest position'
        { state with positions := state.positions.set userId position' } true

/-- The second half of `doSpawnOp` (from `dispatchState` on): the snapshot is
encoded, the connection handle of `userId` is looked up, and the two
broadcasts are sent.  The state is only read. -/
def spawnBroadcasts (rt : Runtime W) (msg : MatchData) (userId : String)
    (state : MatchState) (w : W) : Option String × W × List Event :=
  let dispatchState : DispatchState :=
    { positions := state.positions, inputs := state.inputs,
      colors := state.colors, names := state.names }
  match rt.marshalDispatchState dispatchState with
  | .error e => (some e, w, [.logError "failed to marshal data: %#v"])
  | .ok encoded =>
  match state.presences.get? userId with
  | none =>
    -- `return err`, where `err` is the nil left by the successful `json.Marshal`
    (none, w, [.logError "presence not found for user: %s"])
  | some presence =>
  match rt.broadcastMessage w initialState encoded none (some presence) true with
  | (some e, w1) => (some e, w1, [.broadcast initialState encoded none (some presence) true])
  | (none, w1) =>
  match rt.broadcastMessage w1 doSpawn msg.data none (some presence) true with
  | (err, w2) =>
    (err, w2, [.broadcast initialState encoded none (some presence) true,
               .broadcast doSpawn msg.data none (some presence) true])

def doSpawnOp (rt : Runtime W) (msg : MatchData) (state : MatchState) (w : W) :
    OpResult W :=
  match rt.unmarshalDoSpawn msg.data with
  | .error e => ⟨some e, state, w, []⟩
  | .ok spawn =>
    let userId := spawn.id
    let name := spawn.name
    match state.names.get? userId with
    | none =>
      ⟨some "cannot update name for userID, existing name does not exist", state, w, []⟩
    | some _ =>
    match state.colors.get? userId with
    | none =>
      ⟨some "cannot update color for userID, existing color does not exist", state, w, []⟩
    | some _ =>
    let state1 : MatchState :=
      { state with names := state.names.set userId name,
                   colors := state.colors.set userId spawn.color }
    let readParams : List StorageRead :=
      [{ collection := "player_data", key := "position_" ++ name, userID := msg.userId }]
    match rt.storageRead w readParams with
    | (.error e, w1) =>
      ⟨some e, state1, w1, [.storageRead readParams, .logError "failed to read storage: %#v"]⟩
    | (.ok positions, w1) =>
    match spawnReadLoop rt userId positions ⟨0, 0⟩ state1 false with
    | (some e, state2, _) => ⟨some e, state2, w1, [.storageRead readParams]⟩
    | (none, state2, isSet) =>
    let state3 : MatchState :=
      if !isSet then
        { state2 with positions :=
            state2.positions.set userId ⟨spawnPosition.getD 0 0, spawnPosition.getD 1 0⟩ }
      else state2
    let sent := spawnBroadcasts rt msg userId state3 w1
    ⟨sent.1, state3, sent.2.1, .storageRead readParams :: sent.2.2⟩

def updateColorOp (rt : Runtime W) (msg : MatchData) (state : MatchState) (w : W) :
    OpResult W :=
  let data := msg.data
  match rt.unmarshalUpdateColor data with
  | .error e => ⟨some e, state, w, []⟩
  | .ok colorUpdate =>
    let id := colorUpdate.id
    let color := colorUpdate.color
    let state1 : MatchState :=
      match state.colors.get? id with
      | some _ => { state with colors := state.colors.set id color }
      | none => state
    match rt.broadcastMessage w updateColor data none none true with
    | (err, w1) => ⟨err, state1, w1, [.broadcast updateColor data none none true]⟩

/-- The dispatch table: a lookup of an op code without an entry gives the nil
function value. -/
def Operations (op : Int) : Option (Runtime W → MatchData → MatchState → W → OpResult W) :=
  if op = updatePosition then some updatePositionOp
  else if op = updateInput then some updateInputOp
  else if op = updateJump then some updateJumpOp
  else if op = doSpawn then some doSpawnOp
  else if op = updateColor then some updateColorOp
  else none

end Handlers

/-! ## Lifecycle callbacks -/

/-- A value of type `any` in the position of the match state. -/
inductive GoAny where
  /-- A non-nil `*MatchState`. -/
  | matchState (s : MatchState)
  /-- The nil pointer of type `*MatchState`. -/
  | nilMatchState
  /-- The nil interface value. -/
  | nil
  /-- A value of any other dynamic type. -/
  | other (repr : String)
deriving DecidableEq, Repr

/-- The state, world and trace a loop leaves behind. -/
structure LoopResult (W : Type) where
  state : MatchState
  world : W
  trace : List Event

/-- The message of the run-time panic on a nil function value or nil pointer. -/
def nilDereference : String := "invalid memory address or nil pointer dereference"

section Lifecycle

variable {W : Type}

def MatchJoinAttempt (state : GoAny) (presence : Presence) :
    Except String (GoAny × Bool × String) :=
  match state with
  | .matchState matchState =>
    match matchState.presences.get? presence.userId with
    | some _ => .ok (state, false, "the user is already logged in")
    | none => .ok (state, true, "user can join")
  | .nilMatchState => .error nilDereference
  | _ => .ok (state, false, "state not a valid lobby state object")

def writeToStorage (rt : Runtime W) (w : W) (collection userID key value : String) :
    Option String × W × List Event :=
  let wr : StorageWrite :=
    { collection := collection, userID := userID, key := key, value := value }
  match rt.storageWrite w [wr] with
  | (err, w1) => (err, w1, [.storageWrite [wr]])

/-- The loop `for userID, position := range matchState.positions` of
`MatchTerminate`, over the entries still to visit. -/
def matchTerminateLoop (rt : Runtime W) (matchState : MatchState) :
    List (String × Position) → W → W × List Event
  | [], w => (w, [])
  | (userID, position) :: rest, w =>
    match rt.marshalPosition position with
    | .error _ =>
      let r := matchTerminateLoop rt matchState rest w
      (r.1, .logError "could not marshal position %#v" :: r.2)
    | .ok value =>
      match writeToStorage rt w "player_data"
          ("position_" ++ matchState.names.getD userID "") userID value with
      | (some _, w1, tr) =>
        let r := matchTerminateLoop rt matchState rest w1
        (r.1, tr ++ .logError "could not save player %s position %#v" :: r.2)
      | (none, w1, tr) =>
        let r := matchTerminateLoop rt matchState rest w1
        (r.1, tr ++ r.2)

def MatchTerminate (rt : Runtime W) (w : W) (state : GoAny) :
    Except String (GoAny × W × List Event) :=
  match state with
  | .matchState matchState =>
    let r := matchTerminateLoop rt matchState matchState.positions w
    .ok (state, r.1, r.2)
  | .nilMatchState => .error nilDereference
  | _ => .ok (state, w, [])

def MatchSignal (state : GoAny) (_data : String) : GoAny × String :=
  (state, "")

def MatchInit : GoAny × Int × String :=
  let state := { newMatchState with emptyTicks := 0 }
  let tickRate := 20
  let label := "Social World"
  (.matchState state, tickRate, label)

/-- The loop of `MatchJoin`. -/
def matchJoinLoop : List Presence → MatchState → MatchState
  | [], lobbyState => lobbyState
  | presence :: rest, lobbyState =>
    let userId := presence.userId
    matchJoinLoop rest
      { lobbyState with
        presences := lobbyState.presences.set userId presence,
        positions := lobbyState.positions.set userId ⟨0, 0⟩,
        inputs := lobbyState.inputs.set userId { direction := 0, jump := 0 },
        colors := lobbyState.colors.set userId "1,1,1,1",
        names := lobbyState.names.set userId "User" }

/-- The callback `MatchJoin`.  A failed type assertion is logged and the loop
still runs, on the nil `lobbyState`. -/
def MatchJoin (state : GoAny) (presences : List Presence) :
    Except String (GoAny × List Event) :=
  match state with
  | .matchState lobbyState => .ok (.matchState (matchJoinLoop presences lobbyState), [])
  | .nilMatchState =>
    match presences with
    | [] => .ok (.nilMatchState, [])
    | _ :: _ => .error nilDereference
  | _ =>
    match presences with
    | [] => .ok (.nilMatchState, [.logError "state not a valid match state object"])
    | _ :: _ => .error nilDereference

/-- The loop of `MatchLeave`. -/
def matchLeaveLoop (rt : Runtime W) : List Presence → MatchState → W → LoopResult W
  | [], matchState, w => ⟨matchState, w, []⟩
  | presence :: rest, matchState, w =>
    let userID := presence.userId
    match matchState.names.get? userID with
    | none => matchLeaveLoop rt rest matchState w
    | some name =>
    match matchState.positions.get? userID with
    | none => matchLeaveLoop rt rest matchState w
    | some position =>
    match rt.marshalPosition position with
    | .error _ =>
      let r := matchLeaveLoop rt rest matchState w
      { r with trace := .logError "could not marshal position %#v" :: r.trace }
    | .ok value =>
      match writeToStorage rt w "player_data" userID ("position_" ++ name) value with
      | (err, w1, tr) =>
        let logged : List Event :=
          match err with
          | some _ => [.logError "could not save player's position %#v"]
          | none => []
        let r := matchLeaveLoop rt rest
          { matchState with
            presences := matchState.presences.delete userID,
            positions := matchState.positions.delete userID,
            inputs := matchState.inputs.delete userID,
            colors := matchState.colors.delete userID,
            names := matchState.names.delete userID } w1
        { r with trace := tr ++ logged ++ r.trace }

def MatchLeave (rt : Runtime W) (w : W) (state : GoAny) (presences : List Presence) :
    Except String (GoAny × W × List Event) :=
  match state with
  | .matchState matchState =>
    let r := matchLeaveLoop rt presences matchState w
    .ok (.matchState r.state, r.world, r.trace)
  | .nilMatchState =>
    match presences with
    | [] => .ok (.nilMatchState, w, [])
    | _ :: _ => .error nilDereference
  | _ => .ok (.nilMatchState, w, [.logError "state not a valid lobby state object"])

def broadcastState (rt : Runtime W) (w : W) (state : MatchState) :
    Option String × W × List Event :=
  let data : UpdateStateMessage := { positions := state.positions, inputs := state.inputs }
  match rt.marshalUpdateState data with
  | .error e => (some e, w, [])
  | .ok encoded =>
    match rt.broadcastMessage w updateState encoded none none true with
    | (err, w1) => (err, w1, [.broadcast updateState encoded none none true])

/-- The loop `for _, msg := range messages` of `MatchLoop`.  A call of the nil
function value panics and ends the callback. -/
def matchLoopMessages (rt : Runtime W) :
    List MatchData → MatchState → W → Except String (LoopResult W)
  | [], matchState, w => .ok ⟨matchState, w, []⟩
  | msg :: rest, matchState, w =>
    let opCode := msg.opCode
    match Operations opCode with
    | none => .error nilDereference
    | some op =>
      let r := op rt msg matchState w
      let logged : List Event :=
        match r.err with
        | some _ => [.logError "operation failed: type: %d, err: %s"]
        | none => []
      match matchLoopMessages rt rest r.state r.world with
      | .error e => .error e
      | .ok r' => .ok { r' with trace := r.trace ++ logged ++ r'.trace }

/-- The callback `MatchLoop`.  On the nil `*MatchState` every path ends in a
nil dereference (in a handler or, at the latest, in `broadcastState`). -/
def MatchLoop (rt : Runtime W) (w : W) (state : GoAny) (messages : List MatchData) :
    Except String (GoAny × W × List Event) :=
  match state with
  | .matchState matchState =>
    match matchLoopMessages rt messages matchState w with
    | .error e => .error e
    | .ok r =>
      match broadcastState rt r.world r.state with
      | (err, w1, tr) =>
        let logged : List Event :=
          match err with
          | some _ => [.logError "failed to broadcast state update: %s"]
          | none => []
        .ok (.matchState r.state, w1, r.trace ++ tr ++ logged)
  | .nilMatchState => .error nilDereference
  | _ => .ok (.nil, w, [.logError "state not a valid lobby state object"])

end Lifecycle

/-! ## The name registry (`worldrpc.go`) -/

/-- The type assertion `v.([]string)` on an entry of a map that
`json.Unmarshal` filled: the entry is missing, or holds one of the values
of `GoJson`; a JSON array is stored as a `[]any`.  None of them has the
dynamic type `[]string`, so the assertion fails. -/
def assertStringSlice : Option GoJson → Option (List String)
  | none => none
  | some .null => none
  | some (.bool _) => none
  | some (.number _) => none
  | some (.string _) => none
  | some (.array _) => none
  | some (.object _) => none

section Registry

variable {W : Type}

/-- The loop `for _, object := range objects` of `getCharacterNameCollection`:
its result and the log calls it made. -/
def getCharacterNameLoop (rt : Runtime W) :
    List StorageObject → GoMap GoJson → List String → Except String (List String) × List Event
  | [], _, names => (.ok names, [])
  | object :: rest, data, names =>
    match rt.unmarshalObject object.value data with
    | .error e => (.error e, [])
    | .ok data' =>
      match assertStringSlice (data'.get? "names") with
      | none => (.ok names, [.logInfo "Get Character Collection: value: %#v; type: %T"])
      | some list =>
        let r := getCharacterNameLoop rt rest data' (names ++ list)
        (r.1, .logInfo "Get Character Collection: value: %#v; type: %T" :: r.2)

def getCharacterNameCollection (rt : Runtime W) (w : W) :
    Except String (List String) × W × List Event :=
  let params : List StorageRead := [{ collection := "global_data", key := "names", userID := "" }]
  match rt.storageRead w params with
  | (.error e, w1) => (.error e, w1, [.storageRead params])
  | (.ok objects, w1) =>
    let r := getCharacterNameLoop rt objects [] []
    (r.1, w1, .storageRead params :: r.2)

def updateNames (rt : Runtime W) (w : W) (names : List String) :
    Option String × W × List Event :=
  match rt.marshalNames names with
  | .error e => (some e, w, [])
  | .ok bytes =>
    let params : List StorageWrite :=
      [{ collection := "global_data", key := "names", userID := "", value := bytes,
         permissionRead := 2, permissionWrite := 1 }]
    match rt.storageWrite w params with
    | (err, w1) => (err, w1, [.storageWrite params])

def RPCRegisterCharacterName (rt : Runtime W) (w : W) (name : String) :
    (String × Option String) × W × List Event :=
  match getCharacterNameCollection rt w with
  | (.error e, w1, tr) => (("", some e), w1, tr)
  | (.ok names, w1, tr) =>
    if names.any (fun n => n = name) then (("0", none), w1, tr)
    else
      let names := names ++ [name]
      match updateNames rt w1 names with
      | (some e, w2, tr2) => (("", some e), w2, tr ++ tr2)
      | (none, w2, tr2) => (("1", none), w2, tr ++ tr2)

/-- The loop `for _, n := range names` of `RPCRemoveCharacterName`: the flag
`removed` and the slice `updated`. -/
def removeCharacterNameLoop (name : String) :
    List String → Bool → List String → Bool × List String
  | [], removed, updated => (removed, updated)
  | n :: rest, removed, updated =>
    if n = name then removeCharacterNameLoop name rest true updated
    else removeCharacterNameLoop name rest removed (updated ++ [n])

/-- The RPC `remove_character_name`.  The slice `updated` is built and not
used: a found name returns "0" without a write, and otherwise the name is
appended to `names` and written. -/
def RPCRemoveCharacterName (rt : Runtime W) (w : W) (name : String) :
    (String × Option String) × W × List Event :=
  match getCharacterNameCollection rt w with
  | (.error e, w1, tr) => (("", some e), w1, tr)
  | (.ok names, w1, tr) =>
    let looped := removeCharacterNameLoop name names false []
    let removed := looped.1
    let _updated := looped.2
    if removed then (("0", none), w1, tr)
    else
      let names := names ++ [name]
      match updateNames rt w1 names with
      | (some e, w2, tr2) => (("", some e), w2, tr ++ tr2)
      | (none, w2, tr2) => (("1", none), w2, tr ++ tr2)

end Registry

/-! ## Reading a trace -/

/-- The world after the storage has been handed the given writes one at a
time, in order, whatever it answered to each. -/
def applyWrites {W : Type} (rt : Runtime W) (w : W) (writes : List StorageWrite) : W :=
  writes.foldl (fun v wr => (rt.storageWrite v [wr]).2) w

/-- The storage writes of a trace, in order. -/
def writesOf : List Event → List StorageWrite
  | [] => []
  | .storageWrite ws :: rest => ws ++ writesOf rest
  | _ :: rest => writesOf rest

/-- The broadcasts of a trace, in order. -/
def broadcastsOf : List Event → List Event
  | [] => []
  | .broadcast op data ps sender reliable :: rest =>
    .broadcast op data ps sender reliable :: broadcastsOf rest
  | _ :: rest => broadcastsOf rest

/-! ## The batch semantics the loop is compared with -/

section Batch

variable {W : Type}

/-- One message applied on its own: the state and world its handler leaves
behind, whether or not the handler reports an error.  A message without a
handler is passed over. -/
def applyMessage (rt : Runtime W) (sw : MatchState × W) (msg : MatchData) : MatchState × W :=
  match Operations msg.opCode with
  | some op => ((op rt msg sw.1 sw.2).state, (op rt msg sw.1 sw.2).world)
  | none => sw

/-- The messages of a batch applied one at a time, in delivery order. -/
def applyInOrder (rt : Runtime W) (messages : List MatchData) (state : MatchState) (w : W) :
    MatchState × W :=
  messages.foldl (applyMessage rt) (state, w)

/-- A message that fails to decode, or that names a participant without an
entry in the map its operation requires: `positions` for op 1, `inputs` for
ops 2 and 4, `names` and `colors` for op 5, `colors` for op 6. -/
def undeliverable (rt : Runtime W) (msg : MatchData) (state : MatchState) : Bool :=
  if msg.opCode = updatePosition then
    match rt.unmarshalUpdatePosition msg.data with
    | .error _ => true
    | .ok m => (state.positions.get? m.id).isNone
  else if msg.opCode = updateInput ∨ msg.opCode = updateJump then
    match rt.unmarshalUpdateInput msg.data with
    | .error _ => true
    | .ok m => (state.inputs.get? m.id).isNone
  else if msg.opCode = doSpawn then
    match rt.unmarshalDoSpawn msg.data with
    | .error _ => true
    | .ok m => (state.names.get? m.id).isNone || (state.colors.get? m.id).isNone
  else if msg.opCode = updateColor then
    match rt.unmarshalUpdateColor msg.data with
    | .error _ => true
    | .ok m => (state.colors.get? m.id).isNone
  else false

end Batch

/-- The assignments `m[k] = v` for a list of pairs, in order. -/
def GoMap.setAll {V : Type} (m : GoMap V) : List (String × V) → GoMap V
  | [] => m
  | (k, v) :: rest => GoMap.setAll (m.set k v) rest

/-! ## Reachable states -/

/-- The five maps have the same key set: an id has an entry in `presences`
exactly when it has one in each of the other four maps. -/
def KeysAgree (s : MatchState) : Prop :=
  ∀ k, (s.inputs.get? k).isSome = (s.presences.get? k).isSome ∧
    (s.positions.get? k).isSome = (s.presences.get? k).isSome ∧
    (s.colors.get? k).isSome = (s.presences.get? k).isSome ∧
    (s.names.get? k).isSome = (s.presences.get? k).isSome

/-- The session states the host can hold at the end of a callback: the state
of `MatchInit`, and the state returned by `MatchJoin`, `MatchLoop` (on a
batch of table op codes), `MatchLeave`, `MatchSignal` or `MatchTerminate`
from such a state, for any world and any arguments. -/
inductive Reachable {W : Type} (rt : Runtime W) : MatchState → Prop where
  | init (s : MatchState) : MatchInit.1 = .matchState s → Reachable rt s
  | join (s s' : MatchState) (presences : List Presence) (trace : List Event) :
      Reachable rt s → MatchJoin (.matchState s) presences = .ok (.matchState s', trace) →
      Reachable rt s'
  | loop (s s' : MatchState) (w w' : W) (messages : List MatchData) (trace : List Event) :
      Reachable rt s → (∀ m ∈ messages, m.opCode ∈ ([1, 2, 4, 5, 6] : List Int)) →
      MatchLoop rt w (.matchState s) messages = .ok (.matchState s', w', trace) →
      Reachable rt s'
  | leave (s s' : MatchState) (w w' : W) (presences : List Presence) (trace : List Event) :
      Reachable rt s →
      MatchLeave rt w (.matchState s) presences = .ok (.matchState s', w', trace) →
      Reachable rt s'
  | signal (s s' : MatchState) (data : String) :
      Reachable rt s → (MatchSignal (.matchState s) data).1 = .matchState s' →
      Reachable rt s'
  | terminate (s s' : MatchState) (w w' : W) (trace : List Event) :
      Reachable rt s →
      MatchTerminate rt w (.matchState s) = .ok (.matchState s', w', trace) →
      Reachable rt s'

/-- Modelled from the spec: the recipients of a broadcast.  The host's
`BroadcastMessage(opCode, data, presences, sender, reliable)` is not code of
the repository; a nil `presences` addresses every participant of the match
(the broadcasts of ops 3 and 6 pass nil and reach all participants), a
non-nil list addresses the listed ones, and `sender` only tags the message. -/
def recipients (participants : GoMap Presence) : Event → List Presence
  | .broadcast _ _ none _ _ => participants.map Prod.snd
  | .broadcast _ _ (some targets) _ _ => targets
  | _ => []

/-! ## A runtime to run the handlers on

`simRuntime` is one instance of `Runtime`: an in-memory object store that
can be switched off, a dispatcher that can be switched off, and a JSON
codec for the payloads listed in the `sample` tables. -/

structure SimWorld where
  objects : List StorageWrite
  storageDown : Bool
  dispatcherDown : Bool
  /-- The broadcasts the dispatcher accepted, in order. -/
  delivered : List Event := []
deriving DecidableEq, Repr

namespace Sim

def jsonNumber (q : ℚ) : String :=
  if q.den = 1 then toString q.num else toString q.num ++ "/" ++ toString q.den

def jsonString (s : String) : String := "\"" ++ s ++ "\""

def jsonObject (fields : List (String × String)) : String :=
  "\x7b" ++ ",".intercalate (fields.map fun f => jsonString f.1 ++ ":" ++ f.2) ++ "\x7d"

def encodePosition (p : Position) : String :=
  jsonObject [("x", jsonNumber p.x), ("y", jsonNumber p.y)]

def encodeInput (i : Input) : String :=
  jsonObject [("dir", jsonNumber i.direction), ("jmp", toString i.jump)]

def encodeMap {V : Type} (enc : V → String) (m : GoMap V) : String :=
  jsonObject (m.map fun e => (e.1, enc e.2))

def encodeUpdatePosition (m : UpdatePositionMessage) : String :=
  jsonObject [("id", jsonString m.id), ("pos", encodePosition m.pos)]

def encodeUpdateInput (m : UpdateInputMessage) : String :=
  jsonObject [("id", jsonString m.id), ("inp", jsonNumber m.input)]

def encodeDoSpawn (m : DoSpawnMessage) : String :=
  jsonObject [("id", jsonString m.id), ("col", jsonString m.color), ("nm", jsonString m.name)]

def encodeUpdateColor (m : UpdateColorMessage) : String :=
  jsonObject [("id", jsonString m.id), ("color", jsonString m.color)]

def encodeDispatchState (d : DispatchState) : String :=
  jsonObject [("pos", encodeMap encodePosition d.positions),
    ("inp", encodeMap encodeInput d.inputs),
    ("col", encodeMap jsonString d.colors), ("nms", encodeMap jsonString d.names)]

def encodeUpdateState (d : UpdateStateMessage) : String :=
  jsonObject [("pos", encodeMap encodePosition d.positions),
    ("inp", encodeMap encodeInput d.inputs)]

def encodeNames (names : List String) : String :=
  jsonObject [("names", "[" ++ ",".intercalate (names.map jsonString) ++ "]")]

def sampleRegistries : List (List String) := [[], ["Hero"], ["Zed"], ["Hero", "Zed"]]

/-- Decoding over a table of values: the value whose encoding is the text. -/
def decodeVia {α : Type} (enc : α → String) (samples : List α) (data : String) :
    Except String α :=
  match samples.find? (fun a => enc a = data) with
  | some a => .ok a
  | none => .error "invalid character looking for beginning of value"

def samplePositions : List Position := [⟨0, 0⟩, ⟨3, 4⟩, ⟨5, 6⟩, ⟨1800, 1280⟩]

def sampleUpdatePositions : List UpdatePositionMessage :=
  [⟨"u1", ⟨3, 4⟩⟩, ⟨"u1", ⟨5, 6⟩⟩, ⟨"u2", ⟨3, 4⟩⟩, ⟨"u2", ⟨5, 6⟩⟩]

def sampleUpdateInputs : List UpdateInputMessage := [⟨"u1", 1⟩, ⟨"u2", 1⟩]

def sampleDoSpawns : List DoSpawnMessage :=
  [⟨"u1", "0.1,0.2,0.3,1", "Hero"⟩, ⟨"u2", "0.1,0.2,0.3,1", "Hero"⟩]

def sampleUpdateColors : List UpdateColorMessage := [⟨"u1", "0,0,0,1"⟩, ⟨"u2", "0,0,0,1"⟩]

def storageRead (w : SimWorld) (reads : List StorageRead) :
    Except String (List StorageObject) × SimWorld :=
  if w.storageDown then (.error "storage unavailable", w)
  else
    (.ok (reads.filterMap fun r =>
      (w.objects.find? fun o =>
        o.collection = r.collection ∧ o.key = r.key ∧ o.userID = r.userID).map
        fun o => ⟨o.collection, o.key, o.userID, o.value⟩), w)

def storageWrite (w : SimWorld) (writes : List StorageWrite) : Option String × SimWorld :=
  if w.storageDown then (some "storage unavailable", w)
  else (none, { w with objects := writes.reverse ++ w.objects })

def broadcastMessage (w : SimWorld) (opCode : Int) (data : String)
    (presences : Option (List Presence)) (sender : Option Presence) (reliable : Bool) :
    Option String × SimWorld :=
  if w.dispatcherDown then (some "dispatcher unavailable", w)
  else
    (none, { w with delivered :=
      w.delivered ++ [.broadcast opCode data presences sender reliable] })

/-- The value a store holds under a triple: the one of the most recent
write, which is the first in the list of objects. -/
def stored (w : SimWorld) (c k o : String) : Option String :=
  (w.objects.find? fun x => x.collection = c ∧ x.key = k ∧ x.userID = o).map
    fun x => x.value

end Sim

def simRuntime : Runtime SimWorld where
  storageRead := Sim.storageRead
  storageWrite := Sim.storageWrite
  broadcastMessage := Sim.broadcastMessage
  unmarshalUpdatePosition := Sim.decodeVia Sim.encodeUpdatePosition Sim.sampleUpdatePositions
  unmarshalUpdateInput := Sim.decodeVia Sim.encodeUpdateInput Sim.sampleUpdateInputs
  unmarshalDoSpawn := Sim.decodeVia Sim.encodeDoSpawn Sim.sampleDoSpawns
  unmarshalUpdateColor := Sim.decodeVia Sim.encodeUpdateColor Sim.sampleUpdateColors
  unmarshalPosition := fun data _ => Sim.decodeVia Sim.encodePosition Sim.samplePositions data
  marshalPosition := fun p => .ok (Sim.encodePosition p)
  marshalDispatchState := fun d => .ok (Sim.encodeDispatchState d)
  marshalUpdateState := fun d => .ok (Sim.encodeUpdateState d)
  unmarshalObject := fun data m =>
    match Sim.decodeVia Sim.encodeNames Sim.sampleRegistries data with
    | .ok names => .ok (m.set "names" (.array (names.map GoJson.string)))
    | .error e => .error e
  marshalNames := fun names => .ok (Sim.encodeNames names)

/-- An empty store, with storage and dispatcher up. -/
def simWorld : SimWorld := { objects := [], storageDown := false, dispatcherDown := false }

def presenceU1 : Presence := { userId := "u1", sessionId := "s1" }
def presenceU2 : Presence := { userId := "u2", sessionId := "s2" }

/-- The state after `u1` and `u2` joined a fresh session. -/
def stateU1U2 : MatchState := matchJoinLoop [presenceU1, presenceU2] newMatchState

/-- The state after `u1` joined a fresh session. -/
def stateU1 : MatchState := matchJoinLoop [presenceU1] newMatchState

/-- A position update `{"id":"u1","pos":{"x":3,"y":4}}` sent by `u1`. -/
def msgPositionA : MatchData :=
  { userId := "u1", opCode := 1, data := Sim.encodeUpdatePosition ⟨"u1", ⟨3, 4⟩⟩ }

/-- A position update `{"id":"u1","pos":{"x":5,"y":6}}` sent by `u1`. -/
def msgPositionB : MatchData :=
  { userId := "u1", opCode := 1, data := Sim.encodeUpdatePosition ⟨"u1", ⟨5, 6⟩⟩ }

/-- A position update whose payload is not JSON. -/
def msgMalformed : MatchData := { userId := "u1", opCode := 1, data := "not json" }

/-- An input-direction message `{"id":"u1","inp":1}` sent by `u1`. -/
def msgInput : MatchData :=
  { userId := "u1", opCode := 2, data := Sim.encodeUpdateInput ⟨"u1", 1⟩ }

/-- A jump message `{"id":"u1","inp":1}` sent by `u1`. -/
def msgJump : MatchData :=
  { userId := "u1", opCode := 4, data := Sim.encodeUpdateInput ⟨"u1", 1⟩ }

/-- A spawn message `{"id":"u1","col":"0.1,0.2,0.3,1","nm":"Hero"}` sent by `u1`. -/
def msgSpawn : MatchData :=
  { userId := "u1", opCode := 5, data := Sim.encodeDoSpawn ⟨"u1", "0.1,0.2,0.3,1", "Hero"⟩ }

/-- A message with op code 3, which has no entry in the dispatch table. -/
def msgUnhandled : MatchData := { userId := "u1", opCode := 3, data := "" }

/-- A state in which `u1` has a name, a color, a position and an input entry
but no connection handle. -/
def stateNoHandle : MatchState := { stateU1 with presences := stateU1.presences.delete "u1" }

/-- A store holding the position (3, 4) that `u1` saved under the name "Hero". -/
def simWorldSaved : SimWorld :=
  { simWorld with objects :=
      [{ collection := "player_data", key := "position_Hero", userID := "u1",
         value := Sim.encodePosition ⟨3, 4⟩ }] }

/-- An empty store that refuses every read and write. -/
def simWorldDown : SimWorld := { simWorld with storageDown := true }

/-- The write `MatchTerminate` issues for a positions entry, when the position
can be encoded. -/
def terminateWrite {W : Type} (rt : Runtime W) (matchState : MatchState)
    (entry : String × Position) : Option StorageWrite :=
  match rt.marshalPosition entry.2 with
  | .ok value =>
    some { collection := "player_data", userID := "position_" ++ matchState.names.getD entry.1 "",
           key := entry.1, value := value }
  | .error _ => none

/-- A color update `{"id":"u1","color":"0,0,0,1"}` sent by `u1`. -/
def msgColor : MatchData :=
  { userId := "u1", opCode := 6, data := Sim.encodeUpdateColor ⟨"u1", "0,0,0,1"⟩ }

/-- A color update `{"id":"u2","color":"0,0,0,1"}` sent by `u2`. -/
def msgColorU2 : MatchData :=
  { userId := "u2", opCode := 6, data := Sim.encodeUpdateColor ⟨"u2", "0,0,0,1"⟩ }

/-- The op code of a broadcast; `none` for any other host call. -/
def Event.opCode? : Event → Option Int
  | .broadcast op _ _ _ _ => some op
  | _ => none

/-- An empty store with a dispatcher that refuses every broadcast. -/
def simWorldMuted : SimWorld := { simWorld with dispatcherDown := true }

/-- A store whose name registry holds "Hero" and "Zed". -/
def simWorldRegistry : SimWorld :=
  { simWorld with objects :=
      [{ collection := "global_data", key := "names", userID := "",
         value := Sim.encodeNames ["Hero", "Zed"], permissionRead := 2, permissionWrite := 1 }] }

/-- The names of the registry object of a store, as the decoder of the
codec reads them; the empty list when there is no registry object. -/
def Sim.registryOf (w : SimWorld) : List String :=
  match w.objects.find? (fun o => o.collection = "global_data" ∧ o.key = "names" ∧
      o.userID = "") with
  | some o =>
    match Sim.decodeVia Sim.encodeNames Sim.sampleRegistries o.value with
    | .ok names => names
    | .error _ => []
  | none => []

/-! ## A storage that keeps what was written -/

/-- A storage in which a read returns the last value written under the same
(collection, key, owner): `stored w c k o` is the value the world `w` holds
under the collection `c`, the key `k` and the owner `o`.  A read of one key
that the storage answers returns that value as its only object; an accepted
write of one object replaces the value under its own triple and no other; a
refused write changes nothing.  The storage may refuse any read or write. -/
structure LastWriteWins {W : Type} (rt : Runtime W)
    (stored : W → String → String → String → Option String) : Prop where
  read : ∀ (w : W) (r : StorageRead) (objects : List StorageObject),
    (rt.storageRead w [r]).1 = .ok objects →
    objects =
      (match stored w r.collection r.key r.userID with
        | some v => [{ collection := r.collection, key := r.key, userId := r.userID,
                       value := v }]
        | none => [])
  write_accepted : ∀ (w : W) (wr : StorageWrite), (rt.storageWrite w [wr]).1 = none →
    ∀ c k o, stored (rt.storageWrite w [wr]).2 c k o =
      if c = wr.collection ∧ k = wr.key ∧ o = wr.userID then some wr.value
      else stored w c k o
  write_refused : ∀ (w : W) (wr : StorageWrite), (rt.storageWrite w [wr]).1 ≠ none →
    ∀ c k o, stored (rt.storageWrite w [wr]).2 c k o = stored w c k o

/-- The value a list of written objects holds under a triple: the one of the
most recent write, which is the first in the list. -/
def Mem.stored (w : List StorageWrite) (c k o : String) : Option String :=
  match w with
  | [] => none
  | wr :: rest =>
    if c = wr.collection ∧ k = wr.key ∧ o = wr.userID then some wr.value
    else Mem.stored rest c k o

/-- A runtime whose world is the list of the objects written so far, most
recent first: every write is accepted, every read returns what `Mem.stored`
finds, every broadcast is accepted; the JSON codec is the one of
`simRuntime`. -/
def memRuntime : Runtime (List StorageWrite) :=
  { simRuntime with
    storageRead := fun w reads =>
      (.ok (reads.filterMap fun r =>
        (Mem.stored w r.collection r.key r.userID).map fun v =>
          { collection := r.collection, key := r.key, userId := r.userID, value := v }), w)
    storageWrite := fun w writes => (none, writes.reverse ++ w)
    broadcastMessage := fun w _ _ _ _ _ => (none, w) }

/-- The state of a session in which `u1` joined, spawned as "Hero" over an
empty store and moved to (3, 4). -/
def stateHero : MatchState :=
  (applyInOrder simRuntime [msgSpawn, msgPositionA] stateU1 simWorld).1

/-! ## Lemmas on Go maps -/

namespace GoMap

variable {V : Type}

theorem get?_set_self (m : GoMap V) (k : String) (v : V) : (m.set k v).get? k = some v := by
  induction m with
  | nil => simp [set, get?]
  | cons e rest ih =>
    obtain ⟨k', v'⟩ := e
    by_cases h : k' = k
    · simp [set, get?, h]
    · simp [set, get?, h, ih]

theorem get?_set_ne (m : GoMap V) {k k' : String} (v : V) (h : k' ≠ k) :
    (m.set k v).get? k' = m.get? k' := by
  induction m with
  | nil => simp [set, get?, Ne.symm h]
  | cons e rest ih =>
    obtain ⟨k₀, v₀⟩ := e
    by_cases h₀ : k₀ = k
    · subst h₀
      simp [set, get?, Ne.symm h]
    · by_cases h₁ : k₀ = k'
      · subst h₁
        simp [set, get?, h₀]
      · simp [set, get?, h₀, h₁, ih]

theorem get?_delete_self (m : GoMap V) (k : String) : (m.delete k).get? k = none := by
  induction m with
  | nil => simp [delete, get?]
  | cons e rest ih =>
    obtain ⟨k', v'⟩ := e
    by_cases h : k' = k
    · simp [delete, h, ih]
    · simp [delete, get?, h, ih]

theorem get?_delete_ne (m : GoMap V) {k k' : String} (h : k' ≠ k) :
    (m.delete k).get? k' = m.get? k' := by
  induction m with
  | nil => simp [delete, get?]
  | cons e rest ih =>
    obtain ⟨k₀, v₀⟩ := e
    by_cases h₀ : k₀ = k
    · subst h₀
      simp [delete, get?, Ne.symm h, ih]
    · by_cases h₁ : k₀ = k'
      · subst h₁
        simp [delete, get?, h₀]
      · simp [delete, get?, h₀, h₁, ih]

theorem get?_delete_of_none (m : GoMap V) (k k' : String) (h : m.get? k' = none) :
    (m.delete k).get? k' = none := by
  by_cases hk : k' = k
  · subst hk
    exact get?_delete_self m k'
  · rw [get?_delete_ne m hk]
    exact h

end GoMap

/-! ## The position handler -/

section PositionHandler

variable {W : Type}

theorem updatePositionOp_of_entry (rt : Runtime W) (msg : MatchData) (state : MatchState)
    (w : W) (id : String) (pos : Position)
    (hdec : rt.unmarshalUpdatePosition msg.data = .ok ⟨id, pos⟩)
    (hsome : state.positions.get? id ≠ none) :
    updatePositionOp rt msg state w =
      ⟨none, { state with positions := state.positions.set id pos }, w, []⟩ := by
  cases hget : state.positions.get? id with
  | none => exact absurd hget hsome
  | some old => simp only [updatePositionOp, hdec, hget]

theorem updatePositionOp_of_no_entry (rt : Runtime W) (msg : MatchData) (state : MatchState)
    (w : W) (id : String) (pos : Position)
    (hdec : rt.unmarshalUpdatePosition msg.data = .ok ⟨id, pos⟩)
    (hnone : state.positions.get? id = none) :
    updatePositionOp rt msg state w =
      ⟨some ("position does not exist for user: " ++ id), state, w, []⟩ := by
  simp only [updatePositionOp, hdec, hnone]

/-- C5: for a well-formed position-update message `{id, pos}`: if `id` has a
positions entry, `updatePositionOp` returns no error, afterwards
`positions[id] = pos`, every other positions entry is as before and the other
four maps (and the tick counter) are untouched; if `id` has no positions
entry, it returns the error "position does not exist for user: id" and the
state is the input state (no entry is created). -/
theorem updatePositionOp_overwrites_or_rejects (rt : Runtime W) (msg : MatchData)
    (state : MatchState) (w : W) (id : String) (pos : Position)
    (hdec : rt.unmarshalUpdatePosition msg.data = .ok ⟨id, pos⟩) :
    (state.positions.get? id ≠ none →
      (updatePositionOp rt msg state w).err = none ∧
      (updatePositionOp rt msg state w).state.positions.get? id = some pos ∧
      (∀ k, k ≠ id →
        (updatePositionOp rt msg state w).state.positions.get? k = state.positions.get? k) ∧
      (updatePositionOp rt msg state w).state.presences = state.presences ∧
      (updatePositionOp rt msg state w).state.inputs = state.inputs ∧
      (updatePositionOp rt msg state w).state.colors = state.colors ∧
      (updatePositionOp rt msg state w).state.names = state.names ∧
      (updatePositionOp rt msg state w).state.emptyTicks = state.emptyTicks) ∧
    (state.positions.get? id = none →
      (updatePositionOp rt msg state w).err =
        some ("position does not exist for user: " ++ id) ∧
      (updatePositionOp rt msg state w).state = state) := by
  constructor
  · intro hsome
    rw [updatePositionOp_of_entry rt msg state w id pos hdec hsome]
    refine ⟨rfl, GoMap.get?_set_self _ _ _, ?_, rfl, rfl, rfl, rfl, rfl⟩
    intro k hk
    exact GoMap.get?_set_ne _ _ hk
  · intro hnone
    rw [updatePositionOp_of_no_entry rt msg state w id pos hdec hnone]
    exact ⟨rfl, rfl⟩

/-- Witness of C5: `u1` joined and sends a position update to (3, 4); `u2`,
who never joined, sends one too. -/
theorem updatePositionOp_overwrites_or_rejects_witness :
    (simRuntime.unmarshalUpdatePosition msgPositionA.data = .ok ⟨"u1", ⟨3, 4⟩⟩ ∧
      stateU1.positions.get? "u1" ≠ none ∧
      (updatePositionOp simRuntime msgPositionA stateU1 simWorld).err = none ∧
      (updatePositionOp simRuntime msgPositionA stateU1 simWorld).state.positions.get? "u1" =
        some ⟨3, 4⟩) ∧
    (newMatchState.positions.get? "u1" = none ∧
      (updatePositionOp simRuntime msgPositionA newMatchState simWorld).err =
        some ("position does not exist for user: " ++ "u1") ∧
      (updatePositionOp simRuntime msgPositionA newMatchState simWorld).state =
        newMatchState) :=
  ⟨⟨rfl, by decide,
    ((updatePositionOp_overwrites_or_rejects simRuntime msgPositionA stateU1 simWorld
      "u1" ⟨3, 4⟩ rfl).1 (by decide)).1,
    ((updatePositionOp_overwrites_or_rejects simRuntime msgPositionA stateU1 simWorld
      "u1" ⟨3, 4⟩ rfl).1 (by decide)).2.1⟩,
   ⟨rfl,
    (updatePositionOp_overwrites_or_rejects simRuntime msgPositionA newMatchState simWorld
      "u1" ⟨3, 4⟩ rfl).2 rfl⟩⟩

end PositionHandler

/-! ## Frame lemmas of the handlers -/

section Frames

variable {W : Type}

theorem updateInputOp_state (rt : Runtime W) (msg : MatchData) (state : MatchState) (w : W) :
    (updateInputOp rt msg state w).state = state := by
  cases hdec : rt.unmarshalUpdateInput msg.data with
  | error e => simp only [updateInputOp, hdec]
  | ok m =>
    cases hget : state.inputs.get? m.id with
    | none => simp only [updateInputOp, hdec, hget]
    | some i => simp only [updateInputOp, hdec, hget]

theorem updateJumpOp_state (rt : Runtime W) (msg : MatchData) (state : MatchState) (w : W) :
    (updateJumpOp rt msg state w).state = state := by
  cases hdec : rt.unmarshalUpdateInput msg.data with
  | error e => simp only [updateJumpOp, hdec]
  | ok m =>
    cases hget : state.inputs.get? m.id with
    | none => simp only [updateJumpOp, hdec, hget]
    | some i => simp only [updateJumpOp, hdec, hget]

theorem updateColorOp_positions (rt : Runtime W) (msg : MatchData) (state : MatchState)
    (w : W) : (updateColorOp rt msg state w).state.positions = state.positions := by
  cases hdec : rt.unmarshalUpdateColor msg.data with
  | error e => simp only [updateColorOp, hdec]
  | ok m =>
    cases hb : rt.broadcastMessage w updateColor msg.data none none true with
    | mk err w1 =>
      cases hget : state.colors.get? m.id with
      | none => simp only [updateColorOp, hdec, hget, hb]
      | some c => simp only [updateColorOp, hdec, hget, hb]

theorem updatePositionOp_keeps (rt : Runtime W) (msg : MatchData) (state : MatchState)
    (w : W) (k : String) (h : state.positions.get? k ≠ none) :
    (updatePositionOp rt msg state w).state.positions.get? k ≠ none := by
  cases hdec : rt.unmarshalUpdatePosition msg.data with
  | error e => simpa only [updatePositionOp, hdec] using h
  | ok m =>
    cases hget : state.positions.get? m.id with
    | none => simpa only [updatePositionOp, hdec, hget] using h
    | some old =>
      simp only [updatePositionOp, hdec, hget]
      by_cases hk : k = m.id
      · subst hk
        simp [GoMap.get?_set_self]
      · simpa [GoMap.get?_set_ne _ _ hk] using h

/-- The read loop of a spawn touches `positions[userId]` only. -/
theorem spawnReadLoop_frame (rt : Runtime W) (userId : String) (objects : List StorageObject) :
    ∀ (position : Position) (state : MatchState) (isSet : Bool),
      (spawnReadLoop rt userId objects position state isSet).2.1.presences = state.presences ∧
      (spawnReadLoop rt userId objects position state isSet).2.1.inputs = state.inputs ∧
      (spawnReadLoop rt userId objects position state isSet).2.1.colors = state.colors ∧
      (spawnReadLoop rt userId objects position state isSet).2.1.names = state.names ∧
      (spawnReadLoop rt userId objects position state isSet).2.1.emptyTicks =
        state.emptyTicks ∧
      (∀ k, k ≠ userId →
        (spawnReadLoop rt userId objects position state isSet).2.1.positions.get? k =
          state.positions.get? k) ∧
      (∀ k, state.positions.get? k ≠ none →
        (spawnReadLoop rt userId objects position state isSet).2.1.positions.get? k ≠ none) := by
  induction objects with
  | nil =>
    intro position state isSet
    simp [spawnReadLoop]
  | cons object rest ih =>
    intro position state isSet
    cases hdec : rt.unmarshalPosition object.value position with
    | error e => simp [spawnReadLoop, hdec]
    | ok position' =>
      simp only [spawnReadLoop, hdec]
      obtain ⟨h1, h2, h3, h4, h5, h6, h7⟩ :=
        ih position' { state with positions := state.positions.set userId position' } true
      refine ⟨h1, h2, h3, h4, h5, ?_, ?_⟩
      · intro k hk
        rw [h6 k hk]
        exact GoMap.get?_set_ne _ _ hk
      · intro k hk
        apply h7
        by_cases hku : k = userId
        · subst hku
          simp [GoMap.get?_set_self]
        · simpa [GoMap.get?_set_ne _ _ hku] using hk

/-- The state a spawn leaves behind once the storage read has returned: the
state of the read loop, with the default spawn coordinate when the loop ended
without error and without a record. -/
theorem doSpawnOp_state_of_loop (rt : Runtime W) (msg : MatchData) (state : MatchState) (w : W)
    (spawn : DoSpawnMessage) (n0 c0 : String) (objects : List StorageObject) (w1 : W)
    (e : Option String) (state2 : MatchState) (isSet : Bool)
    (hdec : rt.unmarshalDoSpawn msg.data = .ok spawn)
    (hn : state.names.get? spawn.id = some n0)
    (hc : state.colors.get? spawn.id = some c0)
    (hr : rt.storageRead w
      [{ collection := "player_data", key := "position_" ++ spawn.name,
         userID := msg.userId }] = (.ok objects, w1))
    (hl : spawnReadLoop rt spawn.id objects ⟨0, 0⟩
      { state with names := state.names.set spawn.id spawn.name,
                   colors := state.colors.set spawn.id spawn.color } false =
      (e, state2, isSet)) :
    (doSpawnOp rt msg state w).state =
      if e = none ∧ isSet = false then
        { state2 with positions := state2.positions.set spawn.id ⟨1800, 1280⟩ }
      else state2 := by
  cases e with
  | some err => simp only [doSpawnOp, hdec, hn, hc, hr, hl]; simp
  | none =>
    cases isSet with
    | true => simp only [doSpawnOp, hdec, hn, hc, hr, hl]; simp
    | false => simp only [doSpawnOp, hdec, hn, hc, hr, hl]; simp [spawnPosition]

/-- What a spawn never touches: connection handles, inputs, the tick counter,
the presence of a positions entry, and the entries of every id other than
the one the message names. -/
theorem doSpawnOp_frame (rt : Runtime W) (msg : MatchData) (state : MatchState) (w : W) :
    (doSpawnOp rt msg state w).state.presences = state.presences ∧
    (doSpawnOp rt msg state w).state.inputs = state.inputs ∧
    (doSpawnOp rt msg state w).state.emptyTicks = state.emptyTicks ∧
    (∀ k, state.positions.get? k ≠ none →
      (doSpawnOp rt msg state w).state.positions.get? k ≠ none) ∧
    (∀ spawn, rt.unmarshalDoSpawn msg.data = .ok spawn → ∀ k, k ≠ spawn.id →
      (doSpawnOp rt msg state w).state.positions.get? k = state.positions.get? k ∧
      (doSpawnOp rt msg state w).state.names.get? k = state.names.get? k ∧
      (doSpawnOp rt msg state w).state.colors.get? k = state.colors.get? k) := by
  cases hdec : rt.unmarshalDoSpawn msg.data with
  | error e =>
    have hst : (doSpawnOp rt msg state w).state = state := by simp only [doSpawnOp, hdec]
    rw [hst]
    exact ⟨rfl, rfl, rfl, fun _ h => h, fun _ h => by cases h⟩
  | ok spawn =>
  cases hn : state.names.get? spawn.id with
  | none =>
    have hst : (doSpawnOp rt msg state w).state = state := by simp only [doSpawnOp, hdec, hn]
    rw [hst]
    exact ⟨rfl, rfl, rfl, fun _ h => h, fun _ _ _ _ => ⟨rfl, rfl, rfl⟩⟩
  | some n0 =>
  cases hc : state.colors.get? spawn.id with
  | none =>
    have hst : (doSpawnOp rt msg state w).state = state := by
      simp only [doSpawnOp, hdec, hn, hc]
    rw [hst]
    exact ⟨rfl, rfl, rfl, fun _ h => h, fun _ _ _ _ => ⟨rfl, rfl, rfl⟩⟩
  | some c0 =>
  cases hr : rt.storageRead w
      [{ collection := "player_data", key := "position_" ++ spawn.name,
         userID := msg.userId }] with
  | mk res w1 =>
  cases res with
  | error e =>
    have hst : (doSpawnOp rt msg state w).state =
        { state with names := state.names.set spawn.id spawn.name,
                     colors := state.colors.set spawn.id spawn.color } := by
      simp only [doSpawnOp, hdec, hn, hc, hr]
    rw [hst]
    refine ⟨rfl, rfl, rfl, fun _ h => h, ?_⟩
    intro sp hsp k hk
    cases hsp
    exact ⟨rfl, GoMap.get?_set_ne _ _ hk, GoMap.get?_set_ne _ _ hk⟩
  | ok objects =>
    cases hl : spawnReadLoop rt spawn.id objects ⟨0, 0⟩
      { state with names := state.names.set spawn.id spawn.name,
                   colors := state.colors.set spawn.id spawn.color } false with
    | mk e rest =>
    obtain ⟨state2, isSet⟩ := rest
    have hst := doSpawnOp_state_of_loop rt msg state w spawn n0 c0 objects w1 e state2 isSet
      hdec hn hc hr hl
    obtain ⟨f1, f2, f3, f4, f5, f6, f7⟩ := spawnReadLoop_frame rt spawn.id objects ⟨0, 0⟩
      { state with names := state.names.set spawn.id spawn.name,
                   colors := state.colors.set spawn.id spawn.color } false
    rw [hl] at f1 f2 f3 f4 f5 f6 f7
    simp only at f1 f2 f3 f4 f5 f6 f7
    rw [hst]
    by_cases hcase : e = none ∧ isSet = false
    · rw [if_pos hcase]
      refine ⟨f1, f2, f5, ?_, ?_⟩
      · intro k hk
        by_cases hku : k = spawn.id
        · subst hku
          simp [GoMap.get?_set_self]
        · simpa [GoMap.get?_set_ne _ _ hku] using f7 k hk
      · intro sp hsp k hk
        cases hsp
        refine ⟨?_, ?_, ?_⟩
        · show (state2.positions.set _ _).get? k = _
          rw [GoMap.get?_set_ne _ _ hk]
          exact f6 k hk
        · show state2.names.get? k = _
          rw [f4]
          exact GoMap.get?_set_ne _ _ hk
        · show state2.colors.get? k = _
          rw [f3]
          exact GoMap.get?_set_ne _ _ hk
    · rw [if_neg hcase]
      refine ⟨f1, f2, f5, f7, ?_⟩
      intro sp hsp k hk
      cases hsp
      refine ⟨f6 k hk, ?_, ?_⟩
      · rw [f4]
        exact GoMap.get?_set_ne _ _ hk
      · rw [f3]
        exact GoMap.get?_set_ne _ _ hk

end Frames

/-! ## The tick loop on a batch of table op codes -/

section Loop

variable {W : Type}

theorem Operations_table (op : Int) (h : op ∈ ([1, 2, 4, 5, 6] : List Int)) :
    Operations (W := W) op = some updatePositionOp ∧ op = 1 ∨
    Operations (W := W) op = some updateInputOp ∧ op = 2 ∨
    Operations (W := W) op = some updateJumpOp ∧ op = 4 ∨
    Operations (W := W) op = some doSpawnOp ∧ op = 5 ∨
    Operations (W := W) op = some updateColorOp ∧ op = 6 := by
  simp only [List.mem_cons, List.mem_singleton, List.not_mem_nil, or_false] at h
  rcases h with h | h | h | h | h <;> subst h <;>
    simp [Operations, updatePosition, updateInput, updateJump, doSpawn, updateColor]

theorem applyMessage_keeps (rt : Runtime W) (m : MatchData) (s : MatchState) (v : W)
    (k : String) (h : s.positions.get? k ≠ none) :
    (applyMessage rt (s, v) m).1.positions.get? k ≠ none := by
  unfold applyMessage Operations
  split_ifs
  · exact updatePositionOp_keeps rt m s v k h
  · simpa [updateInputOp_state] using h
  · simpa [updateJumpOp_state] using h
  · exact (doSpawnOp_frame rt m s v).2.2.2.1 k h
  · simpa [updateColorOp_positions] using h
  · exact h

theorem applyInOrder_keeps (rt : Runtime W) (messages : List MatchData) (k : String) :
    ∀ (s : MatchState) (v : W), s.positions.get? k ≠ none →
      (applyInOrder rt messages s v).1.positions.get? k ≠ none := by
  induction messages with
  | nil => intro s v h; exact h
  | cons m rest ih =>
    intro s v h
    have := ih (applyMessage rt (s, v) m).1 (applyMessage rt (s, v) m).2
      (applyMessage_keeps rt m s v k h)
    simpa [applyInOrder] using this

theorem applyInOrder_positions_of_inputs_colors (rt : Runtime W) (messages : List MatchData) :
    ∀ (s : MatchState) (v : W), (∀ m ∈ messages, m.opCode ∈ ([2, 4, 6] : List Int)) →
      (applyInOrder rt messages s v).1.positions = s.positions := by
  induction messages with
  | nil => intro s v _; rfl
  | cons m rest ih =>
    intro s v h
    have hm := h m (List.mem_cons_self _ _)
    have hrest : ∀ m' ∈ rest, m'.opCode ∈ ([2, 4, 6] : List Int) :=
      fun m' hm' => h m' (List.mem_cons_of_mem _ hm')
    have hstep : (applyMessage rt (s, v) m).1.positions = s.positions := by
      simp only [List.mem_cons, List.mem_singleton, List.not_mem_nil, or_false] at hm
      rcases hm with hm | hm | hm
      · simp [applyMessage, Operations, hm, updatePosition, updateInput, updateInputOp_state]
      · simp [applyMessage, Operations, hm, updatePosition, updateInput, updateJump,
          updateJumpOp_state]
      · simp [applyMessage, Operations, hm, updatePosition, updateInput, updateJump, doSpawn,
          updateColor, updateColorOp_positions]
    have := ih (applyMessage rt (s, v) m).1 (applyMessage rt (s, v) m).2 hrest
    rw [hstep] at this
    simpa [applyInOrder] using this

theorem applyInOrder_append (rt : Runtime W) (pre post : List MatchData) (s : MatchState)
    (v : W) :
    applyInOrder rt (pre ++ post) s v =
      applyInOrder rt post (applyInOrder rt pre s v).1 (applyInOrder rt pre s v).2 := by
  simp [applyInOrder, List.foldl_append]

theorem matchLoopMessages_eq_applyInOrder (rt : Runtime W) (messages : List MatchData) :
    ∀ (s : MatchState) (v : W), (∀ m ∈ messages, m.opCode ∈ ([1, 2, 4, 5, 6] : List Int)) →
      ∃ r, matchLoopMessages rt messages s v = .ok r ∧
        (r.state, r.world) = applyInOrder rt messages s v := by
  induction messages with
  | nil => intro s v _; exact ⟨⟨s, v, []⟩, rfl, rfl⟩
  | cons m rest ih =>
    intro s v h
    have hm := h m (List.mem_cons_self _ _)
    have hrest : ∀ m' ∈ rest, m'.opCode ∈ ([1, 2, 4, 5, 6] : List Int) :=
      fun m' hm' => h m' (List.mem_cons_of_mem _ hm')
    have hop : ∃ op, Operations (W := W) m.opCode = some op := by
      rcases Operations_table (W := W) m.opCode hm with h | h | h | h | h <;>
        exact ⟨_, h.1⟩
    obtain ⟨op, hop⟩ := hop
    obtain ⟨r', hr', hfold⟩ := ih (op rt m s v).state (op rt m s v).world hrest
    refine ⟨{ r' with trace := (op rt m s v).trace ++
        (match (op rt m s v).err with
          | some _ => [Event.logError "operation failed: type: %d, err: %s"]
          | none => []) ++ r'.trace }, ?_, ?_⟩
    · simp only [matchLoopMessages, hop, hr']
    · simp only [applyInOrder, List.foldl_cons, applyMessage, hop]
      exact hfold

theorem applyMessage_undeliverable (rt : Runtime W) (m : MatchData) (s : MatchState) (v : W)
    (h : undeliverable rt m s = true) : (applyMessage rt (s, v) m).1 = s := by
  unfold undeliverable at h
  split_ifs at h with h1 h2 h3 h4
  · have hop : Operations (W := W) m.opCode = some updatePositionOp := by
      simp [Operations, h1]
    simp only [applyMessage, hop]
    cases hdec : rt.unmarshalUpdatePosition m.data with
    | error e => simp only [updatePositionOp, hdec]
    | ok u =>
      rw [hdec] at h
      have hg : s.positions.get? u.id = none := by simpa using h
      simp only [updatePositionOp, hdec, hg]
  · rcases h2 with h2 | h2
    · have hop : Operations (W := W) m.opCode = some updateInputOp := by
        simp [Operations, h2, updatePosition, updateInput]
      simp only [applyMessage, hop, updateInputOp_state]
    · have hop : Operations (W := W) m.opCode = some updateJumpOp := by
        simp [Operations, h2, updatePosition, updateInput, updateJump]
      simp only [applyMessage, hop, updateJumpOp_state]
  · have hop : Operations (W := W) m.opCode = some doSpawnOp := by
      simp [Operations, h3, updatePosition, updateInput, updateJump, doSpawn]
    simp only [applyMessage, hop]
    cases hdec : rt.unmarshalDoSpawn m.data with
    | error e => simp only [doSpawnOp, hdec]
    | ok u =>
      rw [hdec] at h
      cases hn : s.names.get? u.id with
      | none => simp only [doSpawnOp, hdec, hn]
      | some n0 =>
        cases hc : s.colors.get? u.id with
        | none => simp only [doSpawnOp, hdec, hn, hc]
        | some c0 => simp [hn, hc] at h
  · have hop : Operations (W := W) m.opCode = some updateColorOp := by
      simp [Operations, h4, updatePosition, updateInput, updateJump, doSpawn, updateColor]
    simp only [applyMessage, hop]
    cases hb : rt.broadcastMessage v updateColor m.data none none true with
    | mk err w1 =>
      cases hdec : rt.unmarshalUpdateColor m.data with
      | error e => simp only [updateColorOp, hdec]
      | ok u =>
        rw [hdec] at h
        have hg : s.colors.get? u.id = none := by simpa using h
        simp only [updateColorOp, hdec, hg, hb]

/-- C1 (dispatch isolation): for a batch whose op codes are all in the
dispatch table (1, 2, 4, 5, 6) `MatchLoop` returns, and the state it returns
is the state obtained by applying the handlers to the messages one at a time
in delivery order (whatever storage and dispatcher answer); a message that
fails to decode, or that names a participant without an entry in the map its
operation requires, leaves the state as it was; and a well-formed position
update for a joined id leaves its position in the returned state when only
input and color messages follow it in the batch, whatever came before it, an
earlier position update for the same id included. -/
theorem MatchLoop_dispatch_isolation (rt : Runtime W) (w : W) (state : MatchState)
    (messages : List MatchData)
    (htable : ∀ m ∈ messages, m.opCode ∈ ([1, 2, 4, 5, 6] : List Int)) :
    (∃ w' trace, MatchLoop rt w (.matchState state) messages =
      .ok (.matchState (applyInOrder rt messages state w).1, w', trace)) ∧
    (∀ (m : MatchData) (s : MatchState) (v : W), undeliverable rt m s = true →
      (applyMessage rt (s, v) m).1 = s) ∧
    (∀ (pre post : List MatchData) (m : MatchData) (id : String) (pos : Position),
      messages = pre ++ m :: post → m.opCode = 1 →
      rt.unmarshalUpdatePosition m.data = .ok ⟨id, pos⟩ →
      state.positions.get? id ≠ none →
      (∀ m' ∈ post, m'.opCode ∈ ([2, 4, 6] : List Int)) →
      (applyInOrder rt messages state w).1.positions.get? id = some pos) := by
  refine ⟨?_, fun m s v h => applyMessage_undeliverable rt m s v h, ?_⟩
  · obtain ⟨r, hr, hfold⟩ := matchLoopMessages_eq_applyInOrder rt messages state w htable
    cases hb : broadcastState rt r.world r.state with
    | mk err rest =>
      obtain ⟨w1, tr⟩ := rest
      have hstate : (applyInOrder rt messages state w).1 = r.state := by rw [← hfold]
      rw [hstate]
      cases err with
      | none => exact ⟨w1, r.trace ++ tr ++ [], by simp only [MatchLoop, hr, hb]⟩
      | some e =>
        exact ⟨w1, r.trace ++ tr ++ [Event.logError "failed to broadcast state update: %s"],
          by simp only [MatchLoop, hr, hb]⟩
  · intro pre post m id pos hsplit hop hdec hjoined hpost
    subst hsplit
    have hcons : pre ++ m :: post = pre ++ ([m] ++ post) := by simp
    rw [hcons, applyInOrder_append, applyInOrder_append,
      applyInOrder_positions_of_inputs_colors rt post _ _ hpost]
    have hkept := applyInOrder_keeps rt pre id state w hjoined
    generalize applyInOrder rt pre state w = sw at hkept
    obtain ⟨s, v⟩ := sw
    have hopm : Operations (W := W) m.opCode = some updatePositionOp := by
      simp [Operations, hop, updatePosition]
    show (applyMessage rt (s, v) m).1.positions.get? id = some pos
    simp only [applyMessage, hopm]
    rw [updatePositionOp_of_entry rt m s v id pos hdec hkept]
    exact GoMap.get?_set_self _ _ _

/-- Witness of C1: `u1` joined; the batch is a position update to (3, 4), a
payload that is not JSON, and a position update to (5, 6). -/
theorem MatchLoop_dispatch_isolation_witness :
    (∀ m ∈ [msgPositionA, msgMalformed, msgPositionB], m.opCode ∈ ([1, 2, 4, 5, 6] : List Int)) ∧
    (∃ w' trace, MatchLoop simRuntime simWorld (.matchState stateU1)
        [msgPositionA, msgMalformed, msgPositionB] =
      .ok (.matchState (applyInOrder simRuntime
        [msgPositionA, msgMalformed, msgPositionB] stateU1 simWorld).1, w', trace)) ∧
    (applyInOrder simRuntime [msgPositionA, msgMalformed, msgPositionB]
      stateU1 simWorld).1.positions.get? "u1" = some ⟨5, 6⟩ :=
  ⟨by decide,
   (MatchLoop_dispatch_isolation simRuntime simWorld stateU1
      [msgPositionA, msgMalformed, msgPositionB] (by decide)).1,
   (MatchLoop_dispatch_isolation simRuntime simWorld stateU1
      [msgPositionA, msgMalformed, msgPositionB] (by decide)).2.2
      [msgPositionA, msgMalformed] [] msgPositionB "u1" ⟨5, 6⟩ rfl rfl rfl (by decide)
      (by simp)⟩

/-- A message without a handler ends the tick in a panic, whatever follows it. -/
theorem MatchLoop_unhandled_panics (rt : Runtime W) (w : W) (state : MatchState)
    (pre post : List MatchData) (m : MatchData)
    (hpre : ∀ m' ∈ pre, m'.opCode ∈ ([1, 2, 4, 5, 6] : List Int))
    (hm : m.opCode ∉ ([1, 2, 4, 5, 6] : List Int)) :
    MatchLoop rt w (.matchState state) (pre ++ m :: post) = .error nilDereference := by
  have hnone : Operations (W := W) m.opCode = none := by
    simp only [List.mem_cons, List.mem_singleton, List.not_mem_nil, or_false, not_or] at hm
    simp [Operations, updatePosition, updateInput, updateJump, doSpawn, updateColor, hm]
  have hloop : ∀ (pre : List MatchData) (s : MatchState) (v : W),
      (∀ m' ∈ pre, m'.opCode ∈ ([1, 2, 4, 5, 6] : List Int)) →
      matchLoopMessages rt (pre ++ m :: post) s v = .error nilDereference := by
    intro pre
    induction pre with
    | nil => intro s v _; simp only [List.nil_append, matchLoopMessages, hnone]
    | cons a rest ih =>
      intro s v h
      have ha := h a (List.mem_cons_self _ _)
      have hop : ∃ op, Operations (W := W) a.opCode = some op := by
        rcases Operations_table (W := W) a.opCode ha with h | h | h | h | h <;>
          exact ⟨_, h.1⟩
      obtain ⟨op, hop⟩ := hop
      have := ih (op rt a s v).state (op rt a s v).world
        (fun m' hm' => h m' (List.mem_cons_of_mem _ hm'))
      show matchLoopMessages rt (a :: (rest ++ m :: post)) s v = _
      simp only [matchLoopMessages, hop, this]
  simp only [MatchLoop, hloop pre state w hpre]

/-- C2, evaluated: `u1` joined; the batch is a message with op code 3 followed
by a position update.  The call of the nil handler panics: `MatchLoop` does
not return a state and the position update is never applied. -/
theorem MatchLoop_unhandled_opcode_panics :
    MatchLoop simRuntime simWorld (.matchState stateU1) [msgUnhandled, msgPositionA] =
      .error nilDereference ∧
    Operations (W := SimWorld) msgUnhandled.opCode = none := by
  constructor
  · rfl
  · rfl

/-- C3, evaluated: `u1` joined with direction 0 and sends the direction 1.
`updateInputOp` returns no error and the stored direction is still 0. -/
theorem updateInputOp_direction_not_stored :
    simRuntime.unmarshalUpdateInput msgInput.data = .ok ⟨"u1", 1⟩ ∧
    stateU1.inputs.get? "u1" = some ⟨0, 0⟩ ∧
    (updateInputOp simRuntime msgInput stateU1 simWorld).err = none ∧
    (updateInputOp simRuntime msgInput stateU1 simWorld).state.inputs.get? "u1" =
      some ⟨0, 0⟩ := by
  refine ⟨rfl, by decide, by decide, by decide⟩

/-- C4, evaluated: `u1` joined with jump flag 0 and sends a jump message.
`updateJumpOp` returns no error and the stored flag is still 0. -/
theorem updateJumpOp_jump_not_stored :
    simRuntime.unmarshalUpdateInput msgJump.data = .ok ⟨"u1", 1⟩ ∧
    stateU1.inputs.get? "u1" = some ⟨0, 0⟩ ∧
    (updateJumpOp simRuntime msgJump stateU1 simWorld).err = none ∧
    (updateJumpOp simRuntime msgJump stateU1 simWorld).state.inputs.get? "u1" =
      some ⟨0, 0⟩ := by
  refine ⟨rfl, by decide, by decide, by decide⟩

end Loop

/-! ## Spawn -/

section Spawn

variable {W : Type}

/-- After the name and color checks a spawn always leaves the new name and
color behind, however the rest of the handler goes. -/
theorem doSpawnOp_names_colors (rt : Runtime W) (msg : MatchData) (state : MatchState) (w : W)
    (spawn : DoSpawnMessage) (n0 c0 : String)
    (hdec : rt.unmarshalDoSpawn msg.data = .ok spawn)
    (hn : state.names.get? spawn.id = some n0)
    (hc : state.colors.get? spawn.id = some c0) :
    (doSpawnOp rt msg state w).state.names.get? spawn.id = some spawn.name ∧
    (doSpawnOp rt msg state w).state.colors.get? spawn.id = some spawn.color := by
  cases hr : rt.storageRead w
      [{ collection := "player_data", key := "position_" ++ spawn.name,
         userID := msg.userId }] with
  | mk res w1 =>
  cases res with
  | error e =>
    have hst : (doSpawnOp rt msg state w).state =
        { state with names := state.names.set spawn.id spawn.name,
                     colors := state.colors.set spawn.id spawn.color } := by
      simp only [doSpawnOp, hdec, hn, hc, hr]
    rw [hst]
    exact ⟨GoMap.get?_set_self _ _ _, GoMap.get?_set_self _ _ _⟩
  | ok objects =>
    cases hl : spawnReadLoop rt spawn.id objects ⟨0, 0⟩
      { state with names := state.names.set spawn.id spawn.name,
                   colors := state.colors.set spawn.id spawn.color } false with
    | mk e rest =>
    obtain ⟨state2, isSet⟩ := rest
    have hst := doSpawnOp_state_of_loop rt msg state w spawn n0 c0 objects w1 e state2 isSet
      hdec hn hc hr hl
    obtain ⟨_, _, f3, f4, _, _, _⟩ := spawnReadLoop_frame rt spawn.id objects ⟨0, 0⟩
      { state with names := state.names.set spawn.id spawn.name,
                   colors := state.colors.set spawn.id spawn.color } false
    rw [hl] at f3 f4
    simp only at f3 f4
    rw [hst]
    by_cases hcase : e = none ∧ isSet = false
    · rw [if_pos hcase]
      show state2.names.get? spawn.id = _ ∧ state2.colors.get? spawn.id = _
      rw [f3, f4]
      exact ⟨GoMap.get?_set_self _ _ _, GoMap.get?_set_self _ _ _⟩
    · rw [if_neg hcase, f3, f4]
      exact ⟨GoMap.get?_set_self _ _ _, GoMap.get?_set_self _ _ _⟩

/-- C6 (spawn default fallback): for a well-formed spawn message
`{id, col, nm}` whose id has a names and a colors entry (with or without a
connection handle, and whatever the broadcasts do): afterwards `names[id] = nm`
and `colors[id] = col`; the entries of every other id are as before in all
five maps; if the storage read returns no record, `positions[id]` is the
default spawn coordinate (1800, 1280); if it returns one record holding the
JSON of a position `p`, then `positions[id] = p`. -/
theorem doSpawnOp_position_fallback (rt : Runtime W) (msg : MatchData) (state : MatchState)
    (w : W) (id col nm n0 c0 : String)
    (hdec : rt.unmarshalDoSpawn msg.data = .ok ⟨id, col, nm⟩)
    (hn : state.names.get? id = some n0)
    (hc : state.colors.get? id = some c0) :
    ((doSpawnOp rt msg state w).state.names.get? id = some nm ∧
      (doSpawnOp rt msg state w).state.colors.get? id = some col) ∧
    (∀ k, k ≠ id →
      (doSpawnOp rt msg state w).state.presences.get? k = state.presences.get? k ∧
      (doSpawnOp rt msg state w).state.inputs.get? k = state.inputs.get? k ∧
      (doSpawnOp rt msg state w).state.positions.get? k = state.positions.get? k ∧
      (doSpawnOp rt msg state w).state.colors.get? k = state.colors.get? k ∧
      (doSpawnOp rt msg state w).state.names.get? k = state.names.get? k) ∧
    (∀ w1, rt.storageRead w
        [{ collection := "player_data", key := "position_" ++ nm, userID := msg.userId }] =
        (.ok [], w1) →
      (doSpawnOp rt msg state w).state.positions.get? id = some ⟨1800, 1280⟩) ∧
    (∀ w1 object p, rt.storageRead w
        [{ collection := "player_data", key := "position_" ++ nm, userID := msg.userId }] =
        (.ok [object], w1) →
      rt.unmarshalPosition object.value ⟨0, 0⟩ = .ok p →
      (doSpawnOp rt msg state w).state.positions.get? id = some p) := by
  refine ⟨doSpawnOp_names_colors rt msg state w ⟨id, col, nm⟩ n0 c0 hdec hn hc, ?_, ?_, ?_⟩
  · intro k hk
    obtain ⟨f1, f2, _, _, f5⟩ := doSpawnOp_frame rt msg state w
    obtain ⟨g1, g2, g3⟩ := f5 ⟨id, col, nm⟩ hdec k hk
    exact ⟨by rw [f1], by rw [f2], g1, g3, g2⟩
  · intro w1 hr
    have hst := doSpawnOp_state_of_loop rt msg state w ⟨id, col, nm⟩ n0 c0 [] w1 none _ false
      hdec hn hc hr rfl
    rw [hst]
    simp [GoMap.get?_set_self]
  · intro w1 object p hr hp
    have hl : spawnReadLoop rt id [object] ⟨0, 0⟩
        { state with names := state.names.set id nm, colors := state.colors.set id col }
        false =
        (none, { state with names := state.names.set id nm,
                            colors := state.colors.set id col,
                            positions := state.positions.set id p }, true) := by
      simp only [spawnReadLoop, hp]
    have hst := doSpawnOp_state_of_loop rt msg state w ⟨id, col, nm⟩ n0 c0 [object] w1 none _
      true hdec hn hc hr hl
    rw [hst]
    simp [GoMap.get?_set_self]

/-- Witness of C6: `u1` joined and spawns as "Hero", once over an empty store
and once over a store holding the position (3, 4) under that name. -/
theorem doSpawnOp_position_fallback_witness :
    (doSpawnOp simRuntime msgSpawn stateU1 simWorld).state.positions.get? "u1" =
      some ⟨1800, 1280⟩ ∧
    (doSpawnOp simRuntime msgSpawn stateU1 simWorldSaved).state.positions.get? "u1" =
      some ⟨3, 4⟩ ∧
    (doSpawnOp simRuntime msgSpawn stateU1 simWorld).state.names.get? "u1" = some "Hero" ∧
    (doSpawnOp simRuntime msgSpawn stateU1 simWorld).state.colors.get? "u1" =
      some "0.1,0.2,0.3,1" :=
  ⟨(doSpawnOp_position_fallback simRuntime msgSpawn stateU1 simWorld
      "u1" "0.1,0.2,0.3,1" "Hero" "User" "1,1,1,1" rfl rfl rfl).2.2.1 simWorld rfl,
   (doSpawnOp_position_fallback simRuntime msgSpawn stateU1 simWorldSaved
      "u1" "0.1,0.2,0.3,1" "Hero" "User" "1,1,1,1" rfl rfl rfl).2.2.2 simWorldSaved
      ⟨"player_data", "position_Hero", "u1", Sim.encodePosition ⟨3, 4⟩⟩ ⟨3, 4⟩ rfl rfl,
   (doSpawnOp_position_fallback simRuntime msgSpawn stateU1 simWorld
      "u1" "0.1,0.2,0.3,1" "Hero" "User" "1,1,1,1" rfl rfl rfl).1.1,
   (doSpawnOp_position_fallback simRuntime msgSpawn stateU1 simWorld
      "u1" "0.1,0.2,0.3,1" "Hero" "User" "1,1,1,1" rfl rfl rfl).1.2⟩

/-- When the second half of a spawn reports no error for an id that has a
connection handle, it sent the snapshot and then the relay. -/
theorem spawnBroadcasts_of_success (rt : Runtime W) (msg : MatchData) (userId : String)
    (state : MatchState) (w : W) (p : Presence)
    (hp : state.presences.get? userId = some p)
    (herr : (spawnBroadcasts rt msg userId state w).1 = none) :
    ∃ encoded,
      rt.marshalDispatchState
        { positions := state.positions, inputs := state.inputs,
          colors := state.colors, names := state.names } = .ok encoded ∧
      (spawnBroadcasts rt msg userId state w).2.2 =
        [.broadcast 7 encoded none (some p) true,
         .broadcast 5 msg.data none (some p) true] := by
  cases hm : rt.marshalDispatchState
      { positions := state.positions, inputs := state.inputs,
        colors := state.colors, names := state.names } with
  | error e => simp [spawnBroadcasts, hm] at herr
  | ok encoded =>
    cases hb1 : rt.broadcastMessage w initialState encoded none (some p) true with
    | mk err1 w1 =>
    cases err1 with
    | some e => simp [spawnBroadcasts, hm, hp, hb1] at herr
    | none =>
      cases hb2 : rt.broadcastMessage w1 doSpawn msg.data none (some p) true with
      | mk err2 w2 =>
        refine ⟨encoded, rfl, ?_⟩
        simp only [spawnBroadcasts, hm, hp, hb1, hb2]
        rfl

/-- Error and trace of a spawn whose read loop ended without error. -/
theorem doSpawnOp_of_loop_ok (rt : Runtime W) (msg : MatchData) (state : MatchState) (w : W)
    (spawn : DoSpawnMessage) (n0 c0 : String) (objects : List StorageObject) (w1 : W)
    (state2 : MatchState) (isSet : Bool)
    (hdec : rt.unmarshalDoSpawn msg.data = .ok spawn)
    (hn : state.names.get? spawn.id = some n0)
    (hc : state.colors.get? spawn.id = some c0)
    (hr : rt.storageRead w
      [{ collection := "player_data", key := "position_" ++ spawn.name,
         userID := msg.userId }] = (.ok objects, w1))
    (hl : spawnReadLoop rt spawn.id objects ⟨0, 0⟩
      { state with names := state.names.set spawn.id spawn.name,
                   colors := state.colors.set spawn.id spawn.color } false =
      (none, state2, isSet)) :
    (doSpawnOp rt msg state w).err =
      (spawnBroadcasts rt msg spawn.id (doSpawnOp rt msg state w).state w1).1 ∧
    (doSpawnOp rt msg state w).trace =
      .storageRead [{ collection := "player_data", key := "position_" ++ spawn.name,
                      userID := msg.userId }] ::
        (spawnBroadcasts rt msg spawn.id (doSpawnOp rt msg state w).state w1).2.2 := by
  constructor <;> simp only [doSpawnOp, hdec, hn, hc, hr, hl]

/-- A spawn that returns no error and whose id has a connection handle `p`
emits exactly two broadcasts, in this order: an op-7 message carrying the
encoded positions, inputs, colors and names maps of the state after the
spawn, then an op-5 message carrying the unmodified spawn payload.  In both
calls the target list is nil and `p` is the sender argument. -/
theorem doSpawnOp_broadcasts (rt : Runtime W) (msg : MatchData) (state : MatchState) (w : W)
    (id col nm : String) (p : Presence)
    (hdec : rt.unmarshalDoSpawn msg.data = .ok ⟨id, col, nm⟩)
    (hp : state.presences.get? id = some p)
    (herr : (doSpawnOp rt msg state w).err = none) :
    ∃ encoded,
      rt.marshalDispatchState
        { positions := (doSpawnOp rt msg state w).state.positions,
          inputs := (doSpawnOp rt msg state w).state.inputs,
          colors := (doSpawnOp rt msg state w).state.colors,
          names := (doSpawnOp rt msg state w).state.names } = .ok encoded ∧
      broadcastsOf (doSpawnOp rt msg state w).trace =
        [.broadcast 7 encoded none (some p) true,
         .broadcast 5 msg.data none (some p) true] := by
  cases hn : state.names.get? id with
  | none => simp [doSpawnOp, hdec, hn] at herr
  | some n0 =>
  cases hc : state.colors.get? id with
  | none => simp [doSpawnOp, hdec, hn, hc] at herr
  | some c0 =>
  cases hr : rt.storageRead w
      [{ collection := "player_data", key := "position_" ++ nm, userID := msg.userId }] with
  | mk res w1 =>
  cases res with
  | error e => simp [doSpawnOp, hdec, hn, hc, hr] at herr
  | ok objects =>
    cases hl : spawnReadLoop rt id objects ⟨0, 0⟩
      { state with names := state.names.set id nm, colors := state.colors.set id col }
      false with
    | mk e rest =>
    obtain ⟨state2, isSet⟩ := rest
    cases e with
    | some e => simp [doSpawnOp, hdec, hn, hc, hr, hl] at herr
    | none =>
      obtain ⟨herr', htrace⟩ := doSpawnOp_of_loop_ok rt msg state w ⟨id, col, nm⟩ n0 c0
        objects w1 state2 isSet hdec hn hc hr hl
      have hp' : (doSpawnOp rt msg state w).state.presences.get? id = some p := by
        rw [(doSpawnOp_frame rt msg state w).1]
        exact hp
      rw [herr'] at herr
      obtain ⟨encoded, hm, hsent⟩ := spawnBroadcasts_of_success rt msg id
        (doSpawnOp rt msg state w).state w1 p hp' herr
      have hb : broadcastsOf (doSpawnOp rt msg state w).trace =
          [.broadcast 7 encoded none (some p) true,
           .broadcast 5 msg.data none (some p) true] := by
        rw [htrace, hsent]
        rfl
      exact ⟨encoded, hm, hb⟩

/-- C7, evaluated: `u1` and `u2` joined and `u1` spawns as "Hero".  The spawn
succeeds and hands the dispatcher two messages, op 7 then op 5.  In both
calls the target list is nil and the connection handle of `u1` is the sender
argument: no call names `u1` as the target.  The nil target list is the one
the op-6 broadcast of a color update passes, which goes to all participants. -/
theorem doSpawnOp_handle_passed_as_sender :
    stateU1U2.presences.get? "u1" = some presenceU1 ∧
    stateU1U2.presences.get? "u2" = some presenceU2 ∧
    (doSpawnOp simRuntime msgSpawn stateU1U2 simWorld).err = none ∧
    (doSpawnOp simRuntime msgSpawn stateU1U2 simWorld).world.delivered =
      [.broadcast 7
          (Sim.encodeDispatchState
            { positions := (doSpawnOp simRuntime msgSpawn stateU1U2 simWorld).state.positions,
              inputs := (doSpawnOp simRuntime msgSpawn stateU1U2 simWorld).state.inputs,
              colors := (doSpawnOp simRuntime msgSpawn stateU1U2 simWorld).state.colors,
              names := (doSpawnOp simRuntime msgSpawn stateU1U2 simWorld).state.names })
          none (some presenceU1) true,
       .broadcast 5 msgSpawn.data none (some presenceU1) true] ∧
    broadcastsOf (doSpawnOp simRuntime msgSpawn stateU1U2 simWorld).trace =
      (doSpawnOp simRuntime msgSpawn stateU1U2 simWorld).world.delivered ∧
    (updateColorOp simRuntime msgColor stateU1U2 simWorld).world.delivered =
      [.broadcast 6 msgColor.data none none true] := by
  refine ⟨by decide, by decide, by decide, rfl, rfl, by decide⟩

/-- C8, as stated, fails: `u1` has a name and a color entry but no connection
handle, and the storage read succeeds.  `doSpawnOp` logs that the presence
was not found, sends no broadcast, and returns no error; the name, color and
position of `u1` have been overwritten. -/
theorem doSpawnOp_missing_handle_returns_nil :
    stateNoHandle.names.get? "u1" = some "User" ∧
    stateNoHandle.colors.get? "u1" = some "1,1,1,1" ∧
    stateNoHandle.presences.get? "u1" = none ∧
    (doSpawnOp simRuntime msgSpawn stateNoHandle simWorld).err = none ∧
    (doSpawnOp simRuntime msgSpawn stateNoHandle simWorld).trace =
      [.storageRead [{ collection := "player_data", key := "position_Hero", userID := "u1" }],
       .logError "presence not found for user: %s"] ∧
    broadcastsOf (doSpawnOp simRuntime msgSpawn stateNoHandle simWorld).trace = [] ∧
    (doSpawnOp simRuntime msgSpawn stateNoHandle simWorld).state.names.get? "u1" =
      some "Hero" := by
  refine ⟨by decide, by decide, by decide, by decide, by decide, by decide, by decide⟩

end Spawn

/-! ## Leave -/

section Leave

variable {W : Type}

theorem writesOf_append (a b : List Event) : writesOf (a ++ b) = writesOf a ++ writesOf b := by
  induction a with
  | nil => rfl
  | cons e rest ih =>
    cases e <;> simp [writesOf, ih]

/-- One pass of the loop of `MatchLeave` over a participant that is persisted
and removed. -/
theorem matchLeaveLoop_cons_removed (rt : Runtime W) (x : Presence) (rest : List Presence)
    (s : MatchState) (w : W) (name value : String) (position : Position)
    (hn : s.names.get? x.userId = some name)
    (hpos : s.positions.get? x.userId = some position)
    (hjson : rt.marshalPosition position = .ok value) :
    ∃ w1 logged,
      writesOf logged = [] ∧
      (matchLeaveLoop rt (x :: rest) s w).state =
        (matchLeaveLoop rt rest
          { s with
            presences := s.presences.delete x.userId,
            positions := s.positions.delete x.userId,
            inputs := s.inputs.delete x.userId,
            colors := s.colors.delete x.userId,
            names := s.names.delete x.userId } w1).state ∧
      (matchLeaveLoop rt (x :: rest) s w).trace =
        [.storageWrite [{ collection := "player_data", key := "position_" ++ name,
                          userID := x.userId, value := value }]] ++ logged ++
        (matchLeaveLoop rt rest
          { s with
            presences := s.presences.delete x.userId,
            positions := s.positions.delete x.userId,
            inputs := s.inputs.delete x.userId,
            colors := s.colors.delete x.userId,
            names := s.names.delete x.userId } w1).trace := by
  cases hw : rt.storageWrite w
      [{ collection := "player_data", key := "position_" ++ name,
         userID := x.userId, value := value }] with
  | mk err w1 =>
    cases err with
    | none =>
      refine ⟨w1, [], rfl, ?_, ?_⟩ <;>
        simp only [matchLeaveLoop, hn, hpos, hjson, writeToStorage, hw]
    | some e =>
      refine ⟨w1, [.logError "could not save player's position %#v"], rfl, ?_, ?_⟩ <;>
        simp only [matchLeaveLoop, hn, hpos, hjson, writeToStorage, hw]

/-- One pass of the loop of `MatchLeave` over a participant that is skipped. -/
theorem matchLeaveLoop_cons_skipped (rt : Runtime W) (x : Presence) (rest : List Presence)
    (s : MatchState) (w : W)
    (hskip : s.names.get? x.userId = none ∨ s.positions.get? x.userId = none ∨
      ∃ name position e, s.names.get? x.userId = some name ∧
        s.positions.get? x.userId = some position ∧ rt.marshalPosition position = .error e) :
    (matchLeaveLoop rt (x :: rest) s w).state = (matchLeaveLoop rt rest s w).state ∧
    writesOf (matchLeaveLoop rt (x :: rest) s w).trace =
      writesOf (matchLeaveLoop rt rest s w).trace := by
  rcases hskip with hn | hpos | ⟨name, position, e, hn, hpos, hjson⟩
  · constructor <;> simp only [matchLeaveLoop, hn]
  · cases hn : s.names.get? x.userId with
    | none => constructor <;> simp only [matchLeaveLoop, hn]
    | some name => constructor <;> simp only [matchLeaveLoop, hn, hpos]
  · constructor
    · simp only [matchLeaveLoop, hn, hpos, hjson]
    · simp only [matchLeaveLoop, hn, hpos, hjson, writesOf]

/-- Every pass of the loop is one of the two above. -/
theorem matchLeaveLoop_cons_cases (rt : Runtime W) (x : Presence) (s : MatchState) :
    (s.names.get? x.userId = none ∨ s.positions.get? x.userId = none ∨
      ∃ name position e, s.names.get? x.userId = some name ∧
        s.positions.get? x.userId = some position ∧ rt.marshalPosition position = .error e) ∨
    ∃ name position value, s.names.get? x.userId = some name ∧
      s.positions.get? x.userId = some position ∧ rt.marshalPosition position = .ok value := by
  cases hn : s.names.get? x.userId with
  | none => exact Or.inl (Or.inl rfl)
  | some name =>
    cases hpos : s.positions.get? x.userId with
    | none => exact Or.inl (Or.inr (Or.inl rfl))
    | some position =>
      cases hjson : rt.marshalPosition position with
      | error e => exact Or.inl (Or.inr (Or.inr ⟨name, position, e, rfl, rfl, hjson⟩))
      | ok value => exact Or.inr ⟨name, position, value, rfl, rfl, hjson⟩

theorem matchLeaveLoop_cons_skipped_world (rt : Runtime W) (x : Presence)
    (rest : List Presence) (s : MatchState) (w : W)
    (hskip : s.names.get? x.userId = none ∨ s.positions.get? x.userId = none ∨
      ∃ name position e, s.names.get? x.userId = some name ∧
        s.positions.get? x.userId = some position ∧ rt.marshalPosition position = .error e) :
    (matchLeaveLoop rt (x :: rest) s w).world = (matchLeaveLoop rt rest s w).world := by
  rcases hskip with hn | hpos | ⟨name, position, e, hn, hpos, hjson⟩
  · simp only [matchLeaveLoop, hn]
  · cases hn : s.names.get? x.userId with
    | none => simp only [matchLeaveLoop, hn]
    | some name => simp only [matchLeaveLoop, hn, hpos]
  · simp only [matchLeaveLoop, hn, hpos, hjson]

theorem matchLeaveLoop_cons_removed_world (rt : Runtime W) (x : Presence)
    (rest : List Presence) (s : MatchState) (w : W) (name value : String) (position : Position)
    (hn : s.names.get? x.userId = some name)
    (hpos : s.positions.get? x.userId = some position)
    (hjson : rt.marshalPosition position = .ok value) :
    (matchLeaveLoop rt (x :: rest) s w).world =
      (matchLeaveLoop rt rest
        { s with
          presences := s.presences.delete x.userId,
          positions := s.positions.delete x.userId,
          inputs := s.inputs.delete x.userId,
          colors := s.colors.delete x.userId,
          names := s.names.delete x.userId }
        (rt.storageWrite w
          [{ collection := "player_data", key := "position_" ++ name,
             userID := x.userId, value := value }]).2).world := by
  cases hw : rt.storageWrite w
      [{ collection := "player_data", key := "position_" ++ name,
         userID := x.userId, value := value }] with
  | mk err w1 =>
    cases err <;> simp only [matchLeaveLoop, hn, hpos, hjson, writeToStorage, hw]

theorem matchLeaveLoop_cons_removed_eq (rt : Runtime W) (x : Presence)
    (rest : List Presence) (s : MatchState) (w : W) (name value : String) (position : Position)
    (hn : s.names.get? x.userId = some name)
    (hpos : s.positions.get? x.userId = some position)
    (hjson : rt.marshalPosition position = .ok value) :
    ∃ logged, writesOf logged = [] ∧ broadcastsOf logged = [] ∧
      matchLeaveLoop rt (x :: rest) s w =
        { matchLeaveLoop rt rest
            { s with
              presences := s.presences.delete x.userId,
              positions := s.positions.delete x.userId,
              inputs := s.inputs.delete x.userId,
              colors := s.colors.delete x.userId,
              names := s.names.delete x.userId }
            (rt.storageWrite w
              [{ collection := "player_data", key := "position_" ++ name,
                 userID := x.userId, value := value }]).2 with
          trace :=
            [.storageWrite [{ collection := "player_data", key := "position_" ++ name,
                              userID := x.userId, value := value }]] ++ logged ++
            (matchLeaveLoop rt rest
              { s with
                presences := s.presences.delete x.userId,
                positions := s.positions.delete x.userId,
                inputs := s.inputs.delete x.userId,
                colors := s.colors.delete x.userId,
                names := s.names.delete x.userId }
              (rt.storageWrite w
                [{ collection := "player_data", key := "position_" ++ name,
                   userID := x.userId, value := value }]).2).trace } := by
  cases hw : rt.storageWrite w
      [{ collection := "player_data", key := "position_" ++ name,
         userID := x.userId, value := value }] with
  | mk err w1 =>
    cases err with
    | none =>
      refine ⟨[], rfl, rfl, ?_⟩
      simp only [matchLeaveLoop, hn, hpos, hjson, writeToStorage, hw]
    | some e =>
      refine ⟨[.logError "could not save player's position %#v"], rfl, rfl, ?_⟩
      simp only [matchLeaveLoop, hn, hpos, hjson, writeToStorage, hw]

theorem applyWrites_cons (rt : Runtime W) (w : W) (wr : StorageWrite)
    (rest : List StorageWrite) :
    applyWrites rt w (wr :: rest) = applyWrites rt (rt.storageWrite w [wr]).2 rest := rfl

/-- The world after the loop of `MatchLeave` is the world after the storage
was handed each write of the trace, in order. -/
theorem matchLeaveLoop_world (rt : Runtime W) (presences : List Presence) :
    ∀ (s : MatchState) (w : W),
      (matchLeaveLoop rt presences s w).world =
        applyWrites rt w (writesOf (matchLeaveLoop rt presences s w).trace) := by
  induction presences with
  | nil => intro s w; rfl
  | cons x rest ih =>
    intro s w
    rcases matchLeaveLoop_cons_cases rt x s with hskip | ⟨name, position, value, hn, hpos, hjson⟩
    · rw [matchLeaveLoop_cons_skipped_world rt x rest s w hskip,
        (matchLeaveLoop_cons_skipped rt x rest s w hskip).2]
      exact ih s w
    · obtain ⟨logged, hlogged, _, heq⟩ :=
        matchLeaveLoop_cons_removed_eq rt x rest s w name value position hn hpos hjson
      rw [heq]
      show (matchLeaveLoop rt rest _ _).world =
        applyWrites rt w (writesOf ([.storageWrite [_]] ++ logged ++
          (matchLeaveLoop rt rest _ _).trace))
      rw [writesOf_append, writesOf_append, hlogged]
      exact ih _ _

/-- The loop of `MatchLeave` over a list is the loop over its first part
followed by the loop over the rest. -/
theorem matchLeaveLoop_append (rt : Runtime W) (pre post : List Presence) :
    ∀ (s : MatchState) (w : W),
      (matchLeaveLoop rt (pre ++ post) s w).state =
        (matchLeaveLoop rt post (matchLeaveLoop rt pre s w).state
          (matchLeaveLoop rt pre s w).world).state ∧
      (matchLeaveLoop rt (pre ++ post) s w).world =
        (matchLeaveLoop rt post (matchLeaveLoop rt pre s w).state
          (matchLeaveLoop rt pre s w).world).world := by
  induction pre with
  | nil => intro s w; exact ⟨rfl, rfl⟩
  | cons x rest ih =>
    intro s w
    rcases matchLeaveLoop_cons_cases rt x s with hskip | ⟨name, position, value, hn, hpos, hjson⟩
    · show (matchLeaveLoop rt (x :: (rest ++ post)) s w).state = _ ∧
        (matchLeaveLoop rt (x :: (rest ++ post)) s w).world = _
      rw [(matchLeaveLoop_cons_skipped rt x (rest ++ post) s w hskip).1,
        matchLeaveLoop_cons_skipped_world rt x (rest ++ post) s w hskip,
        (matchLeaveLoop_cons_skipped rt x rest s w hskip).1,
        matchLeaveLoop_cons_skipped_world rt x rest s w hskip]
      exact ih s w
    · show (matchLeaveLoop rt (x :: (rest ++ post)) s w).state = _ ∧
        (matchLeaveLoop rt (x :: (rest ++ post)) s w).world = _
      obtain ⟨_, _, _, heq1⟩ :=
        matchLeaveLoop_cons_removed_eq rt x (rest ++ post) s w name value position hn hpos hjson
      obtain ⟨_, _, _, heq2⟩ :=
        matchLeaveLoop_cons_removed_eq rt x rest s w name value position hn hpos hjson
      rw [heq1, heq2]
      exact ih _ _

/-- The loop of `MatchLeave` leaves the entries of an id that is not in the
departing list as they were. -/
theorem matchLeaveLoop_frame (rt : Runtime W) (q : String) (presences : List Presence) :
    ∀ (s : MatchState) (w : W), q ∉ presences.map Presence.userId →
      (matchLeaveLoop rt presences s w).state.presences.get? q = s.presences.get? q ∧
      (matchLeaveLoop rt presences s w).state.positions.get? q = s.positions.get? q ∧
      (matchLeaveLoop rt presences s w).state.inputs.get? q = s.inputs.get? q ∧
      (matchLeaveLoop rt presences s w).state.colors.get? q = s.colors.get? q ∧
      (matchLeaveLoop rt presences s w).state.names.get? q = s.names.get? q := by
  induction presences with
  | nil => intro s w _; exact ⟨rfl, rfl, rfl, rfl, rfl⟩
  | cons x rest ih =>
    intro s w hq
    have hqx : q ≠ x.userId := fun h => hq (by simp [h])
    have hqrest : q ∉ rest.map Presence.userId := fun h => hq (by simp at h ⊢; exact Or.inr h)
    rcases matchLeaveLoop_cons_cases rt x s with hskip | ⟨name, position, value, hn, hpos, hjson⟩
    · rw [(matchLeaveLoop_cons_skipped rt x rest s w hskip).1]
      exact ih s w hqrest
    · obtain ⟨w1, logged, _, hstate, _⟩ :=
        matchLeaveLoop_cons_removed rt x rest s w name value position hn hpos hjson
      rw [hstate]
      obtain ⟨h1, h2, h3, h4, h5⟩ := ih _ w1 hqrest
      rw [h1, h2, h3, h4, h5]
      exact ⟨GoMap.get?_delete_ne _ hqx, GoMap.get?_delete_ne _ hqx, GoMap.get?_delete_ne _ hqx,
        GoMap.get?_delete_ne _ hqx, GoMap.get?_delete_ne _ hqx⟩

/-- An id without a names entry is passed over by the loop of `MatchLeave`: no
write is issued for it, and what is absent stays absent. -/
theorem matchLeaveLoop_absent (rt : Runtime W) (p : String) (presences : List Presence) :
    ∀ (s : MatchState) (w : W), s.names.get? p = none →
      (writesOf (matchLeaveLoop rt presences s w).trace).filter (fun wr => wr.userID = p) = [] ∧
      (s.presences.get? p = none →
        (matchLeaveLoop rt presences s w).state.presences.get? p = none) ∧
      (s.positions.get? p = none →
        (matchLeaveLoop rt presences s w).state.positions.get? p = none) ∧
      (s.inputs.get? p = none →
        (matchLeaveLoop rt presences s w).state.inputs.get? p = none) ∧
      (s.colors.get? p = none →
        (matchLeaveLoop rt presences s w).state.colors.get? p = none) ∧
      (matchLeaveLoop rt presences s w).state.names.get? p = none := by
  induction presences with
  | nil => intro s w hn; exact ⟨rfl, id, id, id, id, hn⟩
  | cons x rest ih =>
    intro s w hnp
    rcases matchLeaveLoop_cons_cases rt x s with hskip | ⟨name, position, value, hn, hpos, hjson⟩
    · obtain ⟨hstate, hwrites⟩ := matchLeaveLoop_cons_skipped rt x rest s w hskip
      rw [hstate, hwrites]
      exact ih s w hnp
    · obtain ⟨w1, logged, hlogged, hstate, htrace⟩ :=
        matchLeaveLoop_cons_removed rt x rest s w name value position hn hpos hjson
      have hxp : ¬ x.userId = p := by
        intro h
        rw [h, hnp] at hn
        cases hn
      obtain ⟨i1, i2, i3, i4, i5, i6⟩ := ih
        { s with
          presences := s.presences.delete x.userId,
          positions := s.positions.delete x.userId,
          inputs := s.inputs.delete x.userId,
          colors := s.colors.delete x.userId,
          names := s.names.delete x.userId } w1 (GoMap.get?_delete_of_none _ _ _ hnp)
      rw [hstate, htrace]
      refine ⟨?_, fun h => i2 (GoMap.get?_delete_of_none _ _ _ h),
        fun h => i3 (GoMap.get?_delete_of_none _ _ _ h),
        fun h => i4 (GoMap.get?_delete_of_none _ _ _ h),
        fun h => i5 (GoMap.get?_delete_of_none _ _ _ h), i6⟩
      simp [writesOf_append, writesOf, hlogged, i1, hxp]

/-- The loop of `MatchLeave` on a departing participant with a name and an
encodable position: one write for it, and no entry of it afterwards. -/
theorem matchLeaveLoop_persists (rt : Runtime W) (p n value : String) (pos : Position)
    (hjson : rt.marshalPosition pos = .ok value) (presences : List Presence) :
    ∀ (s : MatchState) (w : W), p ∈ presences.map Presence.userId →
      s.names.get? p = some n → s.positions.get? p = some pos →
      (writesOf (matchLeaveLoop rt presences s w).trace).filter (fun wr => wr.userID = p) =
        [{ collection := "player_data", key := "position_" ++ n, userID := p,
           value := value }] ∧
      (matchLeaveLoop rt presences s w).state.presences.get? p = none ∧
      (matchLeaveLoop rt presences s w).state.positions.get? p = none ∧
      (matchLeaveLoop rt presences s w).state.inputs.get? p = none ∧
      (matchLeaveLoop rt presences s w).state.colors.get? p = none ∧
      (matchLeaveLoop rt presences s w).state.names.get? p = none := by
  induction presences with
  | nil => intro s w hmem; simp at hmem
  | cons x rest ih =>
    intro s w hmem hn hpos
    by_cases hxp : x.userId = p
    · subst hxp
      obtain ⟨w1, logged, hlogged, hstate, htrace⟩ :=
        matchLeaveLoop_cons_removed rt x rest s w n value pos hn hpos hjson
      obtain ⟨i1, i2, i3, i4, i5, i6⟩ := matchLeaveLoop_absent rt x.userId rest
        { s with
          presences := s.presences.delete x.userId,
          positions := s.positions.delete x.userId,
          inputs := s.inputs.delete x.userId,
          colors := s.colors.delete x.userId,
          names := s.names.delete x.userId } w1 (GoMap.get?_delete_self _ _)
      rw [hstate, htrace]
      refine ⟨?_, i2 (GoMap.get?_delete_self _ _), i3 (GoMap.get?_delete_self _ _),
        i4 (GoMap.get?_delete_self _ _), i5 (GoMap.get?_delete_self _ _), i6⟩
      simp [writesOf_append, writesOf, hlogged, i1]
    · have hpx : p ≠ x.userId := fun h => hxp h.symm
      have hrest : p ∈ rest.map Presence.userId := by
        simp only [List.map_cons, List.mem_cons] at hmem
        rcases hmem with h | h
        · exact absurd h.symm hxp
        · exact h
      rcases matchLeaveLoop_cons_cases rt x s with
        hskip | ⟨name, position, value', hn', hpos', hjson'⟩
      · obtain ⟨hstate, hwrites⟩ := matchLeaveLoop_cons_skipped rt x rest s w hskip
        rw [hstate, hwrites]
        exact ih s w hrest hn hpos
      · obtain ⟨w1, logged, hlogged, hstate, htrace⟩ :=
          matchLeaveLoop_cons_removed rt x rest s w name value' position hn' hpos' hjson'
        obtain ⟨i1, i2⟩ := ih
          { s with
            presences := s.presences.delete x.userId,
            positions := s.positions.delete x.userId,
            inputs := s.inputs.delete x.userId,
            colors := s.colors.delete x.userId,
            names := s.names.delete x.userId } w1 hrest
          (by rw [← hn]; exact GoMap.get?_delete_ne _ hpx)
          (by rw [← hpos]; exact GoMap.get?_delete_ne _ hpx)
        rw [hstate, htrace]
        refine ⟨?_, i2⟩
        simp [writesOf_append, writesOf, hlogged, i1, hxp]

/-- C9 (leave persists and clears): for a departing participant `p` that has a
names entry `n` and a positions entry `pos` whose JSON encoding is `value`,
`MatchLeave` returns a session state; among the storage writes it issued
exactly one has owner `p`, namely collection "player_data", key
"position_" + n, owner `p`, value `value`; afterwards `p` is absent from all
five maps, whatever the storage answered to the write; and the entries of
every id outside the departing list are as before.  The writes of the trace
are handed to the storage: the world returned is the world after the storage
received them one at a time, in order. -/
theorem MatchLeave_persists_and_clears (rt : Runtime W) (w : W) (state : MatchState)
    (presences : List Presence) (p n value : String) (pos : Position)
    (hmem : p ∈ presences.map Presence.userId)
    (hn : state.names.get? p = some n)
    (hpos : state.positions.get? p = some pos)
    (hjson : rt.marshalPosition pos = .ok value) :
    ∃ state' w' trace,
      MatchLeave rt w (.matchState state) presences = .ok (.matchState state', w', trace) ∧
      (writesOf trace).filter (fun wr => wr.userID = p) =
        [{ collection := "player_data", key := "position_" ++ n, userID := p,
           value := value }] ∧
      (state'.presences.get? p = none ∧ state'.positions.get? p = none ∧
        state'.inputs.get? p = none ∧ state'.colors.get? p = none ∧
        state'.names.get? p = none) ∧
      (∀ q, q ∉ presences.map Presence.userId →
        state'.presences.get? q = state.presences.get? q ∧
        state'.positions.get? q = state.positions.get? q ∧
        state'.inputs.get? q = state.inputs.get? q ∧
        state'.colors.get? q = state.colors.get? q ∧
        state'.names.get? q = state.names.get? q) ∧
      w' = applyWrites rt w (writesOf trace) := by
  obtain ⟨h1, h2⟩ := matchLeaveLoop_persists rt p n value pos hjson presences state w hmem hn hpos
  exact ⟨_, _, _, rfl, h1, h2, fun q hq => matchLeaveLoop_frame rt q presences state w hq,
    matchLeaveLoop_world rt presences state w⟩

/-- Witness of C9: `u1` and `u2` joined and `u1` leaves, once while the
storage refuses every write and once while it accepts them: `u1` is removed
both times, and the second time the store holds the record. -/
theorem MatchLeave_persists_and_clears_witness :
    (∃ state' w' trace,
      MatchLeave simRuntime simWorldDown (.matchState stateU1U2) [presenceU1] =
        .ok (.matchState state', w', trace) ∧
      (writesOf trace).filter (fun wr => wr.userID = "u1") =
        [{ collection := "player_data", key := "position_" ++ "User", userID := "u1",
           value := Sim.encodePosition ⟨0, 0⟩ }] ∧
      (state'.presences.get? "u1" = none ∧ state'.positions.get? "u1" = none ∧
        state'.inputs.get? "u1" = none ∧ state'.colors.get? "u1" = none ∧
        state'.names.get? "u1" = none) ∧
      (∀ q, q ∉ [presenceU1].map Presence.userId →
        state'.presences.get? q = stateU1U2.presences.get? q ∧
        state'.positions.get? q = stateU1U2.positions.get? q ∧
        state'.inputs.get? q = stateU1U2.inputs.get? q ∧
        state'.colors.get? q = stateU1U2.colors.get? q ∧
        state'.names.get? q = stateU1U2.names.get? q) ∧
      w' = applyWrites simRuntime simWorldDown (writesOf trace)) ∧
    (∃ state' w' trace,
      MatchLeave simRuntime simWorld (.matchState stateU1U2) [presenceU1] =
        .ok (.matchState state', w', trace) ∧
      state'.names.get? "u1" = none ∧
      w'.objects =
        [{ collection := "player_data", key := "position_User", userID := "u1",
           value := Sim.encodePosition ⟨0, 0⟩ }]) := by
  refine ⟨MatchLeave_persists_and_clears simRuntime simWorldDown stateU1U2 [presenceU1]
    "u1" "User" (Sim.encodePosition ⟨0, 0⟩) ⟨0, 0⟩ (by decide) (by decide) (by decide) rfl,
    ?_⟩
  obtain ⟨state', w', trace, h1, h2, h3, _, h5⟩ :=
    MatchLeave_persists_and_clears simRuntime simWorld stateU1U2 [presenceU1]
      "u1" "User" (Sim.encodePosition ⟨0, 0⟩) ⟨0, 0⟩ (by decide) (by decide) (by decide) rfl
  have htrace : writesOf trace =
      [{ collection := "player_data", key := "position_User", userID := "u1",
         value := Sim.encodePosition ⟨0, 0⟩ }] := by
    have h0 : MatchLeave simRuntime simWorld (.matchState stateU1U2) [presenceU1] =
        .ok (.matchState (matchLeaveLoop simRuntime [presenceU1] stateU1U2 simWorld).state,
          (matchLeaveLoop simRuntime [presenceU1] stateU1U2 simWorld).world,
          (matchLeaveLoop simRuntime [presenceU1] stateU1U2 simWorld).trace) := rfl
    rw [h0] at h1
    simp only [Except.ok.injEq, Prod.mk.injEq] at h1
    rw [← h1.2.2]
    decide
  refine ⟨state', w', trace, h1, h3.2.2.2.2, ?_⟩
  rw [h5, htrace]
  decide

end Leave

/-! ## Terminate -/

section Terminate

variable {W : Type}

theorem matchTerminateLoop_writes (rt : Runtime W) (matchState : MatchState)
    (entries : List (String × Position)) :
    ∀ w : W, writesOf (matchTerminateLoop rt matchState entries w).2 =
      entries.filterMap (terminateWrite rt matchState) := by
  induction entries with
  | nil => intro w; rfl
  | cons entry rest ih =>
    intro w
    obtain ⟨userID, position⟩ := entry
    cases hjson : rt.marshalPosition position with
    | error e =>
      simp only [matchTerminateLoop, hjson, writesOf, List.filterMap_cons, terminateWrite, ih]
    | ok value =>
      cases hw : rt.storageWrite w
          [{ collection := "player_data",
             userID := "position_" ++ matchState.names.getD userID "",
             key := userID, value := value }] with
      | mk err w1 =>
        cases err with
        | none =>
          simp only [matchTerminateLoop, hjson, writeToStorage, hw, writesOf,
            List.filterMap_cons, terminateWrite, ih, List.singleton_append, List.cons_append,
            List.nil_append]
        | some e =>
          simp only [matchTerminateLoop, hjson, writeToStorage, hw, writesOf,
            List.filterMap_cons, terminateWrite, ih, List.singleton_append, List.cons_append,
            List.nil_append]

theorem terminateWrite_key (rt : Runtime W) (matchState : MatchState)
    (entry : String × Position) (wr : StorageWrite)
    (h : terminateWrite rt matchState entry = some wr) : wr.key = entry.1 := by
  unfold terminateWrite at h
  split at h
  · cases h; rfl
  · cases h

theorem filterMap_terminateWrite_absent (rt : Runtime W) (matchState : MatchState) (u : String)
    (entries : GoMap Position) (h : entries.get? u = none) :
    (entries.filterMap (terminateWrite rt matchState)).filter (fun wr => wr.key = u) = [] := by
  induction entries with
  | nil => rfl
  | cons entry rest ih =>
    obtain ⟨k, v⟩ := entry
    have hk : ¬ k = u := by
      intro hk
      simp [GoMap.get?, hk] at h
    have hrest : GoMap.get? rest u = none := by simpa [GoMap.get?, hk] using h
    cases hwr : terminateWrite rt matchState (k, v) with
    | none => simpa [List.filterMap_cons, hwr] using ih hrest
    | some wr =>
      have hkey := terminateWrite_key rt matchState (k, v) wr hwr
      simp only at hkey
      simp [List.filterMap_cons, hwr, hkey, hk, ih hrest]

theorem get?_eq_none_of_not_mem_keys {V : Type} (m : GoMap V) (u : String)
    (h : u ∉ m.keys) : m.get? u = none := by
  induction m with
  | nil => rfl
  | cons entry rest ih =>
    obtain ⟨k, v⟩ := entry
    have hk : ¬ k = u := by
      intro hk
      exact h (by simp [GoMap.keys, hk])
    have hrest : u ∉ GoMap.keys rest := by
      intro hmem
      exact h (by simp only [GoMap.keys, List.map_cons, List.mem_cons]; exact Or.inr hmem)
    simp [GoMap.get?, hk, ih hrest]

theorem filterMap_terminateWrite_entry (rt : Runtime W) (matchState : MatchState) (u : String)
    (pos : Position) (value : String) (hjson : rt.marshalPosition pos = .ok value)
    (entries : GoMap Position) (hnodup : entries.keys.Nodup)
    (h : entries.get? u = some pos) :
    (entries.filterMap (terminateWrite rt matchState)).filter (fun wr => wr.key = u) =
      [{ collection := "player_data", userID := "position_" ++ matchState.names.getD u "",
         key := u, value := value }] := by
  induction entries with
  | nil => simp [GoMap.get?] at h
  | cons entry rest ih =>
    obtain ⟨k, v⟩ := entry
    have hnd : k ∉ GoMap.keys rest ∧ (GoMap.keys rest).Nodup := by
      simpa [GoMap.keys] using hnodup
    by_cases hk : k = u
    · subst hk
      have hv : v = pos := by simpa [GoMap.get?] using h
      subst hv
      have habsent := filterMap_terminateWrite_absent rt matchState k rest
        (get?_eq_none_of_not_mem_keys rest k hnd.1)
      simp [List.filterMap_cons, terminateWrite, hjson, habsent]
    · have hrest : GoMap.get? rest u = some pos := by simpa [GoMap.get?, hk] using h
      cases hwr : terminateWrite rt matchState (k, v) with
      | none => simpa [List.filterMap_cons, hwr] using ih hnd.2 hrest
      | some wr =>
        have hkey := terminateWrite_key rt matchState (k, v) wr hwr
        simp only at hkey
        simp [List.filterMap_cons, hwr, hkey, hk, ih hnd.2 hrest]

/-- The world after the loop of `MatchTerminate` is the world after the
storage was handed the write of each encodable positions entry, in order. -/
theorem matchTerminateLoop_world (rt : Runtime W) (matchState : MatchState)
    (entries : List (String × Position)) :
    ∀ w : W, (matchTerminateLoop rt matchState entries w).1 =
      applyWrites rt w (entries.filterMap (terminateWrite rt matchState)) := by
  induction entries with
  | nil => intro w; rfl
  | cons entry rest ih =>
    intro w
    obtain ⟨userID, position⟩ := entry
    cases hjson : rt.marshalPosition position with
    | error e =>
      simp only [matchTerminateLoop, hjson, List.filterMap_cons, terminateWrite, ih]
    | ok value =>
      cases hw : rt.storageWrite w
          [{ collection := "player_data",
             userID := "position_" ++ matchState.names.getD userID "",
             key := userID, value := value }] with
      | mk err w1 =>
        cases err with
        | none =>
          simp only [matchTerminateLoop, hjson, writeToStorage, hw, List.filterMap_cons,
            terminateWrite, ih]
          rw [applyWrites_cons, hw]
        | some e =>
          simp only [matchTerminateLoop, hjson, writeToStorage, hw, List.filterMap_cons,
            terminateWrite, ih]
          rw [applyWrites_cons, hw]

/-- C10: `MatchTerminate` on a session state returns that very state, and the
storage writes it attempts are, in iteration order, one per positions entry
whose position can be encoded: collection "player_data", value the JSON
encoding of the position (with the participant id in the key field and
"position_" + name in the owner field), whatever the storage answers to each
write.  With distinct map keys, exactly one of the attempted writes is the
one of a given participant with a positions entry.  Each of these writes is
handed to the storage: the world returned is the world after the storage
received them one at a time, in that order, a refused write not stopping the
later ones. -/
theorem MatchTerminate_persists_each (rt : Runtime W) (w : W) (state : MatchState) :
    ∃ w' trace,
      MatchTerminate rt w (.matchState state) = .ok (.matchState state, w', trace) ∧
      w' = applyWrites rt w (state.positions.filterMap (terminateWrite rt state)) ∧
      writesOf trace = state.positions.filterMap (terminateWrite rt state) ∧
      (∀ wr ∈ writesOf trace, wr.collection = "player_data") ∧
      (∀ u pos value, state.positions.keys.Nodup → state.positions.get? u = some pos →
        rt.marshalPosition pos = .ok value →
        (writesOf trace).filter (fun wr => wr.key = u) =
          [{ collection := "player_data", userID := "position_" ++ state.names.getD u "",
             key := u, value := value }]) := by
  have hwrites := matchTerminateLoop_writes rt state state.positions w
  refine ⟨_, _, rfl, matchTerminateLoop_world rt state state.positions w, hwrites, ?_, ?_⟩
  · intro wr hwr
    rw [hwrites, List.mem_filterMap] at hwr
    obtain ⟨entry, _, hentry⟩ := hwr
    unfold terminateWrite at hentry
    split at hentry
    · cases hentry; rfl
    · cases hentry
  · intro u pos value hnodup hget hjson
    rw [hwrites]
    exact filterMap_terminateWrite_entry rt state u pos value hjson state.positions hnodup hget

/-- Witness of C10: `u1` and `u2` are in the session when it terminates over
an empty store: the store then holds the two records, the one of `u2` written
last. -/
theorem MatchTerminate_persists_each_witness :
    ∃ w' trace,
      MatchTerminate simRuntime simWorld (.matchState stateU1U2) =
        .ok (.matchState stateU1U2, w', trace) ∧
      w'.objects =
        [{ collection := "player_data", userID := "position_User", key := "u2",
           value := Sim.encodePosition ⟨0, 0⟩ },
         { collection := "player_data", userID := "position_User", key := "u1",
           value := Sim.encodePosition ⟨0, 0⟩ }] ∧
      (writesOf trace).filter (fun wr => wr.key = "u1") =
        [{ collection := "player_data", userID := "position_" ++ stateU1U2.names.getD "u1" "",
           key := "u1", value := Sim.encodePosition ⟨0, 0⟩ }] ∧
      (writesOf trace).filter (fun wr => wr.key = "u2") =
        [{ collection := "player_data", userID := "position_" ++ stateU1U2.names.getD "u2" "",
           key := "u2", value := Sim.encodePosition ⟨0, 0⟩ }] := by
  obtain ⟨w', trace, h1, h2, _, _, h5⟩ :=
    MatchTerminate_persists_each simRuntime simWorld stateU1U2
  refine ⟨w', trace, h1, ?_, h5 "u1" ⟨0, 0⟩ _ (by decide) (by decide) rfl,
    h5 "u2" ⟨0, 0⟩ _ (by decide) (by decide) rfl⟩
  rw [h2]
  decide

end Terminate

/-! ## Join attempt -/

section JoinAttempt

/-- C11: on a session state `MatchJoinAttempt` returns; it rejects (returns
false, with a reason that is not empty) exactly when the id of the candidate
has an entry in `presences`; and in both cases the state it returns is the
input state. -/
theorem MatchJoinAttempt_rejects_iff_present (state : MatchState) (presence : Presence) :
    ∃ accepted reason,
      MatchJoinAttempt (.matchState state) presence =
        .ok (.matchState state, accepted, reason) ∧
      (accepted = false ↔ state.presences.get? presence.userId ≠ none) ∧
      (accepted = false → reason ≠ "") := by
  cases hget : state.presences.get? presence.userId with
  | none =>
    refine ⟨true, "user can join", ?_, ?_, ?_⟩
    · simp only [MatchJoinAttempt, hget]
    · simp
    · intro h; cases h
  | some handle =>
    refine ⟨false, "the user is already logged in", ?_, ?_, ?_⟩
    · simp only [MatchJoinAttempt, hget]
    · simp
    · intro _; decide

end JoinAttempt

/-! ## Color update -/

section Color

variable {W : Type}

theorem updateColorOp_of_decoded (rt : Runtime W) (msg : MatchData) (state : MatchState)
    (w : W) (u : UpdateColorMessage)
    (hdec : rt.unmarshalUpdateColor msg.data = .ok u) :
    updateColorOp rt msg state w =
      ⟨(rt.broadcastMessage w updateColor msg.data none none true).1,
        (match state.colors.get? u.id with
          | some _ => { state with colors := state.colors.set u.id u.color }
          | none => state),
        (rt.broadcastMessage w updateColor msg.data none none true).2,
        [.broadcast updateColor msg.data none none true]⟩ := by
  cases hb : rt.broadcastMessage w updateColor msg.data none none true with
  | mk err w1 => simp only [updateColorOp, hdec, hb]

theorem updateColorOp_of_undecoded (rt : Runtime W) (msg : MatchData) (state : MatchState)
    (w : W) (e : String) (hdec : rt.unmarshalUpdateColor msg.data = .error e) :
    updateColorOp rt msg state w = ⟨some e, state, w, []⟩ := by
  simp only [updateColorOp, hdec]

/-- C13 (color update no-op safety): for a well-formed color-update message
`{id, color}` whose broadcast the dispatcher accepts, `updateColorOp` returns
no error and makes exactly one host call, the op-6 broadcast of the
unmodified payload with a nil target list (all participants); `colors[id]`
becomes `color` when `id` had a colors entry, with every other entry as
before; when `id` had none, the colors map is the one before; the other four
maps are untouched.  The broadcast is handed to the dispatcher: the world
returned is the world in which the dispatcher received it. -/
theorem updateColorOp_broadcasts_always (rt : Runtime W) (msg : MatchData)
    (state : MatchState) (w : W) (id color : String)
    (hdec : rt.unmarshalUpdateColor msg.data = .ok ⟨id, color⟩)
    (hsent : (rt.broadcastMessage w updateColor msg.data none none true).1 = none) :
    (updateColorOp rt msg state w).err = none ∧
    (updateColorOp rt msg state w).trace = [.broadcast 6 msg.data none none true] ∧
    (∀ b ∈ broadcastsOf (updateColorOp rt msg state w).trace,
      recipients (updateColorOp rt msg state w).state.presences b =
        (updateColorOp rt msg state w).state.presences.map Prod.snd) ∧
    (state.colors.get? id ≠ none →
      (updateColorOp rt msg state w).state.colors.get? id = some color ∧
      ∀ k, k ≠ id →
        (updateColorOp rt msg state w).state.colors.get? k = state.colors.get? k) ∧
    (state.colors.get? id = none →
      (updateColorOp rt msg state w).state.colors = state.colors) ∧
    ((updateColorOp rt msg state w).state.presences = state.presences ∧
      (updateColorOp rt msg state w).state.positions = state.positions ∧
      (updateColorOp rt msg state w).state.inputs = state.inputs ∧
      (updateColorOp rt msg state w).state.names = state.names) ∧
    (updateColorOp rt msg state w).world =
      (rt.broadcastMessage w 6 msg.data none none true).2 := by
  rw [updateColorOp_of_decoded rt msg state w ⟨id, color⟩ hdec]
  refine ⟨hsent, rfl, ?_, ?_, ?_, ?_, rfl⟩
  · intro b hb
    have hb' : b = .broadcast updateColor msg.data none none true := by
      simpa [broadcastsOf] using hb
    subst hb'
    rfl
  · intro hsome
    cases hget : state.colors.get? id with
    | none => exact absurd hget hsome
    | some old =>
      exact ⟨GoMap.get?_set_self _ _ _, fun k hk => GoMap.get?_set_ne _ _ hk⟩
  · intro hnone
    simp only [hnone]
  · cases hget : state.colors.get? id with
    | none => exact ⟨rfl, rfl, rfl, rfl⟩
    | some old => exact ⟨rfl, rfl, rfl, rfl⟩

/-- Witness of C13: only `u1` joined; `u2`, who has no colors entry, and `u1`
each send a color update.  The dispatcher has received the message of `u2`. -/
theorem updateColorOp_broadcasts_always_witness :
    ((updateColorOp simRuntime msgColorU2 stateU1 simWorld).err = none ∧
      (updateColorOp simRuntime msgColorU2 stateU1 simWorld).trace =
        [.broadcast 6 msgColorU2.data none none true] ∧
      (updateColorOp simRuntime msgColorU2 stateU1 simWorld).state.colors = stateU1.colors) ∧
    (updateColorOp simRuntime msgColor stateU1 simWorld).state.colors.get? "u1" =
      some "0,0,0,1" ∧
    (updateColorOp simRuntime msgColorU2 stateU1 simWorld).world.delivered =
      [.broadcast 6 msgColorU2.data none none true] := by
  refine ⟨⟨(updateColorOp_broadcasts_always simRuntime msgColorU2 stateU1 simWorld
      "u2" "0,0,0,1" rfl rfl).1,
    (updateColorOp_broadcasts_always simRuntime msgColorU2 stateU1 simWorld
      "u2" "0,0,0,1" rfl rfl).2.1,
    (updateColorOp_broadcasts_always simRuntime msgColorU2 stateU1 simWorld
      "u2" "0,0,0,1" rfl rfl).2.2.2.2.1 (by decide)⟩,
   ((updateColorOp_broadcasts_always simRuntime msgColor stateU1 simWorld
      "u1" "0,0,0,1" rfl rfl).2.2.2.1 (by decide)).1, ?_⟩
  rw [(updateColorOp_broadcasts_always simRuntime msgColorU2 stateU1 simWorld
      "u2" "0,0,0,1" rfl rfl).2.2.2.2.2.2]
  decide

end Color

/-! ## The canonical broadcast -/

section Canonical

variable {W : Type}

theorem broadcastsOf_append (a b : List Event) :
    broadcastsOf (a ++ b) = broadcastsOf a ++ broadcastsOf b := by
  induction a with
  | nil => rfl
  | cons e rest ih =>
    cases e <;> simp [broadcastsOf, ih]

theorem mem_of_mem_broadcastsOf (tr : List Event) (e : Event) (h : e ∈ broadcastsOf tr) :
    e ∈ tr := by
  induction tr with
  | nil => simp [broadcastsOf] at h
  | cons x rest ih =>
    cases x with
    | broadcast op data ps sender reliable =>
      simp only [broadcastsOf, List.mem_cons] at h ⊢
      rcases h with h | h
      · exact Or.inl h
      · exact Or.inr (ih h)
    | storageRead r => exact List.mem_cons_of_mem _ (ih (by simpa [broadcastsOf] using h))
    | storageWrite r => exact List.mem_cons_of_mem _ (ih (by simpa [broadcastsOf] using h))
    | logError f => exact List.mem_cons_of_mem _ (ih (by simpa [broadcastsOf] using h))
    | logInfo f => exact List.mem_cons_of_mem _ (ih (by simpa [broadcastsOf] using h))

theorem updatePositionOp_trace (rt : Runtime W) (msg : MatchData) (state : MatchState)
    (w : W) : (updatePositionOp rt msg state w).trace = [] := by
  cases hdec : rt.unmarshalUpdatePosition msg.data with
  | error e => simp only [updatePositionOp, hdec]
  | ok m =>
    cases hget : state.positions.get? m.id with
    | none => simp only [updatePositionOp, hdec, hget]
    | some old => simp only [updatePositionOp, hdec, hget]

theorem updateInputOp_trace (rt : Runtime W) (msg : MatchData) (state : MatchState) (w : W) :
    (updateInputOp rt msg state w).trace = [] := by
  cases hdec : rt.unmarshalUpdateInput msg.data with
  | error e => simp only [updateInputOp, hdec]
  | ok m =>
    cases hget : state.inputs.get? m.id with
    | none => simp only [updateInputOp, hdec, hget]
    | some i => simp only [updateInputOp, hdec, hget]

theorem updateJumpOp_trace (rt : Runtime W) (msg : MatchData) (state : MatchState) (w : W) :
    (updateJumpOp rt msg state w).trace = [] := by
  cases hdec : rt.unmarshalUpdateInput msg.data with
  | error e => simp only [updateJumpOp, hdec]
  | ok m =>
    cases hget : state.inputs.get? m.id with
    | none => simp only [updateJumpOp, hdec, hget]
    | some i => simp only [updateJumpOp, hdec, hget]

theorem updateColorOp_trace_ops (rt : Runtime W) (msg : MatchData) (state : MatchState)
    (w : W) : ∀ e ∈ (updateColorOp rt msg state w).trace, e.opCode? ≠ some 3 := by
  cases hdec : rt.unmarshalUpdateColor msg.data with
  | error e =>
    rw [updateColorOp_of_undecoded rt msg state w e hdec]
    intro e he
    simp at he
  | ok u =>
    rw [updateColorOp_of_decoded rt msg state w u hdec]
    intro e he
    have he' : e = .broadcast updateColor msg.data none none true := by simpa using he
    subst he'
    simp [Event.opCode?, updateColor]

theorem spawnBroadcasts_trace_ops (rt : Runtime W) (msg : MatchData) (userId : String)
    (state : MatchState) (w : W) :
    ∀ e ∈ (spawnBroadcasts rt msg userId state w).2.2, e.opCode? ≠ some 3 := by
  cases hm : rt.marshalDispatchState
      { positions := state.positions, inputs := state.inputs,
        colors := state.colors, names := state.names } with
  | error err =>
    intro e he
    simp only [spawnBroadcasts, hm, List.mem_singleton] at he
    subst he
    simp [Event.opCode?]
  | ok encoded =>
    cases hp : state.presences.get? userId with
    | none =>
      intro e he
      simp only [spawnBroadcasts, hm, hp, List.mem_singleton] at he
      subst he
      simp [Event.opCode?]
    | some p =>
      cases hb1 : rt.broadcastMessage w initialState encoded none (some p) true with
      | mk err1 w1 =>
      cases err1 with
      | some err =>
        intro e he
        simp only [spawnBroadcasts, hm, hp, hb1, List.mem_singleton] at he
        subst he
        simp [Event.opCode?, initialState]
      | none =>
        cases hb2 : rt.broadcastMessage w1 doSpawn msg.data none (some p) true with
        | mk err2 w2 =>
          intro e he
          simp only [spawnBroadcasts, hm, hp, hb1, hb2, List.mem_cons, List.mem_singleton,
            List.not_mem_nil, or_false] at he
          rcases he with he | he <;> subst he <;> simp [Event.opCode?, initialState, doSpawn]

theorem doSpawnOp_trace_ops (rt : Runtime W) (msg : MatchData) (state : MatchState) (w : W) :
    ∀ e ∈ (doSpawnOp rt msg state w).trace, e.opCode? ≠ some 3 := by
  cases hdec : rt.unmarshalDoSpawn msg.data with
  | error err =>
    intro e he
    simp [doSpawnOp, hdec] at he
  | ok spawn =>
  cases hn : state.names.get? spawn.id with
  | none =>
    intro e he
    simp [doSpawnOp, hdec, hn] at he
  | some n0 =>
  cases hc : state.colors.get? spawn.id with
  | none =>
    intro e he
    simp [doSpawnOp, hdec, hn, hc] at he
  | some c0 =>
  cases hr : rt.storageRead w
      [{ collection := "player_data", key := "position_" ++ spawn.name,
         userID := msg.userId }] with
  | mk res w1 =>
  cases res with
  | error err =>
    intro e he
    simp only [doSpawnOp, hdec, hn, hc, hr, List.mem_cons, List.mem_singleton,
      List.not_mem_nil, or_false] at he
    rcases he with he | he <;> subst he <;> simp [Event.opCode?]
  | ok objects =>
    cases hl : spawnReadLoop rt spawn.id objects ⟨0, 0⟩
      { state with names := state.names.set spawn.id spawn.name,
                   colors := state.colors.set spawn.id spawn.color } false with
    | mk err rest =>
    obtain ⟨state2, isSet⟩ := rest
    cases err with
    | some err =>
      intro e he
      simp only [doSpawnOp, hdec, hn, hc, hr, hl, List.mem_singleton] at he
      subst he
      simp [Event.opCode?]
    | none =>
      intro e he
      rw [(doSpawnOp_of_loop_ok rt msg state w spawn n0 c0 objects w1 state2 isSet
        hdec hn hc hr hl).2] at he
      simp only [List.mem_cons] at he
      rcases he with he | he
      · subst he
        simp [Event.opCode?]
      · exact spawnBroadcasts_trace_ops rt msg spawn.id _ w1 e he

theorem Operations_some (c : Int) (op : Runtime W → MatchData → MatchState → W → OpResult W)
    (h : Operations (W := W) c = some op) :
    op = updatePositionOp ∨ op = updateInputOp ∨ op = updateJumpOp ∨ op = doSpawnOp ∨
      op = updateColorOp := by
  unfold Operations at h
  split_ifs at h <;> cases h <;> simp

theorem handler_trace_ops (rt : Runtime W) (c : Int)
    (op : Runtime W → MatchData → MatchState → W → OpResult W)
    (h : Operations (W := W) c = some op) (msg : MatchData) (state : MatchState) (w : W) :
    ∀ e ∈ (op rt msg state w).trace, e.opCode? ≠ some 3 := by
  rcases Operations_some c op h with h | h | h | h | h <;> subst h
  · rw [updatePositionOp_trace]; intro e he; simp at he
  · rw [updateInputOp_trace]; intro e he; simp at he
  · rw [updateJumpOp_trace]; intro e he; simp at he
  · exact doSpawnOp_trace_ops rt msg state w
  · exact updateColorOp_trace_ops rt msg state w

theorem matchLoopMessages_trace_ops (rt : Runtime W) (messages : List MatchData) :
    ∀ (s : MatchState) (v : W) (r : LoopResult W),
      matchLoopMessages rt messages s v = .ok r → ∀ e ∈ r.trace, e.opCode? ≠ some 3 := by
  induction messages with
  | nil =>
    intro s v r h e he
    simp only [matchLoopMessages, Except.ok.injEq] at h
    subst h
    simp at he
  | cons m rest ih =>
    intro s v r h e he
    cases hop : Operations (W := W) m.opCode with
    | none => simp [matchLoopMessages, hop] at h
    | some op =>
      cases hrest : matchLoopMessages rt rest (op rt m s v).state (op rt m s v).world with
      | error err => simp [matchLoopMessages, hop, hrest] at h
      | ok r' =>
        simp only [matchLoopMessages, hop, hrest, Except.ok.injEq] at h
        subst h
        simp only [List.mem_append] at he
        rcases he with (he | he) | he
        · exact handler_trace_ops rt m.opCode op hop m s v e he
        · cases herr : (op rt m s v).err with
          | none => simp [herr] at he
          | some err =>
            simp only [herr, List.mem_singleton] at he
            subst he
            simp [Event.opCode?]
        · exact ih _ _ r' hrest e he

/-- C14: for a batch of table op codes on a session state whose returned
positions and inputs maps encode to `encoded`, `MatchLoop` returns, and among
the broadcasts of the tick the op-3 message is the last one and the only one:
it carries `encoded`, the encoding of the positions and inputs maps of the
state `MatchLoop` returns, and is sent with a nil target list, to all
participants.  The message is handed to the dispatcher after the last
handler: the world returned is the world in which the dispatcher received it
on top of the world the handlers left. -/
theorem MatchLoop_canonical_broadcast_last (rt : Runtime W) (w : W) (state : MatchState)
    (messages : List MatchData) (encoded : String)
    (htable : ∀ m ∈ messages, m.opCode ∈ ([1, 2, 4, 5, 6] : List Int))
    (hjson : rt.marshalUpdateState
      { positions := (applyInOrder rt messages state w).1.positions,
        inputs := (applyInOrder rt messages state w).1.inputs } = .ok encoded) :
    ∃ state' w' trace,
      MatchLoop rt w (.matchState state) messages = .ok (.matchState state', w', trace) ∧
      rt.marshalUpdateState { positions := state'.positions, inputs := state'.inputs } =
        .ok encoded ∧
      (∃ earlier,
        broadcastsOf trace = earlier ++ [.broadcast 3 encoded none none true] ∧
        ∀ e ∈ earlier, e.opCode? ≠ some 3) ∧
      recipients state'.presences (.broadcast 3 encoded none none true) =
        state'.presences.map Prod.snd ∧
      w' = (rt.broadcastMessage (applyInOrder rt messages state w).2 3 encoded
        none none true).2 := by
  obtain ⟨r, hr, hfold⟩ := matchLoopMessages_eq_applyInOrder rt messages state w htable
  have hstate : (applyInOrder rt messages state w).1 = r.state := by rw [← hfold]
  have hworld : (applyInOrder rt messages state w).2 = r.world := by rw [← hfold]
  rw [hstate] at hjson
  rw [hworld]
  have hops := matchLoopMessages_trace_ops rt messages state w r hr
  have hsent : ∀ (err : Option String) (w1 : W),
      rt.broadcastMessage r.world updateState encoded none none true = (err, w1) →
      w1 = (rt.broadcastMessage r.world 3 encoded none none true).2 := by
    intro err w1 h
    show w1 = (rt.broadcastMessage r.world updateState encoded none none true).2
    rw [h]
  cases hb : rt.broadcastMessage r.world updateState encoded none none true with
  | mk err w1 =>
    have hbs : broadcastState rt r.world r.state =
        (err, w1, [.broadcast updateState encoded none none true]) := by
      simp only [broadcastState, hjson, hb]
    have hearlier : ∀ e ∈ broadcastsOf r.trace, e.opCode? ≠ some 3 :=
      fun e he => hops e (mem_of_mem_broadcastsOf _ e he)
    cases err with
    | none =>
      refine ⟨r.state, w1, r.trace ++ [.broadcast updateState encoded none none true] ++ [],
        ?_, hjson, ⟨broadcastsOf r.trace, ?_, hearlier⟩, rfl, hsent _ _ hb⟩
      · simp only [MatchLoop, hr, hbs]
      · simp [broadcastsOf_append, broadcastsOf, updateState]
    | some e =>
      refine ⟨r.state, w1, r.trace ++ [.broadcast updateState encoded none none true] ++
        [.logError "failed to broadcast state update: %s"], ?_, hjson,
        ⟨broadcastsOf r.trace, ?_, hearlier⟩, rfl, hsent _ _ hb⟩
      · simp only [MatchLoop, hr, hbs]
      · simp [broadcastsOf_append, broadcastsOf, updateState]

/-- Witness of C14: `u1` and `u2` joined; the batch is a spawn of `u1`, a color
update of `u1` and a position update of `u1`.  The dispatcher has received
four messages at the end of the tick, the op-3 message last. -/
theorem MatchLoop_canonical_broadcast_last_witness :
    ∃ state' w' trace,
      MatchLoop simRuntime simWorld (.matchState stateU1U2)
        [msgSpawn, msgColor, msgPositionA] = .ok (.matchState state', w', trace) ∧
      simRuntime.marshalUpdateState
        { positions := state'.positions, inputs := state'.inputs } =
        .ok (Sim.encodeUpdateState
          { positions := (applyInOrder simRuntime [msgSpawn, msgColor, msgPositionA]
              stateU1U2 simWorld).1.positions,
            inputs := (applyInOrder simRuntime [msgSpawn, msgColor, msgPositionA]
              stateU1U2 simWorld).1.inputs }) ∧
      (∃ earlier,
        broadcastsOf trace = earlier ++
          [.broadcast 3 (Sim.encodeUpdateState
            { positions := (applyInOrder simRuntime [msgSpawn, msgColor, msgPositionA]
                stateU1U2 simWorld).1.positions,
              inputs := (applyInOrder simRuntime [msgSpawn, msgColor, msgPositionA]
                stateU1U2 simWorld).1.inputs }) none none true] ∧
        ∀ e ∈ earlier, e.opCode? ≠ some 3) ∧
      w'.delivered.map Event.opCode? = [some 7, some 5, some 6, some 3] ∧
      w'.delivered.getLast? =
        some (.broadcast 3 (Sim.encodeUpdateState
          { positions := (applyInOrder simRuntime [msgSpawn, msgColor, msgPositionA]
              stateU1U2 simWorld).1.positions,
            inputs := (applyInOrder simRuntime [msgSpawn, msgColor, msgPositionA]
              stateU1U2 simWorld).1.inputs }) none none true) := by
  obtain ⟨state', w', trace, h1, h2, h3, _, h5⟩ :=
    MatchLoop_canonical_broadcast_last simRuntime simWorld stateU1U2
      [msgSpawn, msgColor, msgPositionA] _ (by decide) rfl
  refine ⟨state', w', trace, h1, h2, h3, ?_, ?_⟩
  · rw [h5]; decide
  · rw [h5]; decide

end Canonical

/-! ## A state of another representation -/

section Foreign

variable {W : Type}

/-- C16, as amended: when the state argument is not a `*MatchState` (the nil
interface value, or a value of another type), `MatchLoop` and `MatchLeave` do
not crash, leave the world as it is and make no storage write and no
broadcast (each only logs); `MatchLoop` then returns the nil value, not the
value it was given. -/
theorem MatchLoop_MatchLeave_on_foreign_state (rt : Runtime W) (w : W) (repr : String)
    (messages : List MatchData) (presences : List Presence) :
    (MatchLoop rt w (.other repr) messages =
        .ok (.nil, w, [.logError "state not a valid lobby state object"]) ∧
      MatchLoop rt w .nil messages =
        .ok (.nil, w, [.logError "state not a valid lobby state object"])) ∧
    (∃ returned trace,
      MatchLeave rt w (.other repr) presences = .ok (returned, w, trace) ∧
      writesOf trace = [] ∧ broadcastsOf trace = []) ∧
    (∃ returned trace,
      MatchLeave rt w .nil presences = .ok (returned, w, trace) ∧
      writesOf trace = [] ∧ broadcastsOf trace = []) :=
  ⟨⟨rfl, rfl⟩, ⟨_, _, rfl, rfl, rfl⟩, ⟨_, _, rfl, rfl, rfl⟩⟩

/-- C16, as stated, fails: on a state of another type, `MatchLoop` returns the
nil value and `MatchLeave` the nil `*MatchState`, neither the value given, and
`MatchJoin` with a joining participant panics. -/
theorem foreign_state_not_returned :
    MatchLoop simRuntime simWorld (.other "corrupt") [msgPositionA] =
      .ok (.nil, simWorld, [.logError "state not a valid lobby state object"]) ∧
    GoAny.nil ≠ GoAny.other "corrupt" ∧
    MatchLeave simRuntime simWorld (.other "corrupt") [presenceU1] =
      .ok (.nilMatchState, simWorld, [.logError "state not a valid lobby state object"]) ∧
    GoAny.nilMatchState ≠ GoAny.other "corrupt" ∧
    MatchJoin (.other "corrupt") [presenceU1] = .error nilDereference := by
  refine ⟨rfl, by decide, rfl, by decide, rfl⟩

end Foreign

/-! ## Errors and partial effects -/

section Atomicity

variable {W : Type}

theorem updatePositionOp_state_of_err (rt : Runtime W) (msg : MatchData) (state : MatchState)
    (w : W) (herr : (updatePositionOp rt msg state w).err ≠ none) :
    (updatePositionOp rt msg state w).state = state := by
  cases hdec : rt.unmarshalUpdatePosition msg.data with
  | error e => simp only [updatePositionOp, hdec]
  | ok m =>
    cases hget : state.positions.get? m.id with
    | none => simp only [updatePositionOp, hdec, hget]
    | some old => simp [updatePositionOp, hdec, hget] at herr

/-- A spawn that fails to decode, or whose id has no names or no colors entry,
returns an error and leaves the state as it was. -/
theorem doSpawnOp_of_rejected (rt : Runtime W) (msg : MatchData) (state : MatchState) (w : W)
    (hrej : ∀ spawn, rt.unmarshalDoSpawn msg.data = .ok spawn →
      state.names.get? spawn.id = none ∨ state.colors.get? spawn.id = none) :
    (doSpawnOp rt msg state w).err ≠ none ∧ (doSpawnOp rt msg state w).state = state := by
  cases hdec : rt.unmarshalDoSpawn msg.data with
  | error e => simp [doSpawnOp, hdec]
  | ok spawn =>
    cases hn : state.names.get? spawn.id with
    | none => simp [doSpawnOp, hdec, hn]
    | some n0 =>
      cases hc : state.colors.get? spawn.id with
      | none => simp [doSpawnOp, hdec, hn, hc]
      | some c0 =>
        rcases hrej spawn hdec with h | h
        · rw [hn] at h; cases h
        · rw [hc] at h; cases h

/-- C20, as amended: `updatePositionOp`, `updateInputOp` and `updateJumpOp`
leave the state exactly as it was whenever they return an error.  `doSpawnOp`
and `updateColorOp` do so for the errors raised before their first mutation:
a decode failure and, for a spawn, a missing names or colors entry.  Once a
spawn has passed these checks, the new name and color stay in the state
whatever error follows (storage read failure, malformed stored record,
broadcast failure); once a color update has decoded for an id with a colors
entry, the new color stays in the state also when the broadcast fails. -/
theorem handlers_error_effects (rt : Runtime W) (msg : MatchData) (state : MatchState)
    (w : W) :
    ((updatePositionOp rt msg state w).err ≠ none →
      (updatePositionOp rt msg state w).state = state) ∧
    ((updateInputOp rt msg state w).err ≠ none →
      (updateInputOp rt msg state w).state = state) ∧
    ((updateJumpOp rt msg state w).err ≠ none →
      (updateJumpOp rt msg state w).state = state) ∧
    ((∀ spawn, rt.unmarshalDoSpawn msg.data = .ok spawn →
        state.names.get? spawn.id = none ∨ state.colors.get? spawn.id = none) →
      (doSpawnOp rt msg state w).err ≠ none ∧ (doSpawnOp rt msg state w).state = state) ∧
    (∀ e, rt.unmarshalUpdateColor msg.data = .error e →
      (updateColorOp rt msg state w).err ≠ none ∧
      (updateColorOp rt msg state w).state = state) ∧
    (∀ spawn, rt.unmarshalDoSpawn msg.data = .ok spawn →
      state.names.get? spawn.id ≠ none → state.colors.get? spawn.id ≠ none →
      (doSpawnOp rt msg state w).state.names.get? spawn.id = some spawn.name ∧
      (doSpawnOp rt msg state w).state.colors.get? spawn.id = some spawn.color) ∧
    (∀ u, rt.unmarshalUpdateColor msg.data = .ok u → state.colors.get? u.id ≠ none →
      (updateColorOp rt msg state w).state.colors.get? u.id = some u.color) := by
  refine ⟨updatePositionOp_state_of_err rt msg state w,
    fun _ => updateInputOp_state rt msg state w,
    fun _ => updateJumpOp_state rt msg state w,
    doSpawnOp_of_rejected rt msg state w, ?_, ?_, ?_⟩
  · intro e hdec
    rw [updateColorOp_of_undecoded rt msg state w e hdec]
    exact ⟨by simp, rfl⟩
  · intro spawn hdec hn hc
    cases hn' : state.names.get? spawn.id with
    | none => exact absurd hn' hn
    | some n0 =>
      cases hc' : state.colors.get? spawn.id with
      | none => exact absurd hc' hc
      | some c0 => exact doSpawnOp_names_colors rt msg state w spawn n0 c0 hdec hn' hc'
  · intro u hdec hsome
    rw [updateColorOp_of_decoded rt msg state w u hdec]
    cases hget : state.colors.get? u.id with
    | none => exact absurd hget hsome
    | some old => exact GoMap.get?_set_self _ _ _

/-- Witness of C20, as amended: `u2`, who never joined, sends a position
update and a spawn to the session of `u1`; and `u1` spawns while the storage
is down. -/
theorem handlers_error_effects_witness :
    (updatePositionOp simRuntime
        { userId := "u2", opCode := 1, data := Sim.encodeUpdatePosition ⟨"u2", ⟨3, 4⟩⟩ }
        stateU1 simWorld).state = stateU1 ∧
    ((doSpawnOp simRuntime
        { userId := "u2", opCode := 5,
          data := Sim.encodeDoSpawn ⟨"u2", "0.1,0.2,0.3,1", "Hero"⟩ }
        stateU1 simWorld).err ≠ none ∧
      (doSpawnOp simRuntime
        { userId := "u2", opCode := 5,
          data := Sim.encodeDoSpawn ⟨"u2", "0.1,0.2,0.3,1", "Hero"⟩ }
        stateU1 simWorld).state = stateU1) ∧
    ((doSpawnOp simRuntime msgSpawn stateU1 simWorldDown).state.names.get? "u1" =
        some "Hero" ∧
      (doSpawnOp simRuntime msgSpawn stateU1 simWorldDown).state.colors.get? "u1" =
        some "0.1,0.2,0.3,1") :=
  ⟨(handlers_error_effects simRuntime
      { userId := "u2", opCode := 1, data := Sim.encodeUpdatePosition ⟨"u2", ⟨3, 4⟩⟩ }
      stateU1 simWorld).1 (by decide),
   (handlers_error_effects simRuntime
      { userId := "u2", opCode := 5,
        data := Sim.encodeDoSpawn ⟨"u2", "0.1,0.2,0.3,1", "Hero"⟩ }
      stateU1 simWorld).2.2.2.1
      (fun spawn h => by
        have hs : spawn = ⟨"u2", "0.1,0.2,0.3,1", "Hero"⟩ := by
          have h0 : simRuntime.unmarshalDoSpawn
              (Sim.encodeDoSpawn ⟨"u2", "0.1,0.2,0.3,1", "Hero"⟩) =
              .ok ⟨"u2", "0.1,0.2,0.3,1", "Hero"⟩ := rfl
          rw [h0] at h
          cases h
          rfl
        subst hs
        exact Or.inl (by decide)),
   (handlers_error_effects simRuntime msgSpawn stateU1 simWorldDown).2.2.2.2.2.1
      ⟨"u1", "0.1,0.2,0.3,1", "Hero"⟩ rfl (by decide) (by decide)⟩

/-- C20, as stated, fails: `u1` joined as "User" and spawns as "Hero" while
the storage is down.  `doSpawnOp` returns the storage error, and the name and
color of `u1` have been overwritten.  Likewise a color update of `u1` whose
broadcast fails returns the error and leaves the new color behind. -/
theorem spawn_error_leaves_partial_state :
    (doSpawnOp simRuntime msgSpawn stateU1 simWorldDown).err = some "storage unavailable" ∧
    stateU1.names.get? "u1" = some "User" ∧
    (doSpawnOp simRuntime msgSpawn stateU1 simWorldDown).state.names.get? "u1" =
      some "Hero" ∧
    (doSpawnOp simRuntime msgSpawn stateU1 simWorldDown).state ≠ stateU1 ∧
    (updateColorOp simRuntime msgColor stateU1 simWorldMuted).err =
      some "dispatcher unavailable" ∧
    (updateColorOp simRuntime msgColor stateU1 simWorldMuted).state ≠ stateU1 := by
  refine ⟨by decide, by decide, by decide, by decide, by decide, by decide⟩

end Atomicity

/-! ## The key sets of the five maps -/

section Keys

variable {W : Type}

theorem isSome_get?_set {V : Type} (m : GoMap V) (k k' : String) (v : V) :
    ((m.set k v).get? k').isSome = (decide (k' = k) || (m.get? k').isSome) := by
  by_cases h : k' = k
  · subst h
    simp [GoMap.get?_set_self]
  · simp [GoMap.get?_set_ne m v h, h]

theorem isSome_get?_delete {V : Type} (m : GoMap V) (k k' : String) :
    ((m.delete k).get? k').isSome = (!decide (k' = k) && (m.get? k').isSome) := by
  by_cases h : k' = k
  · subst h
    simp [GoMap.get?_delete_self]
  · simp [GoMap.get?_delete_ne m h, h]

theorem isSome_get?_set_of_entry {V : Type} (m : GoMap V) (k k' : String) (v : V)
    (h : m.get? k ≠ none) : ((m.set k v).get? k').isSome = (m.get? k').isSome := by
  rw [isSome_get?_set]
  by_cases hk : k' = k
  · subst hk
    cases hget : m.get? k' with
    | none => exact absurd hget h
    | some x => simp
  · simp [hk]

theorem KeysAgree_newMatchState : KeysAgree newMatchState := by
  intro k
  simp [newMatchState, GoMap.get?]

theorem matchJoinLoop_keysAgree (presences : List Presence) :
    ∀ s, KeysAgree s → KeysAgree (matchJoinLoop presences s) := by
  induction presences with
  | nil => intro s h; exact h
  | cons p rest ih =>
    intro s h
    apply ih
    intro k
    obtain ⟨h1, h2, h3, h4⟩ := h k
    simp only [isSome_get?_set, h1, h2, h3, h4, and_self]

theorem matchLeaveLoop_keysAgree (rt : Runtime W) (presences : List Presence) :
    ∀ (s : MatchState) (w : W), KeysAgree s →
      KeysAgree (matchLeaveLoop rt presences s w).state := by
  induction presences with
  | nil => intro s w h; exact h
  | cons x rest ih =>
    intro s w h
    rcases matchLeaveLoop_cons_cases rt x s with hskip | ⟨name, position, value, hn, hpos, hjson⟩
    · rw [(matchLeaveLoop_cons_skipped rt x rest s w hskip).1]
      exact ih s w h
    · obtain ⟨w1, logged, _, hstate, _⟩ :=
        matchLeaveLoop_cons_removed rt x rest s w name value position hn hpos hjson
      rw [hstate]
      apply ih
      intro k
      obtain ⟨h1, h2, h3, h4⟩ := h k
      simp only [isSome_get?_delete, h1, h2, h3, h4, and_self]

theorem updatePositionOp_keysAgree (rt : Runtime W) (msg : MatchData) (s : MatchState) (w : W)
    (h : KeysAgree s) : KeysAgree (updatePositionOp rt msg s w).state := by
  cases hdec : rt.unmarshalUpdatePosition msg.data with
  | error e =>
    have hst : (updatePositionOp rt msg s w).state = s := by
      simp only [updatePositionOp, hdec]
    rw [hst]; exact h
  | ok m =>
    cases hget : s.positions.get? m.id with
    | none =>
      rw [updatePositionOp_of_no_entry rt msg s w m.id m.pos hdec hget]
      exact h
    | some old =>
      rw [updatePositionOp_of_entry rt msg s w m.id m.pos hdec (by simp [hget])]
      intro k
      obtain ⟨h1, h2, h3, h4⟩ := h k
      refine ⟨h1, ?_, h3, h4⟩
      show ((s.positions.set m.id m.pos).get? k).isSome = _
      rw [isSome_get?_set_of_entry _ _ _ _ (by simp [hget])]
      exact h2

theorem updateColorOp_keysAgree (rt : Runtime W) (msg : MatchData) (s : MatchState) (w : W)
    (h : KeysAgree s) : KeysAgree (updateColorOp rt msg s w).state := by
  cases hdec : rt.unmarshalUpdateColor msg.data with
  | error e =>
    rw [updateColorOp_of_undecoded rt msg s w e hdec]
    exact h
  | ok u =>
    rw [updateColorOp_of_decoded rt msg s w u hdec]
    cases hget : s.colors.get? u.id with
    | none => exact h
    | some old =>
      intro k
      obtain ⟨h1, h2, h3, h4⟩ := h k
      refine ⟨h1, h2, ?_, h4⟩
      show ((s.colors.set u.id u.color).get? k).isSome = _
      rw [isSome_get?_set_of_entry _ _ _ _ (by simp [hget])]
      exact h3

theorem doSpawnOp_keysAgree (rt : Runtime W) (msg : MatchData) (s : MatchState) (w : W)
    (h : KeysAgree s) : KeysAgree (doSpawnOp rt msg s w).state := by
  by_cases hrej : ∀ spawn, rt.unmarshalDoSpawn msg.data = .ok spawn →
      s.names.get? spawn.id = none ∨ s.colors.get? spawn.id = none
  · rw [(doSpawnOp_of_rejected rt msg s w hrej).2]
    exact h
  · push_neg at hrej
    obtain ⟨spawn, hdec, hn, hc⟩ := hrej
    obtain ⟨f1, f2, _, f4, f5⟩ := doSpawnOp_frame rt msg s w
    cases hn' : s.names.get? spawn.id with
    | none => exact absurd hn' hn
    | some n0 =>
    cases hc' : s.colors.get? spawn.id with
    | none => exact absurd hc' hc
    | some c0 =>
    obtain ⟨g1, g2⟩ := doSpawnOp_names_colors rt msg s w spawn n0 c0 hdec hn' hc'
    intro k
    obtain ⟨h1, h2, h3, h4⟩ := h k
    rw [f1, f2]
    by_cases hk : k = spawn.id
    · subst hk
      have hpres : (s.presences.get? spawn.id).isSome = true := by
        rw [← h4, hn']; rfl
      have hpos : s.positions.get? spawn.id ≠ none := by
        intro hnone
        rw [hnone, hpres] at h2
        cases h2
      have hpos' := f4 spawn.id hpos
      refine ⟨h1, ?_, ?_, ?_⟩
      · rw [hpres]
        cases hget : (doSpawnOp rt msg s w).state.positions.get? spawn.id with
        | none => exact absurd hget hpos'
        | some x => rfl
      · rw [g2, hpres]; rfl
      · rw [g1, hpres]; rfl
    · obtain ⟨e1, e2, e3⟩ := f5 spawn hdec k hk
      rw [e1, e2, e3]
      exact ⟨h1, h2, h3, h4⟩

theorem applyInOrder_keysAgree (rt : Runtime W) (messages : List MatchData) :
    ∀ (s : MatchState) (v : W), KeysAgree s → KeysAgree (applyInOrder rt messages s v).1 := by
  induction messages with
  | nil => intro s v h; exact h
  | cons m rest ih =>
    intro s v h
    have hstep : KeysAgree (applyMessage rt (s, v) m).1 := by
      cases hop : Operations (W := W) m.opCode with
      | none => simpa [applyMessage, hop] using h
      | some op =>
        simp only [applyMessage, hop]
        rcases Operations_some m.opCode op hop with e | e | e | e | e <;> subst e
        · exact updatePositionOp_keysAgree rt m s v h
        · rw [updateInputOp_state]; exact h
        · rw [updateJumpOp_state]; exact h
        · exact doSpawnOp_keysAgree rt m s v h
        · exact updateColorOp_keysAgree rt m s v h
    have := ih (applyMessage rt (s, v) m).1 (applyMessage rt (s, v) m).2 hstep
    simpa [applyInOrder] using this

theorem MatchLoop_state_of_table (rt : Runtime W) (w w' : W) (s s' : MatchState)
    (messages : List MatchData) (trace : List Event)
    (htable : ∀ m ∈ messages, m.opCode ∈ ([1, 2, 4, 5, 6] : List Int))
    (h : MatchLoop rt w (.matchState s) messages = .ok (.matchState s', w', trace)) :
    s' = (applyInOrder rt messages s w).1 := by
  obtain ⟨r, hr, hfold⟩ := matchLoopMessages_eq_applyInOrder rt messages s w htable
  cases hb : broadcastState rt r.world r.state with
  | mk err rest =>
    obtain ⟨w1, tr⟩ := rest
    simp only [MatchLoop, hr, hb, Except.ok.injEq, Prod.mk.injEq, GoAny.matchState.injEq] at h
    rw [← hfold]
    exact h.1.symm

/-- Every step of the lifecycle keeps the key sets of the five maps equal. -/
theorem keysAgree_of_reachable (rt : Runtime W) (s : MatchState) (h : Reachable rt s) :
    KeysAgree s := by
  induction h with
  | init s hinit =>
    simp only [MatchInit, GoAny.matchState.injEq] at hinit
    rw [← hinit]
    exact KeysAgree_newMatchState
  | join s s' presences trace _ hjoin ih =>
    simp only [MatchJoin, Except.ok.injEq, Prod.mk.injEq, GoAny.matchState.injEq] at hjoin
    rw [← hjoin.1]
    exact matchJoinLoop_keysAgree presences s ih
  | loop s s' w w' messages trace _ htable hloop ih =>
    rw [MatchLoop_state_of_table rt w w' s s' messages trace htable hloop]
    exact applyInOrder_keysAgree rt messages s w ih
  | leave s s' w w' presences trace _ hleave ih =>
    simp only [MatchLeave, Except.ok.injEq, Prod.mk.injEq, GoAny.matchState.injEq] at hleave
    rw [← hleave.1]
    exact matchLeaveLoop_keysAgree rt presences s w ih
  | signal s s' data _ hsignal ih =>
    simp only [MatchSignal, GoAny.matchState.injEq] at hsignal
    rw [← hsignal]
    exact ih
  | terminate s s' w w' trace _ hterm ih =>
    simp only [MatchTerminate, Except.ok.injEq, Prod.mk.injEq, GoAny.matchState.injEq] at hterm
    rw [← hterm.1]
    exact ih

/-- C15: in every state reachable from `MatchInit` by `MatchJoin`, `MatchLoop`
(any batch of table op codes, any storage and dispatcher behaviour),
`MatchLeave`, `MatchSignal` and `MatchTerminate` steps, the five maps
`presences`, `inputs`, `positions`, `colors` and `names` have the same key
set; in particular every id with a connection handle has an inputs entry. -/
theorem Reachable_keysAgree (rt : Runtime W) (s : MatchState) (h : Reachable rt s) :
    KeysAgree s ∧ ∀ k, s.presences.get? k ≠ none → s.inputs.get? k ≠ none := by
  have hagree : KeysAgree s := keysAgree_of_reachable rt s h
  refine ⟨hagree, ?_⟩
  intro k hk hnone
  have h1 := (hagree k).1
  rw [hnone] at h1
  cases hget : s.presences.get? k with
  | none => exact hk hget
  | some x =>
    rw [hget] at h1
    cases h1

/-- Witness of C15: `u1` and `u2` join a fresh session and `u1` leaves. -/
theorem Reachable_keysAgree_witness :
    Reachable simRuntime (matchLeaveLoop simRuntime [presenceU1] stateU1U2 simWorld).state ∧
    KeysAgree (matchLeaveLoop simRuntime [presenceU1] stateU1U2 simWorld).state ∧
    ∀ k, (matchLeaveLoop simRuntime [presenceU1] stateU1U2 simWorld).state.presences.get? k
        ≠ none →
      (matchLeaveLoop simRuntime [presenceU1] stateU1U2 simWorld).state.inputs.get? k ≠ none :=
  ⟨Reachable.leave stateU1U2 _ simWorld _ [presenceU1] _
      (Reachable.join newMatchState stateU1U2 [presenceU1, presenceU2] []
        (Reachable.init newMatchState rfl) rfl) rfl,
   Reachable_keysAgree simRuntime _
    (Reachable.leave stateU1U2 _ simWorld _ [presenceU1] _
      (Reachable.join newMatchState stateU1U2 [presenceU1, presenceU2] []
        (Reachable.init newMatchState rfl) rfl) rfl)⟩

end Keys

/-! ## Join -/

section Join

variable {V : Type}

theorem setAll_append (m : GoMap V) (a b : List (String × V)) :
    m.setAll (a ++ b) = (m.setAll a).setAll b := by
  induction a generalizing m with
  | nil => rfl
  | cons e rest ih =>
    obtain ⟨k, v⟩ := e
    exact ih (m.set k v)

theorem get?_setAll_of_not_mem (l : List (String × V)) :
    ∀ (m : GoMap V) (k : String), k ∉ l.map Prod.fst → (m.setAll l).get? k = m.get? k := by
  induction l with
  | nil => intro m k _; rfl
  | cons e rest ih =>
    intro m k hk
    obtain ⟨k1, v1⟩ := e
    have hk1 : k ≠ k1 := fun h => hk (by simp [h])
    have hrest : k ∉ rest.map Prod.fst := fun h => hk (by simp at h ⊢; exact Or.inr h)
    show ((m.set k1 v1).setAll rest).get? k = _
    rw [ih _ k hrest, GoMap.get?_set_ne m v1 hk1]

theorem get?_setAll_of_entry (l : List (String × V)) :
    ∀ (m : GoMap V) (k : String), m.get? k ≠ none → (m.setAll l).get? k ≠ none := by
  induction l with
  | nil => intro m k h; exact h
  | cons e rest ih =>
    intro m k hk
    obtain ⟨k1, v1⟩ := e
    apply ih
    by_cases h : k = k1
    · subst h
      simp [GoMap.get?_set_self]
    · rw [GoMap.get?_set_ne m v1 h]
      exact hk

theorem get?_setAll_of_mem (l : List (String × V)) :
    ∀ (m : GoMap V) (k : String), k ∈ l.map Prod.fst → (m.setAll l).get? k ≠ none := by
  induction l with
  | nil => intro m k h; simp at h
  | cons e rest ih =>
    intro m k hk
    obtain ⟨k1, v1⟩ := e
    by_cases h : k = k1
    · subst h
      exact get?_setAll_of_entry rest _ k (by simp [GoMap.get?_set_self])
    · apply ih
      simp only [List.map_cons, List.mem_cons] at hk
      rcases hk with hk | hk
      · exact absurd hk h
      · exact hk

/-- The last assignment to a key decides its value. -/
theorem get?_setAll_last (m : GoMap V) (pre post : List (String × V)) (k : String) (v : V)
    (hpost : k ∉ post.map Prod.fst) :
    (m.setAll (pre ++ (k, v) :: post)).get? k = some v := by
  rw [setAll_append]
  show (((m.setAll pre).set k v).setAll post).get? k = some v
  rw [get?_setAll_of_not_mem post _ k hpost]
  exact GoMap.get?_set_self _ _ _

theorem get?_setAll_const (c : V) (l : List (String × V)) (hconst : ∀ e ∈ l, e.2 = c) :
    ∀ (m : GoMap V) (k : String), k ∈ l.map Prod.fst → (m.setAll l).get? k = some c := by
  induction l with
  | nil => intro m k h; simp at h
  | cons e rest ih =>
    intro m k hk
    obtain ⟨k1, v1⟩ := e
    have hv1 : v1 = c := hconst (k1, v1) (List.mem_cons_self _ _)
    have hrest : ∀ e ∈ rest, e.2 = c := fun e he => hconst e (List.mem_cons_of_mem _ he)
    by_cases hin : k ∈ rest.map Prod.fst
    · exact ih hrest _ k hin
    · have hkk : k = k1 := by
        simp only [List.map_cons, List.mem_cons] at hk
        rcases hk with hk | hk
        · exact hk
        · exact absurd hk hin
      subst hkk
      show ((m.set k v1).setAll rest).get? k = some c
      rw [get?_setAll_of_not_mem rest _ k hin, GoMap.get?_set_self, hv1]

theorem set_set_same (m : GoMap V) (k : String) (a b : V) :
    (m.set k a).set k b = m.set k b := by
  induction m with
  | nil => simp [GoMap.set]
  | cons e rest ih =>
    obtain ⟨k0, v0⟩ := e
    by_cases h : k0 = k
    · simp [GoMap.set, h]
    · simp [GoMap.set, h, ih]

theorem set_comm_of_entry (m : GoMap V) (k k' : String) (a b : V) (hne : k ≠ k')
    (hk : m.get? k ≠ none) : (m.set k' b).set k a = (m.set k a).set k' b := by
  induction m with
  | nil => simp [GoMap.get?] at hk
  | cons e rest ih =>
    obtain ⟨k0, v0⟩ := e
    by_cases h0 : k0 = k
    · subst h0
      simp [GoMap.set, hne]
    · by_cases h1 : k0 = k'
      · subst h1
        simp [GoMap.set, h0]
      · have hrest : GoMap.get? rest k ≠ none := by simpa [GoMap.get?, h0] using hk
        simp [GoMap.set, h0, h1, ih hrest]

theorem set_setAll_absorb (k : String) (v : V) (l : List (String × V)) :
    ∀ m : GoMap V, (∀ e ∈ l, m.get? e.1 ≠ none) →
      ((m.set k v).setAll l).set k v = (m.setAll l).set k v := by
  induction l with
  | nil => intro m _; exact set_set_same m k v v
  | cons e rest ih =>
    intro m hm
    obtain ⟨k1, v1⟩ := e
    have hk1 : m.get? k1 ≠ none := hm (k1, v1) (List.mem_cons_self _ _)
    have hrest : ∀ e ∈ rest, (m.set k1 v1).get? e.1 ≠ none := by
      intro e he
      by_cases h : e.1 = k1
      · rw [h]; simp [GoMap.get?_set_self]
      · rw [GoMap.get?_set_ne m v1 h]
        exact hm e (List.mem_cons_of_mem _ he)
    show (((m.set k v).set k1 v1).setAll rest).set k v = ((m.set k1 v1).setAll rest).set k v
    by_cases h : k1 = k
    · subst h
      rw [set_set_same]
    · rw [set_comm_of_entry m k1 k v1 v h hk1]
      exact ih (m.set k1 v1) hrest

theorem setAll_idempotent (l : List (String × V)) :
    ∀ m : GoMap V, (m.setAll l).setAll l = m.setAll l := by
  induction l using List.reverseRecOn with
  | nil => intro m; rfl
  | append_singleton l' e ih =>
    intro m
    obtain ⟨k, v⟩ := e
    have hfirst : m.setAll (l' ++ [(k, v)]) = (m.setAll l').set k v := by
      rw [setAll_append]; rfl
    have hpresent : ∀ e ∈ l', (m.setAll l').get? e.1 ≠ none :=
      fun e he => get?_setAll_of_mem l' m e.1 (List.mem_map_of_mem _ he)
    rw [hfirst, setAll_append]
    show ((((m.setAll l').set k v).setAll l')).set k v = _
    rw [set_setAll_absorb k v l' (m.setAll l') hpresent, ih m]

/-- The loop of `MatchJoin`, map by map. -/
theorem matchJoinLoop_eq_setAll (presences : List Presence) :
    ∀ s : MatchState, matchJoinLoop presences s =
      { presences := s.presences.setAll (presences.map fun p => (p.userId, p)),
        emptyTicks := s.emptyTicks,
        inputs := s.inputs.setAll
          (presences.map fun p => (p.userId, ({ direction := 0, jump := 0 } : Input))),
        positions := s.positions.setAll
          (presences.map fun p => (p.userId, ({ x := 0, y := 0 } : Position))),
        colors := s.colors.setAll (presences.map fun p => (p.userId, "1,1,1,1")),
        names := s.names.setAll (presences.map fun p => (p.userId, "User")) } := by
  induction presences with
  | nil => intro s; rfl
  | cons p rest ih =>
    intro s
    simp only [matchJoinLoop, ih, List.map_cons, GoMap.setAll]

theorem map_fst_userId {V : Type} (f : Presence → V) (presences : List Presence) :
    (presences.map fun p => (p.userId, f p)).map Prod.fst = presences.map Presence.userId := by
  simp [List.map_map, Function.comp_def]

/-- C12: on a session state `MatchJoin` returns a session state in which every
listed id has position (0, 0), input {direction 0, jump 0}, color "1,1,1,1"
and name "User", and maps in `presences` to its connection handle (the last
one listed for that id, when the list names an id more than once); the
entries of every id outside the list are as before in all five maps; and
joining the same list again returns the same state. -/
theorem MatchJoin_defaults (state : MatchState) (presences : List Presence) :
    ∃ state',
      MatchJoin (.matchState state) presences = .ok (.matchState state', []) ∧
      (∀ pre p post, presences = pre ++ p :: post →
        p.userId ∉ post.map Presence.userId → state'.presences.get? p.userId = some p) ∧
      (∀ id, id ∈ presences.map Presence.userId →
        state'.positions.get? id = some ⟨0, 0⟩ ∧
        state'.inputs.get? id = some { direction := 0, jump := 0 } ∧
        state'.colors.get? id = some "1,1,1,1" ∧
        state'.names.get? id = some "User") ∧
      (∀ id, id ∉ presences.map Presence.userId →
        state'.presences.get? id = state.presences.get? id ∧
        state'.positions.get? id = state.positions.get? id ∧
        state'.inputs.get? id = state.inputs.get? id ∧
        state'.colors.get? id = state.colors.get? id ∧
        state'.names.get? id = state.names.get? id) ∧
      MatchJoin (.matchState state') presences = .ok (.matchState state', []) := by
  refine ⟨matchJoinLoop presences state, rfl, ?_, ?_, ?_, ?_⟩
  · intro pre p post hsplit hlast
    rw [matchJoinLoop_eq_setAll]
    subst hsplit
    show (state.presences.setAll ((pre ++ p :: post).map fun p => (p.userId, p))).get?
      p.userId = some p
    rw [List.map_append, List.map_cons]
    apply get?_setAll_last
    rw [map_fst_userId]
    exact hlast
  · intro id hid
    rw [matchJoinLoop_eq_setAll]
    refine ⟨?_, ?_, ?_, ?_⟩
    · exact get?_setAll_const _ _ (by simp) _ id (by rw [map_fst_userId]; exact hid)
    · exact get?_setAll_const _ _ (by simp) _ id (by rw [map_fst_userId]; exact hid)
    · exact get?_setAll_const _ _ (by simp) _ id (by rw [map_fst_userId]; exact hid)
    · exact get?_setAll_const _ _ (by simp) _ id (by rw [map_fst_userId]; exact hid)
  · intro id hid
    rw [matchJoinLoop_eq_setAll]
    refine ⟨?_, ?_, ?_, ?_, ?_⟩ <;>
      exact get?_setAll_of_not_mem _ _ id (by rw [map_fst_userId]; exact hid)
  · show Except.ok (GoAny.matchState (matchJoinLoop presences (matchJoinLoop presences state)),
      ([] : List Event)) = _
    rw [matchJoinLoop_eq_setAll presences (matchJoinLoop presences state),
      matchJoinLoop_eq_setAll presences state]
    simp only [setAll_idempotent]

/-- Witness of C12: `u1` and `u2` join a fresh session. -/
theorem MatchJoin_defaults_witness :
    ∃ state',
      MatchJoin (.matchState newMatchState) [presenceU1, presenceU2] =
        .ok (.matchState state', []) ∧
      state'.presences.get? "u2" = some presenceU2 ∧
      (state'.positions.get? "u1" = some ⟨0, 0⟩ ∧
        state'.inputs.get? "u1" = some { direction := 0, jump := 0 } ∧
        state'.colors.get? "u1" = some "1,1,1,1" ∧
        state'.names.get? "u1" = some "User") ∧
      MatchJoin (.matchState state') [presenceU1, presenceU2] =
        .ok (.matchState state', []) := by
  obtain ⟨state', h1, h2, h3, _, h5⟩ :=
    MatchJoin_defaults newMatchState [presenceU1, presenceU2]
  exact ⟨state', h1, h2 [presenceU1] presenceU2 [] rfl (by simp),
    h3 "u1" (by decide), h5⟩

end Join

/-! ## The name registry -/

section RegistryFacts

variable {W : Type}

/-- The registry is never read back: whatever the stored objects hold, the
loop of `getCharacterNameCollection` ends with the names it started with. -/
theorem getCharacterNameLoop_names (rt : Runtime W) (objects : List StorageObject)
    (data : GoMap GoJson) (names result : List String)
    (h : (getCharacterNameLoop rt objects data names).1 = .ok result) : result = names := by
  cases objects with
  | nil =>
    simp only [getCharacterNameLoop, Except.ok.injEq] at h
    exact h.symm
  | cons object rest =>
    cases hdec : rt.unmarshalObject object.value data with
    | error e => simp [getCharacterNameLoop, hdec] at h
    | ok data' =>
      have hassert : assertStringSlice (data'.get? "names") = none := by
        cases data'.get? "names" with
        | none => rfl
        | some v => cases v <;> rfl
      simp only [getCharacterNameLoop, hdec, hassert, Except.ok.injEq] at h
      exact h.symm

/-- C17, evaluated: the registry holds "Hero" and "Zed" and "Hero" is
released.  The RPC reports "1" and writes a registry that holds "Hero" alone:
the released name is still registered and "Zed" is gone.  On an empty
registry the release of "Hero" reports "1" as well and registers "Hero". -/
theorem RPCRemoveCharacterName_registers_the_name :
    Sim.registryOf simWorldRegistry = ["Hero", "Zed"] ∧
    (RPCRemoveCharacterName simRuntime simWorldRegistry "Hero").1 = ("1", none) ∧
    Sim.registryOf (RPCRemoveCharacterName simRuntime simWorldRegistry "Hero").2.1 =
      ["Hero"] ∧
    Sim.registryOf simWorld = [] ∧
    (RPCRemoveCharacterName simRuntime simWorld "Hero").1 = ("1", none) ∧
    Sim.registryOf (RPCRemoveCharacterName simRuntime simWorld "Hero").2.1 = ["Hero"] := by
  refine ⟨by decide, by decide, by decide, by decide, by decide, by decide⟩

end RegistryFacts

/-! ## Persisted positions -/

section RoundTrip

variable {W : Type}

/-- C19, evaluated: `u1`, named "Hero", is at (3, 4) when the session
terminates over an empty store that accepts every write.  `MatchTerminate`
writes the position under key "u1" and owner "position_Hero"; `MatchLeave`
from the same state writes it under key "position_Hero" and owner "u1", which
is what the spawn reads.  A spawn of `u1` as "Hero" in a new session gets the
default coordinate after the terminate and (3, 4) after the leave. -/
theorem MatchTerminate_write_not_read_by_spawn :
    stateHero.names.get? "u1" = some "Hero" ∧
    stateHero.positions.get? "u1" = some ⟨3, 4⟩ ∧
    MatchTerminate memRuntime [] (.matchState stateHero) =
      .ok (.matchState stateHero,
        [{ collection := "player_data", key := "u1", userID := "position_Hero",
           value := Sim.encodePosition ⟨3, 4⟩ }],
        [.storageWrite
          [{ collection := "player_data", key := "u1", userID := "position_Hero",
             value := Sim.encodePosition ⟨3, 4⟩ }]]) ∧
    (doSpawnOp memRuntime msgSpawn stateU1
      [{ collection := "player_data", key := "u1", userID := "position_Hero",
         value := Sim.encodePosition ⟨3, 4⟩ }]).trace.head? =
      some (.storageRead
        [{ collection := "player_data", key := "position_Hero", userID := "u1" }]) ∧
    (doSpawnOp memRuntime msgSpawn stateU1
      [{ collection := "player_data", key := "u1", userID := "position_Hero",
         value := Sim.encodePosition ⟨3, 4⟩ }]).state.positions.get? "u1" =
      some ⟨1800, 1280⟩ ∧
    (doSpawnOp memRuntime msgSpawn stateU1
      [{ collection := "player_data", key := "position_Hero", userID := "u1",
         value := Sim.encodePosition ⟨3, 4⟩ }]).state.positions.get? "u1" =
      some ⟨3, 4⟩ := by
  refine ⟨by decide, by decide, rfl, by decide, by decide, by decide⟩

theorem memRuntime_lastWriteWins : LastWriteWins memRuntime Mem.stored where
  read := by
    intro w r objects h
    have h' : ([r].filterMap fun r : StorageRead =>
        (Mem.stored w r.collection r.key r.userID).map fun v =>
          ({ collection := r.collection, key := r.key, userId := r.userID,
             value := v } : StorageObject)) = objects := by
      simpa [memRuntime] using h
    rw [← h']
    cases hs : Mem.stored w r.collection r.key r.userID <;> simp [hs]
  write_accepted := by
    intro w wr _ c k o
    rfl
  write_refused := by
    intro w wr h
    exact absurd rfl h

theorem simRuntime_lastWriteWins : LastWriteWins simRuntime Sim.stored where
  read := by
    intro w r objects h
    by_cases hdown : w.storageDown = true
    · simp [simRuntime, Sim.storageRead, hdown] at h
    · have h' : ([r].filterMap fun r : StorageRead =>
          (w.objects.find? fun o =>
            o.collection = r.collection ∧ o.key = r.key ∧ o.userID = r.userID).map
            fun o => ({ collection := o.collection, key := o.key, userId := o.userID,
                        value := o.value } : StorageObject)) = objects := by
        simpa [simRuntime, Sim.storageRead, hdown] using h
      rw [← h']
      cases hf : w.objects.find? (fun o =>
          decide (o.collection = r.collection ∧ o.key = r.key ∧ o.userID = r.userID)) with
      | none =>
        simp only [List.filterMap_cons, List.filterMap_nil, Sim.stored, hf, Option.map_none']
      | some o =>
        have hmatch := List.find?_some hf
        simp only [decide_eq_true_eq] at hmatch
        simp only [List.filterMap_cons, List.filterMap_nil, Sim.stored, hf, Option.map_some',
          hmatch.1, hmatch.2.1, hmatch.2.2]
  write_accepted := by
    intro w wr haccepted c k o
    by_cases hdown : w.storageDown = true
    · simp [simRuntime, Sim.storageWrite, hdown] at haccepted
    · by_cases hm : c = wr.collection ∧ k = wr.key ∧ o = wr.userID
      · obtain ⟨h1, h2, h3⟩ := hm
        subst h1 h2 h3
        simp [simRuntime, Sim.storageWrite, hdown, Sim.stored]
      · have hm' : ¬ (wr.collection = c ∧ wr.key = k ∧ wr.userID = o) :=
          fun h => hm ⟨h.1.symm, h.2.1.symm, h.2.2.symm⟩
        simp [simRuntime, Sim.storageWrite, hdown, Sim.stored, hm, hm']
  write_refused := by
    intro w wr hrefused c k o
    by_cases hdown : w.storageDown = true
    · simp [simRuntime, Sim.storageWrite, hdown]
    · simp [simRuntime, Sim.storageWrite, hdown] at hrefused

/-- A write of the loop of `MatchLeave` for another participant keeps what is
stored under the owner `u`. -/
theorem stored_after_other_write (rt : Runtime W)
    (stored : W → String → String → String → Option String) (law : LastWriteWins rt stored)
    (w : W) (wr : StorageWrite) (c k u : String) (hother : wr.userID ≠ u) :
    stored (rt.storageWrite w [wr]).2 c k u = stored w c k u := by
  cases herr : (rt.storageWrite w [wr]).1 with
  | none =>
    rw [law.write_accepted w wr herr c k u]
    have : ¬ (c = wr.collection ∧ k = wr.key ∧ u = wr.userID) :=
      fun h => hother h.2.2.symm
    rw [if_neg this]
  | some e => exact law.write_refused w wr (by rw [herr]; simp) c k u

theorem matchLeaveLoop_absent_world (rt : Runtime W)
    (stored : W → String → String → String → Option String) (law : LastWriteWins rt stored)
    (c k u : String) (presences : List Presence) :
    ∀ (s : MatchState) (w : W), s.names.get? u = none →
      stored (matchLeaveLoop rt presences s w).world c k u = stored w c k u := by
  induction presences with
  | nil => intro s w _; rfl
  | cons x rest ih =>
    intro s w hnu
    rcases matchLeaveLoop_cons_cases rt x s with hskip | ⟨name, position, value, hn, hpos, hjson⟩
    · rw [matchLeaveLoop_cons_skipped_world rt x rest s w hskip]
      exact ih s w hnu
    · have hxu : x.userId ≠ u := by
        intro h
        rw [h, hnu] at hn
        cases hn
      rw [matchLeaveLoop_cons_removed_world rt x rest s w name value position hn hpos hjson,
        ih _ _ (GoMap.get?_delete_of_none _ _ _ hnu)]
      exact stored_after_other_write rt stored law w _ c k u hxu

/-- The participant `x` is listed after `pre`, which does not name it, and the
storage accepts the write issued for it in this run: afterwards the storage
holds its position under the key of its name and its id as owner. -/
theorem matchLeaveLoop_persists_world (rt : Runtime W)
    (stored : W → String → String → String → Option String) (law : LastWriteWins rt stored)
    (pre post : List Presence) (x : Presence) (s : MatchState) (w : W)
    (n value : String) (pos : Position)
    (hfirst : x.userId ∉ pre.map Presence.userId)
    (hn : s.names.get? x.userId = some n) (hpos : s.positions.get? x.userId = some pos)
    (hjson : rt.marshalPosition pos = .ok value)
    (haccepted : (rt.storageWrite (matchLeaveLoop rt pre s w).world
      [{ collection := "player_data", key := "position_" ++ n, userID := x.userId,
         value := value }]).1 = none) :
    stored (matchLeaveLoop rt (pre ++ x :: post) s w).world "player_data" ("position_" ++ n)
      x.userId = some value := by
  obtain ⟨_, f2, _, _, f5⟩ := matchLeaveLoop_frame rt x.userId pre s w hfirst
  have hn' : (matchLeaveLoop rt pre s w).state.names.get? x.userId = some n := by
    rw [f5]; exact hn
  have hpos' : (matchLeaveLoop rt pre s w).state.positions.get? x.userId = some pos := by
    rw [f2]; exact hpos
  rw [(matchLeaveLoop_append rt pre (x :: post) s w).2,
    matchLeaveLoop_cons_removed_world rt x post _ _ n value pos hn' hpos' hjson,
    matchLeaveLoop_absent_world rt stored law _ _ x.userId post _ _
      (GoMap.get?_delete_self _ _),
    law.write_accepted _ _ haccepted]
  simp

/-- A spawn over a storage that holds a record under the key of the chosen
name and the sender as owner, and that answers the read, adopts the position
of the record. -/
theorem doSpawnOp_adopts_stored (rt : Runtime W)
    (stored : W → String → String → String → Option String) (law : LastWriteWins rt stored)
    (msg : MatchData) (state : MatchState) (w : W) (u col n value : String) (pos : Position)
    (objects : List StorageObject)
    (hdec : rt.unmarshalDoSpawn msg.data = .ok ⟨u, col, n⟩)
    (hn : state.names.get? u ≠ none) (hc : state.colors.get? u ≠ none)
    (hstored : stored w "player_data" ("position_" ++ n) msg.userId = some value)
    (hanswered : (rt.storageRead w
      [{ collection := "player_data", key := "position_" ++ n,
         userID := msg.userId }]).1 = .ok objects)
    (hback : rt.unmarshalPosition value ⟨0, 0⟩ = .ok pos) :
    .storageRead [{ collection := "player_data", key := "position_" ++ n,
                    userID := msg.userId }] ∈ (doSpawnOp rt msg state w).trace ∧
    (doSpawnOp rt msg state w).state.positions.get? u = some pos := by
  cases hn' : state.names.get? u with
  | none => exact absurd hn' hn
  | some n0 =>
  cases hc' : state.colors.get? u with
  | none => exact absurd hc' hc
  | some c0 =>
  have hobjects := law.read w
    { collection := "player_data", key := "position_" ++ n, userID := msg.userId }
    objects hanswered
  simp only [hstored] at hobjects
  subst hobjects
  cases hr : rt.storageRead w
      [{ collection := "player_data", key := "position_" ++ n, userID := msg.userId }] with
  | mk res w1 =>
    rw [hr] at hanswered
    simp only at hanswered
    subst hanswered
    have hl : spawnReadLoop rt u
        [{ collection := "player_data", key := "position_" ++ n, userId := msg.userId,
           value := value }] ⟨0, 0⟩
        { state with names := state.names.set u n, colors := state.colors.set u col }
        false =
        (none, { state with names := state.names.set u n,
                            colors := state.colors.set u col,
                            positions := state.positions.set u pos }, true) := by
      simp only [spawnReadLoop, hback]
    constructor
    · rw [(doSpawnOp_of_loop_ok rt msg state w ⟨u, col, n⟩ n0 c0 _ w1 _ true
        hdec hn' hc' hr hl).2]
      exact List.mem_cons_self _ _
    · rw [doSpawnOp_state_of_loop rt msg state w ⟨u, col, n⟩ n0 c0 _ w1 none _ true
        hdec hn' hc' hr hl]
      simp [GoMap.get?_set_self]

/-- C18 (leave-then-spawn round trip): over a storage in which a read returns
the last value written under the same (collection, key, owner), and which may
refuse any read or write, let the participant `x` leave (listed after `pre`,
which does not name it) with display name `n` and a position `pos` whose JSON
encoding `value` decodes back to `pos`, and let the storage accept the write
that `MatchLeave` issues for `x` in this run.  Then `MatchLeave` issues for
`x` the write (collection "player_data", key "position_" + n, owner the id of
`x`, value `value`), after which the storage holds `value` under that triple;
and in any later state in which `x` has a names and a colors entry again, as
long as the storage still holds what it held under that triple after the
leave and answers the read, a spawn message sent by `x` with the id of `x` and
the name `n` reads collection "player_data", key "position_" + n, owner the
id of `x`, and sets `positions[id] = pos`. -/
theorem leave_then_spawn_round_trip (rt : Runtime W)
    (stored : W → String → String → String → Option String) (law : LastWriteWins rt stored)
    (w : W) (state : MatchState) (pre post : List Presence) (x : Presence)
    (n value col : String) (pos : Position)
    (hfirst : x.userId ∉ pre.map Presence.userId)
    (hn : state.names.get? x.userId = some n)
    (hpos : state.positions.get? x.userId = some pos)
    (hjson : rt.marshalPosition pos = .ok value)
    (hback : rt.unmarshalPosition value ⟨0, 0⟩ = .ok pos)
    (haccepted : (rt.storageWrite (matchLeaveLoop rt pre state w).world
      [{ collection := "player_data", key := "position_" ++ n, userID := x.userId,
         value := value }]).1 = none) :
    ∃ state1 w1 trace1,
      MatchLeave rt w (.matchState state) (pre ++ x :: post) =
        .ok (.matchState state1, w1, trace1) ∧
      (writesOf trace1).filter (fun wr => wr.userID = x.userId) =
        [{ collection := "player_data", key := "position_" ++ n, userID := x.userId,
           value := value }] ∧
      w1 = applyWrites rt w (writesOf trace1) ∧
      stored w1 "player_data" ("position_" ++ n) x.userId = some value ∧
      ∀ (state2 : MatchState) (w2 : W) (msg : MatchData) (objects : List StorageObject),
        msg.userId = x.userId → rt.unmarshalDoSpawn msg.data = .ok ⟨x.userId, col, n⟩ →
        state2.names.get? x.userId ≠ none → state2.colors.get? x.userId ≠ none →
        stored w2 "player_data" ("position_" ++ n) x.userId =
          stored w1 "player_data" ("position_" ++ n) x.userId →
        (rt.storageRead w2
          [{ collection := "player_data", key := "position_" ++ n,
             userID := x.userId }]).1 = .ok objects →
        .storageRead [{ collection := "player_data", key := "position_" ++ n,
                        userID := x.userId }] ∈ (doSpawnOp rt msg state2 w2).trace ∧
        (doSpawnOp rt msg state2 w2).state.positions.get? x.userId = some pos := by
  have hstored := matchLeaveLoop_persists_world rt stored law pre post x state w n value pos
    hfirst hn hpos hjson haccepted
  have hmem : x.userId ∈ (pre ++ x :: post).map Presence.userId := by simp
  refine ⟨_, _, _, rfl,
    (matchLeaveLoop_persists rt x.userId n value pos hjson (pre ++ x :: post) state w
      hmem hn hpos).1,
    matchLeaveLoop_world rt (pre ++ x :: post) state w, hstored, ?_⟩
  intro state2 w2 msg objects hsender hdec hn2 hc2 hkept hanswered
  have hstored2 : stored w2 "player_data" ("position_" ++ n) msg.userId = some value := by
    rw [hsender, hkept]; exact hstored
  have hanswered2 : (rt.storageRead w2
      [{ collection := "player_data", key := "position_" ++ n,
         userID := msg.userId }]).1 = .ok objects := by
    rw [hsender]; exact hanswered
  have := doSpawnOp_adopts_stored rt stored law msg state2 w2 x.userId col n value pos objects
    hdec hn2 hc2 hstored2 hanswered2 hback
  rw [hsender] at this
  exact this

/-- Witness of C18: `u1`, named "Hero", leaves at (3, 4), listed after `u2`,
over an empty store that can be switched off and is up; `u1` then joins a
fresh session and spawns as "Hero". -/
theorem leave_then_spawn_round_trip_witness :
    ∃ state1 w1 trace1,
      MatchLeave simRuntime simWorld (.matchState stateHero) [presenceU2, presenceU1] =
        .ok (.matchState state1, w1, trace1) ∧
      Sim.stored w1 "player_data" ("position_" ++ "Hero") "u1" =
        some (Sim.encodePosition ⟨3, 4⟩) ∧
      (doSpawnOp simRuntime msgSpawn stateU1 w1).state.positions.get? "u1" = some ⟨3, 4⟩ := by
  obtain ⟨state1, w1, trace1, h1, _, _, h3, h4⟩ :=
    leave_then_spawn_round_trip simRuntime Sim.stored simRuntime_lastWriteWins simWorld
      stateHero [presenceU2] [] presenceU1 "Hero" (Sim.encodePosition ⟨3, 4⟩)
      "0.1,0.2,0.3,1" ⟨3, 4⟩ (by decide) (by decide) (by decide) rfl rfl (by decide)
  have hw1 : w1 = (matchLeaveLoop simRuntime [presenceU2, presenceU1] stateHero
      simWorld).world := by
    have h0 : MatchLeave simRuntime simWorld (.matchState stateHero)
        [presenceU2, presenceU1] =
        .ok (.matchState (matchLeaveLoop simRuntime [presenceU2, presenceU1] stateHero
            simWorld).state,
          (matchLeaveLoop simRuntime [presenceU2, presenceU1] stateHero simWorld).world,
          (matchLeaveLoop simRuntime [presenceU2, presenceU1] stateHero simWorld).trace) :=
      rfl
    have h1' : MatchLeave simRuntime simWorld (.matchState stateHero)
        [presenceU2, presenceU1] = .ok (.matchState state1, w1, trace1) := h1
    rw [h0] at h1'
    simp only [Except.ok.injEq, Prod.mk.injEq] at h1'
    exact h1'.2.1.symm
  refine ⟨state1, w1, trace1, h1, h3, ?_⟩
  exact (h4 stateU1 w1 msgSpawn
    [{ collection := "player_data", key := "position_Hero", userId := "u1",
       value := Sim.encodePosition ⟨3, 4⟩ }] rfl rfl (by decide) (by decide) rfl
    (by rw [hw1]; rfl)).2

end RoundTrip

/-! ## Spawn without a connection handle -/

section NoHandle

variable {W : Type}

/-- Without a connection handle the second half of a spawn never calls the
dispatcher. -/
theorem spawnBroadcasts_of_no_handle (rt : Runtime W) (msg : MatchData) (userId : String)
    (state : MatchState) (w : W) (hp : state.presences.get? userId = none) :
    (spawnBroadcasts rt msg userId state w).2.1 = w ∧
    broadcastsOf (spawnBroadcasts rt msg userId state w).2.2 = [] := by
  cases hm : rt.marshalDispatchState
      { positions := state.positions, inputs := state.inputs,
        colors := state.colors, names := state.names } with
  | error e => simp only [spawnBroadcasts, hm, broadcastsOf, and_self]
  | ok encoded => simp only [spawnBroadcasts, hm, hp, broadcastsOf, and_self]

/-- World of a spawn whose read loop ended without error. -/
theorem doSpawnOp_world_of_loop_ok (rt : Runtime W) (msg : MatchData) (state : MatchState)
    (w : W) (spawn : DoSpawnMessage) (n0 c0 : String) (objects : List StorageObject) (w1 : W)
    (state2 : MatchState) (isSet : Bool)
    (hdec : rt.unmarshalDoSpawn msg.data = .ok spawn)
    (hn : state.names.get? spawn.id = some n0)
    (hc : state.colors.get? spawn.id = some c0)
    (hr : rt.storageRead w
      [{ collection := "player_data", key := "position_" ++ spawn.name,
         userID := msg.userId }] = (.ok objects, w1))
    (hl : spawnReadLoop rt spawn.id objects ⟨0, 0⟩
      { state with names := state.names.set spawn.id spawn.name,
                   colors := state.colors.set spawn.id spawn.color } false =
      (none, state2, isSet)) :
    (doSpawnOp rt msg state w).world =
      (spawnBroadcasts rt msg spawn.id (doSpawnOp rt msg state w).state w1).2.1 := by
  simp only [doSpawnOp, hdec, hn, hc, hr, hl]

/-- C8, as amended: in a session state in which the id of the spawn message
has a names entry and a colors entry but no connection handle, when the
storage read succeeds, `doSpawnOp` sends no broadcast: the dispatcher is never
called, and the world it returns is the one the storage read left.  No state
reachable from `MatchInit` is of this kind: there an id with a names entry
has a connection handle. -/
theorem doSpawnOp_without_handle (rt : Runtime W) :
    (∀ (msg : MatchData) (state : MatchState) (w w1 : W) (id col nm : String)
        (objects : List StorageObject),
      rt.unmarshalDoSpawn msg.data = .ok ⟨id, col, nm⟩ →
      state.names.get? id ≠ none → state.colors.get? id ≠ none →
      state.presences.get? id = none →
      rt.storageRead w
        [{ collection := "player_data", key := "position_" ++ nm,
           userID := msg.userId }] = (.ok objects, w1) →
      broadcastsOf (doSpawnOp rt msg state w).trace = [] ∧
      (doSpawnOp rt msg state w).world = w1) ∧
    (∀ (state : MatchState) (id : String), Reachable rt state →
      state.names.get? id ≠ none → state.presences.get? id ≠ none) := by
  constructor
  · intro msg state w w1 id col nm objects hdec hn hc hp hr
    cases hn' : state.names.get? id with
    | none => exact absurd hn' hn
    | some n0 =>
    cases hc' : state.colors.get? id with
    | none => exact absurd hc' hc
    | some c0 =>
    cases hl : spawnReadLoop rt id objects ⟨0, 0⟩
      { state with names := state.names.set id nm, colors := state.colors.set id col }
      false with
    | mk e rest =>
    obtain ⟨state2, isSet⟩ := rest
    cases e with
    | some e =>
      constructor <;> simp only [doSpawnOp, hdec, hn', hc', hr, hl, broadcastsOf]
    | none =>
      obtain ⟨_, htrace⟩ := doSpawnOp_of_loop_ok rt msg state w ⟨id, col, nm⟩ n0 c0
        objects w1 state2 isSet hdec hn' hc' hr hl
      have hworld := doSpawnOp_world_of_loop_ok rt msg state w ⟨id, col, nm⟩ n0 c0
        objects w1 state2 isSet hdec hn' hc' hr hl
      have hp' : (doSpawnOp rt msg state w).state.presences.get? id = none := by
        rw [(doSpawnOp_frame rt msg state w).1]
        exact hp
      obtain ⟨g1, g2⟩ := spawnBroadcasts_of_no_handle rt msg id
        (doSpawnOp rt msg state w).state w1 hp'
      constructor
      · rw [htrace]
        show broadcastsOf (spawnBroadcasts rt msg id (doSpawnOp rt msg state w).state w1).2.2
          = []
        exact g2
      · rw [hworld]
        exact g1
  · intro state id hreach hn hnone
    have h4 := (keysAgree_of_reachable rt state hreach id).2.2.2
    rw [hnone] at h4
    cases hget : state.names.get? id with
    | none => exact hn hget
    | some x =>
      rw [hget] at h4
      cases h4

/-- Witness of C8, as amended: a spawn of `u1` in the state without its
connection handle, over an empty store; and the state after `u1` joined. -/
theorem doSpawnOp_without_handle_witness :
    (broadcastsOf (doSpawnOp simRuntime msgSpawn stateNoHandle simWorld).trace = [] ∧
      (doSpawnOp simRuntime msgSpawn stateNoHandle simWorld).world = simWorld) ∧
    stateU1.presences.get? "u1" ≠ none :=
  ⟨(doSpawnOp_without_handle simRuntime).1 msgSpawn stateNoHandle simWorld simWorld
      "u1" "0.1,0.2,0.3,1" "Hero" [] rfl (by decide) (by decide) (by decide) rfl,
   (doSpawnOp_without_handle simRuntime).2 stateU1 "u1"
      (Reachable.join newMatchState stateU1 [presenceU1] []
        (Reachable.init newMatchState rfl) rfl) (by decide)⟩

end NoHandle

end World
